import Mathlib

/-!
# mcp-otel-proxy: request pipeline

A shallow embedding of the proxy's request pipeline (`internal/jsonrpc`,
`internal/mcp`, `internal/telemetry`, `internal/proxy`) together with the part of
Go's `encoding/json` the pipeline relies on.

Conventions.
* A byte buffer is a list of characters (the UTF-8 decoding of the buffer).
* A `json.RawMessage` is only ever produced by the decoder or by Marshal, so it is
  represented by the JSON value its bytes denote together with those bytes: a string,
  an array and an object keep the text they were read from or written as, a number
  is its literal, and `null`, `true` and `false` have one spelling. The empty message
  is `none`.
* A Go map is `Option (List (String × α))`: `none` is the nil map, which can be
  read but not written.
* A Go function that can panic returns `Except Panic α`.
-/

set_option autoImplicit false

namespace McpProxy

/-- A byte buffer (`[]byte`). -/
abbrev Bytes := List Char

/-! ## encoding/json: values and syntax -/

/-- A JSON value together with the text it was written with: a number is its literal,
and a string, an array and an object keep their text as `raw`. -/
inductive JSON where
  | null
  | bool (b : Bool)
  | num (lit : List Char)
  | str (s : String) (raw : List Char)
  | arr (elems : List JSON) (raw : List Char)
  | obj (members : List (String × JSON)) (raw : List Char)
  deriving Inhabited

/-- The text of a value: the bytes of the `json.RawMessage` that holds it. -/
def JSON.text : JSON → List Char
  | JSON.null => ['n', 'u', 'l', 'l']
  | JSON.bool b => if b then ['t', 'r', 'u', 'e'] else ['f', 'a', 'l', 's', 'e']
  | JSON.num lit => lit
  | JSON.str _ raw => raw
  | JSON.arr _ raw => raw
  | JSON.obj _ raw => raw

/-- The text read from `s` when `r` is what is left of it. -/
def consumed (s r : List Char) : List Char := s.take (s.length - r.length)

/-- The four characters the JSON grammar treats as insignificant whitespace. -/
def isJSONSpace (c : Char) : Bool :=
  c == ' ' || c == '\t' || c == '\r' || c == '\n'

/-- Drop leading JSON whitespace. -/
def skipSpace : List Char → List Char
  | [] => []
  | c :: cs => if isJSONSpace c then skipSpace cs else c :: cs

/-- Split off the longest prefix of decimal digits. -/
def takeDigits : List Char → List Char × List Char
  | [] => ([], [])
  | c :: cs =>
    if c.isDigit then
      let r := takeDigits cs
      (c :: r.1, r.2)
    else ([], c :: cs)

/-- The integer part of a number: `0`, or a non-zero digit followed by digits. -/
def scanInt : List Char → Option (List Char × List Char)
  | [] => none
  | c :: cs =>
    if c == '0' then some (['0'], cs)
    else if c.isDigit then
      let r := takeDigits cs
      some (c :: r.1, r.2)
    else none

/-- The optional fraction of a number: a dot followed by at least one digit. -/
def scanFrac : List Char → Option (List Char × List Char)
  | '.' :: cs =>
    match takeDigits cs with
    | ([], _) => none
    | (ds, rest) => some ('.' :: ds, rest)
  | cs => some ([], cs)

/-- The optional sign of an exponent. -/
def scanSign : List Char → List Char × List Char
  | [] => ([], [])
  | s :: cs => if s == '+' || s == '-' then ([s], cs) else ([], s :: cs)

/-- The optional exponent of a number. -/
def scanExp : List Char → Option (List Char × List Char)
  | [] => some ([], [])
  | e :: cs =>
    if e == 'e' || e == 'E' then
      match takeDigits (scanSign cs).2 with
      | ([], _) => none
      | (ds, rest) => some (e :: ((scanSign cs).1 ++ ds), rest)
    else some ([], e :: cs)

/-- The optional minus sign of a number. -/
def scanMinus : List Char → List Char × List Char
  | [] => ([], [])
  | c :: cs => if c == '-' then (['-'], cs) else ([], c :: cs)

/-- A number literal: optional minus, integer part, optional fraction and exponent. -/
def scanNumber (cs : List Char) : Option (List Char × List Char) :=
  match scanInt (scanMinus cs).2 with
  | none => none
  | some (i, r1) =>
    match scanFrac r1 with
    | none => none
    | some (f, r2) =>
      match scanExp r2 with
      | none => none
      | some (e, r3) => some ((scanMinus cs).1 ++ i ++ f ++ e, r3)

/-- The value of a hexadecimal digit. -/
def hexVal (c : Char) : Option Nat :=
  if c.isDigit then some (c.toNat - '0'.toNat)
  else if 'a' ≤ c ∧ c ≤ 'f' then some (c.toNat - 'a'.toNat + 10)
  else if 'A' ≤ c ∧ c ≤ 'F' then some (c.toNat - 'A'.toNat + 10)
  else none

/-- The four hex digits of a `\u` escape (`getu4`). -/
def getu4 (a b c d : Char) : Option Nat :=
  match hexVal a, hexVal b, hexVal c, hexVal d with
  | some x, some y, some z, some w => some (((x * 16 + y) * 16 + z) * 16 + w)
  | _, _, _, _ => none

/-- One unit of a string body: a character, or the code unit of a `\u` escape. -/
inductive StrUnit where
  | char (c : Char)
  | unit (u : Nat)

/-- Scan a string body up to its closing quote; control characters and unknown
escapes are syntax errors. -/
def scanString : List Char → Option (List StrUnit × List Char)
  | [] => none
  | '"' :: rest => some ([], rest)
  | '\\' :: rest =>
    match rest with
    | 'u' :: a :: b :: c :: d :: rest1 =>
      match getu4 a b c d with
      | none => none
      | some u =>
        match scanString rest1 with
        | none => none
        | some (us, r) => some (StrUnit.unit u :: us, r)
    | e :: rest1 =>
      let plain : Option Char :=
        if e == '"' then some '"'
        else if e == '\\' then some '\\'
        else if e == '/' then some '/'
        else if e == 'b' then some (Char.ofNat 8)
        else if e == 'f' then some (Char.ofNat 12)
        else if e == 'n' then some '\n'
        else if e == 'r' then some '\r'
        else if e == 't' then some '\t'
        else none
      match plain with
      | none => none
      | some ch =>
        match scanString rest1 with
        | none => none
        | some (us, r) => some (StrUnit.char ch :: us, r)
    | [] => none
  | c :: rest =>
    if c.toNat < 32 then none
    else
      match scanString rest with
      | none => none
      | some (us, r) => some (StrUnit.char c :: us, r)

/-- Whether a code unit is a UTF-16 high surrogate. -/
def isHighSurrogate (u : Nat) : Bool := 0xD800 ≤ u && u < 0xDC00

/-- Whether a code unit is a UTF-16 low surrogate. -/
def isLowSurrogate (u : Nat) : Bool := 0xDC00 ≤ u && u < 0xE000

/-- Turn scanned units into characters (`unquote`): a valid surrogate pair is one
character, a lone surrogate is U+FFFD. -/
def combineUnits : List StrUnit → List Char
  | [] => []
  | StrUnit.char c :: rest => c :: combineUnits rest
  | StrUnit.unit hi :: StrUnit.unit lo :: rest =>
    if isHighSurrogate hi && isLowSurrogate lo then
      Char.ofNat ((hi - 0xD800) * 0x400 + (lo - 0xDC00) + 0x10000) :: combineUnits rest
    else if isHighSurrogate hi || isLowSurrogate hi then
      Char.ofNat 0xFFFD :: combineUnits (StrUnit.unit lo :: rest)
    else Char.ofNat hi :: combineUnits (StrUnit.unit lo :: rest)
  | StrUnit.unit u :: rest =>
    if isHighSurrogate u || isLowSurrogate u then Char.ofNat 0xFFFD :: combineUnits rest
    else Char.ofNat u :: combineUnits rest

/-- A complete string after its opening quote. -/
def parseString (cs : List Char) : Option (String × List Char) :=
  match scanString cs with
  | none => none
  | some (us, rest) => some (String.mk (combineUnits us), rest)

/-- The decoder rejects input nested deeper than this. -/
def maxNestingDepth : Nat := 10000

mutual
/-- One JSON value, with the input left after it. -/
def parseValue : Nat → Nat → List Char → Option (JSON × List Char)
  | 0, _, _ => none
  | fuel + 1, depth, cs =>
    match skipSpace cs with
    | [] => none
    | '{' :: rest =>
      if maxNestingDepth ≤ depth then none
      else
        match skipSpace rest with
        | '}' :: rest1 => some (JSON.obj [] (consumed ('{' :: rest) rest1), rest1)
        | rest1 =>
          match parseMembers fuel (depth + 1) rest1 with
          | none => none
          | some (ms, r) => some (JSON.obj ms (consumed ('{' :: rest) r), r)
    | '[' :: rest =>
      if maxNestingDepth ≤ depth then none
      else
        match skipSpace rest with
        | ']' :: rest1 => some (JSON.arr [] (consumed ('[' :: rest) rest1), rest1)
        | rest1 =>
          match parseElems fuel (depth + 1) rest1 with
          | none => none
          | some (vs, r) => some (JSON.arr vs (consumed ('[' :: rest) r), r)
    | '"' :: rest =>
      match parseString rest with
      | none => none
      | some (s, r) => some (JSON.str s (consumed ('"' :: rest) r), r)
    | 't' :: 'r' :: 'u' :: 'e' :: rest => some (JSON.bool true, rest)
    | 'f' :: 'a' :: 'l' :: 's' :: 'e' :: rest => some (JSON.bool false, rest)
    | 'n' :: 'u' :: 'l' :: 'l' :: rest => some (JSON.null, rest)
    | c :: rest =>
      match scanNumber (c :: rest) with
      | none => none
      | some (lit, r) => some (JSON.num lit, r)
/-- The elements of a non-empty array, up to and including the closing bracket. -/
def parseElems : Nat → Nat → List Char → Option (List JSON × List Char)
  | 0, _, _ => none
  | fuel + 1, depth, cs =>
    match parseValue fuel depth cs with
    | none => none
    | some (v, rest) =>
      match skipSpace rest with
      | ',' :: rest1 =>
        match parseElems fuel depth rest1 with
        | none => none
        | some (vs, r) => some (v :: vs, r)
      | ']' :: rest1 => some ([v], rest1)
      | _ => none
/-- The members of a non-empty object, up to and including the closing brace. -/
def parseMembers : Nat → Nat → List Char → Option (List (String × JSON) × List Char)
  | 0, _, _ => none
  | fuel + 1, depth, cs =>
    match skipSpace cs with
    | '"' :: rest =>
      match parseString rest with
      | none => none
      | some (k, rest1) =>
        match skipSpace rest1 with
        | ':' :: rest2 =>
          match parseValue fuel depth rest2 with
          | none => none
          | some (v, rest3) =>
            match skipSpace rest3 with
            | ',' :: rest4 =>
              match parseMembers fuel depth rest4 with
              | none => none
              | some (ms, r) => some ((k, v) :: ms, r)
            | '}' :: rest4 => some ([(k, v)], rest4)
            | _ => none
        | _ => none
    | _ => none
end

/-- The syntax phase of `json.Unmarshal`: the buffer must hold exactly one JSON value,
surrounded by optional whitespace. Twice the length of the buffer is enough fuel: what
any amount of fuel parses, this amount parses (`decodeJSON_fuel`). -/
def decodeJSON (data : Bytes) : Option JSON :=
  match parseValue (2 * data.length + 2) 0 data with
  | none => none
  | some (v, rest) =>
    match skipSpace rest with
    | [] => some v
    | _ => none

/-! ## encoding/json: printing -/

/-- A hexadecimal digit, lower case. -/
def hexDigit (n : Nat) : Char :=
  if n < 10 then Char.ofNat ('0'.toNat + n) else Char.ofNat ('a'.toNat + (n - 10))

/-- The text Marshal writes for one character of a string (HTML escaping on). -/
def escapeChar (c : Char) : List Char :=
  if c == '"' then ['\\', '"']
  else if c == '\\' then ['\\', '\\']
  else if c == Char.ofNat 8 then ['\\', 'b']
  else if c == Char.ofNat 12 then ['\\', 'f']
  else if c == '\n' then ['\\', 'n']
  else if c == '\r' then ['\\', 'r']
  else if c == '\t' then ['\\', 't']
  else if c.toNat < 32 || c == '<' || c == '>' || c == '&' then
    ['\\', 'u', '0', '0', hexDigit (c.toNat / 16), hexDigit (c.toNat % 16)]
  else if c.toNat == 0x2028 then ['\\', 'u', '2', '0', '2', '8']
  else if c.toNat == 0x2029 then ['\\', 'u', '2', '0', '2', '9']
  else [c]

/-- A quoted string. -/
def renderString (s : String) : List Char :=
  '"' :: (s.data.flatMap escapeChar ++ ['"'])

mutual
/-- The text Marshal writes for a decoded value: compact, strings escaped anew. -/
def render : JSON → List Char
  | JSON.null => ['n', 'u', 'l', 'l']
  | JSON.bool b => if b then ['t', 'r', 'u', 'e'] else ['f', 'a', 'l', 's', 'e']
  | JSON.num lit => lit
  | JSON.str s _ => renderString s
  | JSON.arr xs _ => '[' :: ((renderElems xs).drop 1 ++ [']'])
  | JSON.obj ms _ => '{' :: ((renderMembers ms).drop 1 ++ ['}'])
termination_by structural v => v
/-- Array elements, each preceded by a comma. -/
def renderElems : List JSON → List Char
  | [] => []
  | x :: rest => ',' :: (render x ++ renderElems rest)
termination_by structural xs => xs
/-- Object members, each preceded by a comma. -/
def renderMembers : List (String × JSON) → List Char
  | [] => []
  | (k, v) :: rest => ',' :: (renderString k ++ ':' :: (render v ++ renderMembers rest))
termination_by structural ms => ms
end

/-- A string value as Marshal writes it. -/
def JSON.mkStr (s : String) : JSON := JSON.str s (renderString s)

/-- An array value as Marshal writes it. -/
def JSON.mkArr (xs : List JSON) : JSON := JSON.arr xs ('[' :: ((renderElems xs).drop 1 ++ [']']))

/-- An object value as Marshal writes it. -/
def JSON.mkObj (ms : List (String × JSON)) : JSON :=
  JSON.obj ms ('{' :: ((renderMembers ms).drop 1 ++ ['}']))

/-- The function `compact` of `encoding/json` with HTML escaping on, which Marshal
applies to the bytes of a `json.RawMessage`: outside strings the insignificant whitespace
is dropped; `<`, `>`, `&`, U+2028 and U+2029 are written as `\u` escapes; every other
byte is kept. `inStr` tells whether the text so far ends inside a string, `esc` whether
it ends right after a backslash there. -/
def compactFrom : Bool → Bool → List Char → List Char
  | _, _, [] => []
  | inStr, esc, c :: rest =>
    (if c == '<' || c == '>' || c == '&' then
        ['\\', 'u', '0', '0', hexDigit (c.toNat / 16), hexDigit (c.toNat % 16)]
      else if c.toNat == 0x2028 then ['\\', 'u', '2', '0', '2', '8']
      else if c.toNat == 0x2029 then ['\\', 'u', '2', '0', '2', '9']
      else if !inStr && isJSONSpace c then []
      else [c]) ++
    (if inStr then
        (if esc then compactFrom true false rest
         else if c == '\\' then compactFrom true true rest
         else if c == '"' then compactFrom false false rest
         else compactFrom true false rest)
      else compactFrom (c == '"') false rest)

/-- The text Marshal writes for a `json.RawMessage`. -/
def compact (raw : List Char) : List Char := compactFrom false false raw

/-- The elements of a `[]json.RawMessage` as Marshal writes them, each preceded by a
comma. -/
def compactElems : List JSON → List Char
  | [] => []
  | x :: rest => ',' :: (compact x.text ++ compactElems rest)

/-- The entries of a `map[string]json.RawMessage` as Marshal writes them, each preceded
by a comma. -/
def compactMembers : List (String × JSON) → List Char
  | [] => []
  | (k, v) :: rest => ',' :: (renderString k ++ ':' :: (compact v.text ++ compactMembers rest))

/-! ## Go maps -/

/-- A run-time panic. -/
inductive Panic where
  | nilMapAssignment
  | indexOutOfRange
  deriving DecidableEq, Repr

/-- Look a key up in an association list. -/
def assocGet {α : Type} (k : String) : List (String × α) → Option α
  | [] => none
  | (k1, v) :: rest => if k1 == k then some v else assocGet k rest

/-- Store a value under a key, replacing the value already there. -/
def assocSet {α : Type} (k : String) (v : α) : List (String × α) → List (String × α)
  | [] => [(k, v)]
  | (k1, v1) :: rest => if k1 == k then (k1, v) :: rest else (k1, v1) :: assocSet k v rest

/-- A Go map with string keys; `none` is the nil map. -/
abbrev GoMap (α : Type) := Option (List (String × α))

/-- The read `v, ok := m[k]`; reading a nil map finds nothing. -/
def GoMap.get {α : Type} (m : GoMap α) (k : String) : Option α :=
  match m with
  | none => none
  | some l => assocGet k l

/-- The write `m[k] = v`; writing a nil map panics. -/
def GoMap.set {α : Type} (m : GoMap α) (k : String) (v : α) : Except Panic (GoMap α) :=
  match m with
  | none => Except.error Panic.nilMapAssignment
  | some l => Except.ok (some (assocSet k v l))

/-- The map an object decodes to: members are stored in order, so a repeated key
keeps its last value. -/
def buildMap {α : Type} (ms : List (String × α)) : List (String × α) :=
  ms.foldl (fun acc kv => assocSet kv.1 kv.2 acc) []

/-- The order Marshal sorts keys by: lexicographic on code points, which is the
byte order of their UTF-8 encodings. -/
def keyLt : List Char → List Char → Bool
  | _, [] => false
  | [], _ :: _ => true
  | a :: as, b :: bs => decide (a.toNat < b.toNat) || (a.toNat == b.toNat && keyLt as bs)

/-- Insert a member into a list sorted by key. -/
def insertByKey {α : Type} (kv : String × α) : List (String × α) → List (String × α)
  | [] => [kv]
  | kv1 :: rest =>
    if keyLt kv.1.data kv1.1.data then kv :: kv1 :: rest else kv1 :: insertByKey kv rest

/-- Members in the order Marshal prints a map: sorted by key. -/
def sortByKey {α : Type} : List (String × α) → List (String × α)
  | [] => []
  | kv :: rest => insertByKey kv (sortByKey rest)

/-! ## encoding/json: decoding into the types the proxy uses -/

/-- Why `json.Unmarshal` returned an error. -/
inductive UnmarshalError where
  | invalidJSON
  | typeMismatch
  deriving DecidableEq, Repr

/-- A `json.RawMessage`: `none` is the empty message. -/
abbrev RawMessage := Option JSON

/-- Decode a value into a nil `map[string]json.RawMessage`: an object allocates the
map, `null` leaves it nil without error, anything else is a type error. -/
def unmarshalRawMap : JSON → Except UnmarshalError (GoMap JSON)
  | JSON.null => Except.ok none
  | JSON.obj ms _ => Except.ok (some (buildMap ms))
  | _ => Except.error UnmarshalError.typeMismatch

/-- Decode a value into an empty `string`: `null` leaves it empty without error. -/
def unmarshalString : JSON → Except UnmarshalError String
  | JSON.null => Except.ok ""
  | JSON.str s _ => Except.ok s
  | _ => Except.error UnmarshalError.typeMismatch

/-- Decode a value into a false `bool`: `null` leaves it false without error. -/
def unmarshalBool : JSON → Except UnmarshalError Bool
  | JSON.null => Except.ok false
  | JSON.bool b => Except.ok b
  | _ => Except.error UnmarshalError.typeMismatch

/-- Marshal a `map[string]json.RawMessage`: keys sorted, every entry written as the
compacted bytes of its message; a nil map prints `null`. The result is the message that
holds the bytes written. -/
def marshalRawMap : GoMap JSON → JSON
  | none => JSON.null
  | some l =>
    JSON.obj (sortByKey l) ('{' :: ((compactMembers (sortByKey l)).drop 1 ++ ['}']))

/-- A value held in an `interface{}` after decoding. A `float64` is identified by the
literal Marshal prints for it. -/
inductive GoVal where
  | nil
  | bool (b : Bool)
  | float64 (printed : List Char)
  | string (s : String)
  | slice (xs : List GoVal)
  | map (ms : List (String × GoVal))
  deriving Inhabited

/-- The double-precision conversion of `strconv`, which lies outside this development:
`reprint lit` is the literal Marshal prints for the `float64` that `lit` parses to, and
`none` when `lit` is out of range. -/
structure Float64 where
  reprint : List Char → Option (List Char)

mutual
/-- Decode a value into an `interface{}`. The only failure is a number out of the
range of `float64`. -/
def toGoVal (F : Float64) : JSON → Except UnmarshalError GoVal
  | JSON.null => Except.ok GoVal.nil
  | JSON.bool b => Except.ok (GoVal.bool b)
  | JSON.num lit =>
    match F.reprint lit with
    | none => Except.error UnmarshalError.typeMismatch
    | some p => Except.ok (GoVal.float64 p)
  | JSON.str s _ => Except.ok (GoVal.string s)
  | JSON.arr xs _ =>
    match toGoVals F xs with
    | Except.error e => Except.error e
    | Except.ok ys => Except.ok (GoVal.slice ys)
  | JSON.obj ms _ =>
    match toGoMembers F ms with
    | Except.error e => Except.error e
    | Except.ok ys => Except.ok (GoVal.map (buildMap ys))
termination_by structural v => v
/-- Decode the elements of an array. -/
def toGoVals (F : Float64) : List JSON → Except UnmarshalError (List GoVal)
  | [] => Except.ok []
  | x :: rest =>
    match toGoVal F x, toGoVals F rest with
    | Except.ok y, Except.ok ys => Except.ok (y :: ys)
    | Except.error e, _ => Except.error e
    | _, Except.error e => Except.error e
termination_by structural xs => xs
/-- Decode the members of an object. -/
def toGoMembers (F : Float64) : List (String × JSON) → Except UnmarshalError (List (String × GoVal))
  | [] => Except.ok []
  | (k, x) :: rest =>
    match toGoVal F x, toGoMembers F rest with
    | Except.ok y, Except.ok ys => Except.ok ((k, y) :: ys)
    | Except.error e, _ => Except.error e
    | _, Except.error e => Except.error e
termination_by structural ms => ms
end

/-- Decode a value into a nil `map[string]interface{}`. -/
def unmarshalIfaceMap (F : Float64) : JSON → Except UnmarshalError (GoMap GoVal)
  | JSON.null => Except.ok none
  | JSON.obj ms _ =>
    match toGoMembers F ms with
    | Except.error e => Except.error e
    | Except.ok ys => Except.ok (some (buildMap ys))
  | _ => Except.error UnmarshalError.typeMismatch

mutual
/-- Marshal an `interface{}` value. -/
def fromGoVal : GoVal → JSON
  | GoVal.nil => JSON.null
  | GoVal.bool b => JSON.bool b
  | GoVal.float64 p => JSON.num p
  | GoVal.string s => JSON.mkStr s
  | GoVal.slice xs => JSON.mkArr (fromGoVals xs)
  | GoVal.map ms => JSON.mkObj (sortByKey (fromGoMembers ms))
termination_by structural v => v
/-- Marshal the elements of a slice. -/
def fromGoVals : List GoVal → List JSON
  | [] => []
  | x :: rest => fromGoVal x :: fromGoVals rest
termination_by structural xs => xs
/-- Marshal the entries of a map. -/
def fromGoMembers : List (String × GoVal) → List (String × JSON)
  | [] => []
  | (k, x) :: rest => (k, fromGoVal x) :: fromGoMembers rest
termination_by structural ms => ms
end

/-- Marshal a `map[string]interface{}`; a nil map prints `null`. The result is the
message that holds the bytes written. -/
def marshalIfaceMap : GoMap GoVal → JSON
  | none => JSON.null
  | some l => JSON.mkObj (sortByKey (fromGoMembers l))

/-! ## internal/jsonrpc/parser.go -/

/-- White space as `bytes.TrimSpace` sees it (`unicode.IsSpace`). -/
def isSpace (c : Char) : Bool :=
  let n := c.toNat
  n == 0x20 || (0x09 ≤ n && n ≤ 0x0D) || n == 0x85 || n == 0xA0 || n == 0x1680 ||
    (0x2000 ≤ n && n ≤ 0x200A) || n == 0x2028 || n == 0x2029 || n == 0x202F ||
    n == 0x205F || n == 0x3000

/-- The function `bytes.TrimSpace`: drop leading and trailing white space. -/
def TrimSpace (b : Bytes) : Bytes :=
  ((b.dropWhile isSpace).reverse.dropWhile isSpace).reverse

/-- Case folding of one character of an object key; the only characters outside
ASCII that fold to an ASCII letter are U+017F and U+212A. -/
def foldChar (c : Char) : Char :=
  let n := c.toNat
  if 0x41 ≤ n ∧ n ≤ 0x5A then Char.ofNat (n + 32)
  else if n = 0x17F then 's'
  else if n = 0x212A then 'k'
  else c

/-- The folded form of an object key. A key selects the struct field whose lower-case
tag equals its folded form: the decoder prefers an exact match and also accepts a
case-insensitive one. -/
def foldName (key : String) : String := String.mk (key.data.map foldChar)

/-- Decode an object into a struct: members are stored in order, and the first type
error makes the whole decoding fail. -/
def decodeMembers {σ : Type} (store : σ → String × JSON → Except UnmarshalError σ) :
    σ → List (String × JSON) → Except UnmarshalError σ
  | s, [] => Except.ok s
  | s, kv :: rest =>
    match store s kv with
    | Except.error e => Except.error e
    | Except.ok s1 => decodeMembers store s1 rest

/-- Store a value in a `string` field: `null` leaves the field as it is. -/
def storeString (old : String) : JSON → Except UnmarshalError String
  | JSON.null => Except.ok old
  | JSON.str s _ => Except.ok s
  | _ => Except.error UnmarshalError.typeMismatch

/-- Request represents a JSON-RPC 2.0 request. -/
structure Request where
  JSONRPC : String
  Method : String
  Params : RawMessage
  ID : RawMessage

/-- The zero value of `Request`. -/
def Request.zero : Request := ⟨"", "", none, none⟩

/-- IsNotification returns true if the request has no ID (JSON-RPC notification):
`len(r.ID) == 0 || string(r.ID) == "null"`. -/
def Request.IsNotification (r : Request) : Bool :=
  match r.ID with
  | none => true
  | some JSON.null => true
  | some _ => false

/-- Store one object member in a `Request`; a raw-message field takes any value,
`null` included. -/
def Request.store (r : Request) (kv : String × JSON) : Except UnmarshalError Request :=
  let name := foldName kv.1
  if name = "jsonrpc" then
    match storeString r.JSONRPC kv.2 with
    | Except.error e => Except.error e
    | Except.ok s => Except.ok { r with JSONRPC := s }
  else if name = "method" then
    match storeString r.Method kv.2 with
    | Except.error e => Except.error e
    | Except.ok s => Except.ok { r with Method := s }
  else if name = "params" then Except.ok { r with Params := some kv.2 }
  else if name = "id" then Except.ok { r with ID := some kv.2 }
  else Except.ok r

/-- Decode a value into a zero `Request`: `null` leaves the struct untouched without
error, a value that is neither an object nor `null` is a type error. -/
def decodeRequest : JSON → Except UnmarshalError Request
  | JSON.null => Except.ok Request.zero
  | JSON.obj ms _ => decodeMembers Request.store Request.zero ms
  | _ => Except.error UnmarshalError.typeMismatch

/-- Error represents a JSON-RPC 2.0 error object. -/
structure Error where
  Code : Int
  Message : String
  Data : RawMessage

/-- The zero value of `Error`. -/
def Error.zero : Error := ⟨0, "", none⟩

/-- The value of a non-empty run of decimal digits. -/
def digitsVal : List Char → Option Nat
  | [] => none
  | cs => cs.foldl (fun acc c =>
      match acc with
      | none => none
      | some n => if c.isDigit then some (n * 10 + (c.toNat - '0'.toNat)) else none) (some 0)

/-- Store a number literal in an `int` (`strconv.ParseInt` on 64 bits): only a plain
integer in range is accepted. -/
def parseInt64 : List Char → Option Int
  | '-' :: ds =>
    match digitsVal ds with
    | none => none
    | some n => if n ≤ 2 ^ 63 then some (-(n : Int)) else none
  | ds =>
    match digitsVal ds with
    | none => none
    | some n => if n < 2 ^ 63 then some (n : Int) else none

/-- Store one object member in an `Error`. -/
def Error.store (e : Error) (kv : String × JSON) : Except UnmarshalError Error :=
  let name := foldName kv.1
  if name = "code" then
    match kv.2 with
    | JSON.null => Except.ok e
    | JSON.num lit =>
      match parseInt64 lit with
      | none => Except.error UnmarshalError.typeMismatch
      | some n => Except.ok { e with Code := n }
    | _ => Except.error UnmarshalError.typeMismatch
  else if name = "message" then
    match storeString e.Message kv.2 with
    | Except.error err => Except.error err
    | Except.ok s => Except.ok { e with Message := s }
  else if name = "data" then Except.ok { e with Data := some kv.2 }
  else Except.ok e

/-- Response represents a JSON-RPC 2.0 response; the `*Error` pointer is an option. -/
structure Response where
  JSONRPC : String
  Result : RawMessage
  Error : Option Error
  ID : RawMessage

/-- The zero value of `Response`. -/
def Response.zero : Response := ⟨"", none, none, none⟩

/-- Store one object member in a `Response`. For the pointer field `null` stores nil
and an object is decoded into the struct pointed to, allocated if the pointer is nil. -/
def Response.store (r : Response) (kv : String × JSON) : Except UnmarshalError Response :=
  let name := foldName kv.1
  if name = "jsonrpc" then
    match storeString r.JSONRPC kv.2 with
    | Except.error e => Except.error e
    | Except.ok s => Except.ok { r with JSONRPC := s }
  else if name = "result" then Except.ok { r with Result := some kv.2 }
  else if name = "error" then
    match kv.2 with
    | JSON.null => Except.ok { r with Error := none }
    | JSON.obj ms _ =>
      match decodeMembers Error.store (r.Error.getD Error.zero) ms with
      | Except.error e => Except.error e
      | Except.ok e => Except.ok { r with Error := some e }
    | _ => Except.error UnmarshalError.typeMismatch
  else if name = "id" then Except.ok { r with ID := some kv.2 }
  else Except.ok r

/-- Decode a value into a zero `Response`. -/
def decodeResponse : JSON → Except UnmarshalError Response
  | JSON.null => Except.ok Response.zero
  | JSON.obj ms _ => decodeMembers Response.store Response.zero ms
  | _ => Except.error UnmarshalError.typeMismatch

/-- Decode every element of an array, failing on the first element that fails. -/
def decodeAll {α : Type} (dec : JSON → Except UnmarshalError α) :
    List JSON → Except UnmarshalError (List α)
  | [] => Except.ok []
  | x :: rest =>
    match dec x with
    | Except.error e => Except.error e
    | Except.ok y =>
      match decodeAll dec rest with
      | Except.error e => Except.error e
      | Except.ok ys => Except.ok (y :: ys)

/-- Decode a value into a nil slice: an array gives one entry per element, `null`
leaves the slice nil without error, anything else is a type error. -/
def decodeSlice {α : Type} (dec : JSON → Except UnmarshalError α) :
    JSON → Except UnmarshalError (List α)
  | JSON.null => Except.ok []
  | JSON.arr xs _ => decodeAll dec xs
  | _ => Except.error UnmarshalError.typeMismatch

/-- The call `json.Unmarshal(data, &target)`: the syntax of the whole buffer is checked
first, then the value is decoded into the target. -/
def Unmarshal {α : Type} (dec : JSON → Except UnmarshalError α) (data : Bytes) :
    Except UnmarshalError α :=
  match decodeJSON data with
  | none => Except.error UnmarshalError.invalidJSON
  | some v => dec v

/-- ParseResult holds the result of parsing a JSON-RPC message body. -/
structure ParseResult where
  IsBatch : Bool
  Requests : List Request
  Responses : List Response

/-- What `ParseRequest` and `ParseResponse` fail with: `ErrEmptyBody` or the error of
`json.Unmarshal`. -/
inductive ParseError where
  | ErrEmptyBody
  | decode (e : UnmarshalError)
  deriving DecidableEq, Repr

/-- ParseRequest parses a JSON-RPC request body. Detects batch (array) vs single
request. -/
def ParseRequest (body : Bytes) : Except ParseError ParseResult :=
  match TrimSpace body with
  | [] => Except.error ParseError.ErrEmptyBody
  | c :: rest =>
    if c = '[' then
      match Unmarshal (decodeSlice decodeRequest) (c :: rest) with
      | Except.error e => Except.error (ParseError.decode e)
      | Except.ok rs => Except.ok ⟨true, rs, []⟩
    else
      match Unmarshal decodeRequest (c :: rest) with
      | Except.error e => Except.error (ParseError.decode e)
      | Except.ok req => Except.ok ⟨false, [req], []⟩

/-- ParseResponse parses a JSON-RPC response body. Detects batch (array) vs single
response. -/
def ParseResponse (body : Bytes) : Except ParseError ParseResult :=
  match TrimSpace body with
  | [] => Except.error ParseError.ErrEmptyBody
  | c :: rest =>
    if c = '[' then
      match Unmarshal (decodeSlice decodeResponse) (c :: rest) with
      | Except.error e => Except.error (ParseError.decode e)
      | Except.ok rs => Except.ok ⟨true, [], rs⟩
    else
      match Unmarshal decodeResponse (c :: rest) with
      | Except.error e => Except.error (ParseError.decode e)
      | Except.ok resp => Except.ok ⟨false, [], [resp]⟩

/-- IDString returns the JSON-RPC ID as a string for use in span attributes: the empty
string for an empty message and for `null`, the string for an id that decodes as a
string, and otherwise the bytes of the message as they were read (`string(id)`). -/
def IDString (id : RawMessage) : String :=
  match id with
  | none => ""
  | some JSON.null => ""
  | some v =>
    match unmarshalString v with
    | Except.ok s => s
    | Except.error _ => String.mk v.text

/-! ## internal/telemetry/propagation.go -/

/-- What the propagators read from a `context.Context`: whether the span context of the
current span is valid, the `traceparent` and `tracestate` values that describe it, and
the encoded baggage (empty strings when there is none). -/
structure Context where
  spanValid : Bool
  traceparent : String
  tracestate : String
  baggage : String
  deriving DecidableEq, Repr

/-- The method `metaCarrier.Get`: the entry under `key` when it is a string, else the
empty string. -/
def metaCarrier.Get (m : GoMap GoVal) (key : String) : String :=
  match m.get key with
  | some (GoVal.string s) => s
  | _ => ""

/-- The method `metaCarrier.Set`: the map write `c.meta[key] = value`. -/
def metaCarrier.Set (m : GoMap GoVal) (key value : String) : Except Panic (GoMap GoVal) :=
  m.set key (GoVal.string value)

/-- The `Inject` of `propagation.TraceContext`: nothing for an invalid span context,
otherwise `tracestate` when it is not empty and then `traceparent`. -/
def traceContextInject (ctx : Context) (m : GoMap GoVal) : Except Panic (GoMap GoVal) :=
  if ctx.spanValid = false then Except.ok m
  else
    let afterState :=
      if ctx.tracestate = "" then Except.ok m else metaCarrier.Set m "tracestate" ctx.tracestate
    match afterState with
    | Except.error p => Except.error p
    | Except.ok m1 => metaCarrier.Set m1 "traceparent" ctx.traceparent

/-- The `Inject` of `propagation.Baggage`: `baggage` when it is not empty. -/
def baggageInject (ctx : Context) (m : GoMap GoVal) : Except Panic (GoMap GoVal) :=
  if ctx.baggage = "" then Except.ok m else metaCarrier.Set m "baggage" ctx.baggage

/-- The `Inject` of the composite propagator installed by `init`: trace context, then
baggage. -/
def propagatorInject (ctx : Context) (m : GoMap GoVal) : Except Panic (GoMap GoVal) :=
  match traceContextInject ctx m with
  | Except.error p => Except.error p
  | Except.ok m1 => baggageInject ctx m1

/-- The OpenTelemetry operations that produce a context. `extract ctx get` is the
`Extract` of the composite propagator on a carrier whose `Get` is `get`; `start ctx name`
is the context `Tracer.Start` returns, carrying the new span. -/
structure Otel where
  extract : Context → (String → String) → Context
  start : Context → String → Context

/-- ExtractContextFromMeta extracts W3C trace context from params._meta.
Falls back to HTTP headers if no context in _meta. -/
def ExtractContextFromMeta (F : Float64) (O : Otel) (ctx : Context) (params : RawMessage)
    (headers : String → String) : Context :=
  match params with
  | none => O.extract ctx headers
  | some p =>
    match unmarshalRawMap p with
    | Except.error _ => O.extract ctx headers
    | Except.ok paramsMap =>
      match paramsMap.get "_meta" with
      | none => O.extract ctx headers
      | some metaRaw =>
        match unmarshalIfaceMap F metaRaw with
        | Except.error _ => O.extract ctx headers
        | Except.ok m =>
          match m.get "traceparent" with
          | some _ => O.extract ctx (metaCarrier.Get m)
          | none => O.extract ctx headers

/-- The error of `json.Marshal`. The values marshalled here are raw messages and
decoded values, for which it does not occur. -/
inductive MarshalError where
  | unsupportedValue
  deriving DecidableEq, Repr

/-- The part of `InjectContextIntoBody` after the syntax check of `json.Unmarshal(body,
&msg)`, on the value `v` the body denotes. `none` stands for `return body, nil`; a
result `some out` is the message that holds the bytes `json.Marshal(msg)` returns. -/
def injectIntoValue (F : Float64) (ctx : Context) (v : JSON) : Except Panic (Option JSON) :=
  match unmarshalRawMap v with
  | Except.error _ => Except.ok none
  | Except.ok msg =>
    -- Parse or create params
    let paramsOrErr : Except UnmarshalError (GoMap JSON) :=
      match msg.get "params" with
      | some paramsRaw => unmarshalRawMap paramsRaw
      | none => Except.ok (some [])
    match paramsOrErr with
    | Except.error _ => Except.ok none
    | Except.ok params =>
      -- Parse or create _meta
      let m0 : GoMap GoVal :=
        match params.get "_meta" with
        | some metaRaw =>
          match unmarshalIfaceMap F metaRaw with
          | Except.error _ => some []
          | Except.ok m => m
        | none => some []
      -- Inject trace context
      match propagatorInject ctx m0 with
      | Except.error p => Except.error p
      | Except.ok m1 =>
        -- Re-serialize _meta -> params -> message
        match params.set "_meta" (marshalIfaceMap m1) with
        | Except.error p => Except.error p
        | Except.ok params1 =>
          match msg.set "params" (marshalRawMap params1) with
          | Except.error p => Except.error p
          | Except.ok msg1 => Except.ok (some (marshalRawMap msg1))

/-- InjectContextIntoBody injects the current span's trace context into params._meta
and returns the modified JSON body. -/
def InjectContextIntoBody (F : Float64) (ctx : Context) (body : Bytes) :
    Except Panic (Bytes × Option MarshalError) :=
  if ctx.spanValid = false then Except.ok (body, none)
  else
    match decodeJSON body with
    | none => Except.ok (body, none)
    | some v =>
      match injectIntoValue F ctx v with
      | Except.error p => Except.error p
      | Except.ok none => Except.ok (body, none)
      | Except.ok (some out) => Except.ok (out.text, none)

/-- The same function on a buffer that is a raw message of the decoder: the result is
again a message, the one given when the injection returns its input, or the one that
holds the bytes written. -/
def InjectContextIntoRaw (F : Float64) (ctx : Context) (msg : JSON) :
    Except Panic (JSON × Option MarshalError) :=
  if ctx.spanValid = false then Except.ok (msg, none)
  else
    match injectIntoValue F ctx msg with
    | Except.error p => Except.error p
    | Except.ok none => Except.ok (msg, none)
    | Except.ok (some out) => Except.ok (out, none)

/-- Decode a value into a nil `[]json.RawMessage`; `null` leaves the slice nil. -/
def unmarshalRawSlice : JSON → Except UnmarshalError (Option (List JSON))
  | JSON.null => Except.ok none
  | JSON.arr xs _ => Except.ok (some xs)
  | _ => Except.error UnmarshalError.typeMismatch

/-- Marshal a `[]json.RawMessage`: every element written as the compacted bytes of its
message; a nil slice prints `null`. The result is the message that holds the bytes
written. -/
def marshalRawSlice : Option (List JSON) → JSON
  | none => JSON.null
  | some xs => JSON.arr xs ('[' :: ((compactElems xs).drop 1 ++ [']']))

/-- The loop of `InjectContextIntoBatchBody`: every element is replaced by the result
of the injection when that returns a nil error. -/
def injectEach (F : Float64) (ctx : Context) : List JSON → Except Panic (List JSON)
  | [] => Except.ok []
  | msg :: rest =>
    match InjectContextIntoRaw F ctx msg with
    | Except.error p => Except.error p
    | Except.ok (modified, err) =>
      match injectEach F ctx rest with
      | Except.error p => Except.error p
      | Except.ok out => Except.ok ((if err = none then modified else msg) :: out)

/-- InjectContextIntoBatchBody injects context into each request in a batch. -/
def InjectContextIntoBatchBody (F : Float64) (ctx : Context) (body : Bytes) :
    Except Panic (Bytes × Option MarshalError) :=
  match Unmarshal unmarshalRawSlice body with
  | Except.error _ => Except.ok (body, none)
  | Except.ok none => Except.ok ((marshalRawSlice none).text, none)
  | Except.ok (some msgs) =>
    match injectEach F ctx msgs with
    | Except.error p => Except.error p
    | Except.ok out => Except.ok ((marshalRawSlice (some out)).text, none)

/-! ## internal/mcp/extractor.go -/

/-- RequestInfo holds MCP-specific fields extracted from a JSON-RPC request. -/
structure RequestInfo where
  Method : String
  ToolName : String
  PromptName : String
  ResourceURI : String
  RequestID : String
  deriving DecidableEq, Repr

/-- Target returns the operation target (tool name, prompt name, or resource URI). -/
def RequestInfo.Target (ri : RequestInfo) : String :=
  if ri.ToolName ≠ "" then ri.ToolName
  else if ri.PromptName ≠ "" then ri.PromptName
  else if ri.ResourceURI ≠ "" then ri.ResourceURI
  else ""

/-- SpanName returns the OTel span name following MCP semantic conventions. -/
def RequestInfo.SpanName (ri : RequestInfo) : String :=
  if ri.Target ≠ "" then ri.Method ++ " " ++ ri.Target else ri.Method

/-- The lookup `params[key]` followed by `json.Unmarshal` into a string; `none` when
the key is absent or the value is not a string or `null`. -/
def stringParam (params : GoMap JSON) (key : String) : Option String :=
  match params.get key with
  | none => none
  | some raw =>
    match unmarshalString raw with
    | Except.ok s => some s
    | Except.error _ => none

/-- ExtractRequestInfo extracts MCP-specific fields from a parsed JSON-RPC request. -/
def ExtractRequestInfo (req : Request) : RequestInfo :=
  let info : RequestInfo := ⟨req.Method, "", "", "", IDString req.ID⟩
  match req.Params with
  | none => info
  | some p =>
    match unmarshalRawMap p with
    | Except.error _ => info
    | Except.ok params =>
      if req.Method = "tools/call" then
        match stringParam params "name" with
        | some s => { info with ToolName := s }
        | none => info
      else if req.Method = "resources/read" ∨ req.Method = "resources/subscribe" ∨
          req.Method = "resources/unsubscribe" then
        match stringParam params "uri" with
        | some s => { info with ResourceURI := s }
        | none => info
      else if req.Method = "prompts/get" then
        match stringParam params "name" with
        | some s => { info with PromptName := s }
        | none => info
      else info

/-- ResponseInfo holds MCP-specific fields extracted from a JSON-RPC response. -/
structure ResponseInfo where
  ErrorCode : Int
  ErrorMessage : String
  HasError : Bool
  IsToolError : Bool
  deriving DecidableEq, Repr

/-- The function `strconv.Itoa`. -/
def Itoa (n : Int) : String :=
  match n with
  | Int.ofNat m => String.mk (Nat.toDigits 10 m)
  | Int.negSucc m => String.mk ('-' :: Nat.toDigits 10 (m + 1))

/-- ErrorType returns the error.type attribute value per MCP semantic conventions. -/
def ResponseInfo.ErrorType (ri : ResponseInfo) : String :=
  if ri.HasError = false then ""
  else if ri.IsToolError then "tool_error"
  else Itoa ri.ErrorCode

/-- The probe of a `tools/call` result: whether it decodes as an object whose `isError`
decodes as the boolean true. -/
def resultIsError (result : RawMessage) : Bool :=
  match result with
  | none => false
  | some raw =>
    match unmarshalRawMap raw with
    | Except.error _ => false
    | Except.ok m =>
      match m.get "isError" with
      | none => false
      | some isErr =>
        match unmarshalBool isErr with
        | Except.ok b => b
        | Except.error _ => false

/-- ExtractResponseInfo extracts MCP-specific fields from a parsed JSON-RPC response. -/
def ExtractResponseInfo (resp : Response) (method : String) : ResponseInfo :=
  let info : ResponseInfo :=
    match resp.Error with
    | some e => ⟨e.Code, e.Message, true, false⟩
    | none => ⟨0, "", false, false⟩
  if method = "tools/call" ∧ resp.Error.isNone ∧ resultIsError resp.Result = true then
    { info with HasError := true, IsToolError := true }
  else info

/-! ## internal/mcp/session.go -/

/-- Session holds state from an MCP initialize handshake. Times are instants of one
clock. -/
structure Session where
  ID : String
  ProtocolVersion : String
  CreatedAt : Int
  LastAccessedAt : Int
  deriving DecidableEq, Repr

/-- SessionStore manages MCP session state with TTL-based eviction. The map is made by
`NewSessionStore` and is never nil; `onAdd` and `onRemove` tell whether the callback is
set. -/
structure SessionStore where
  sessions : List (String × Session)
  ttl : Int
  onAdd : Bool
  onRemove : Bool
  deriving DecidableEq, Repr

/-- A call of one of the callbacks of the store. -/
inductive Notification where
  | added
  | removed
  deriving DecidableEq, Repr

/-- NewSessionStore creates a new session store with TTL eviction. -/
def NewSessionStore (ttl : Int) (onAdd onRemove : Bool) : SessionStore :=
  ⟨[], ttl, onAdd, onRemove⟩

/-- Get returns the session for the given ID, or nil if not found; a session found has
its `LastAccessedAt` set to the current time. -/
def SessionStore.Get (ss : SessionStore) (id : String) (now : Int) :
    Option Session × SessionStore :=
  match assocGet id ss.sessions with
  | none => (none, ss)
  | some s =>
    let s1 : Session := { s with LastAccessedAt := now }
    (some s1, { ss with sessions := assocSet id s1 ss.sessions })

/-- The negotiated version `TrackInitialize` reads from the result of the response. -/
def protocolVersionOf (resp : Response) : String :=
  match resp.Result with
  | none => ""
  | some raw =>
    match unmarshalRawMap raw with
    | Except.error _ => ""
    | Except.ok result => (stringParam result "protocolVersion").getD ""

/-- TrackInitialize extracts session info from initialize request/response. The two
times are the two readings of the clock, for `CreatedAt` and `LastAccessedAt`. -/
def SessionStore.TrackInitialize (ss : SessionStore) (resp : Response) (sessionID : String)
    (created accessed : Int) : SessionStore × List Notification :=
  if sessionID = "" then (ss, [])
  else
    let s : Session := ⟨sessionID, protocolVersionOf resp, created, accessed⟩
    ({ ss with sessions := assocSet sessionID s ss.sessions },
      if ss.onAdd then [Notification.added] else [])

/-- ActiveCount returns the number of active sessions. -/
def SessionStore.ActiveCount (ss : SessionStore) : Nat := ss.sessions.length

/-- The largest `time.Duration`, in nanoseconds. -/
def maxDuration : Int := 2 ^ 63 - 1

/-- The smallest `time.Duration`, in nanoseconds. -/
def minDuration : Int := -(2 ^ 63)

/-- The method `Time.Sub`: the difference of two instants, in nanoseconds, kept within the
range of `time.Duration`. -/
def timeSub (t u : Int) : Int :=
  if t - u > maxDuration then maxDuration
  else if t - u < minDuration then minDuration
  else t - u

/-- The test of `evict`: `now.Sub(s.LastAccessedAt) > ss.ttl`. -/
def SessionStore.expired (ss : SessionStore) (now : Int) (s : Session) : Bool :=
  decide (timeSub now s.LastAccessedAt > ss.ttl)

/-- One pass of the eviction loop at time `now`. -/
def SessionStore.evict (ss : SessionStore) (now : Int) : SessionStore × List Notification :=
  ({ ss with sessions := ss.sessions.filter (fun kv => !ss.expired now kv.2) },
    if ss.onRemove then
      (ss.sessions.filter (fun kv => ss.expired now kv.2)).map (fun _ => Notification.removed)
    else [])

/-! ## internal/telemetry: attributes, spans and instruments -/

/-- The value of an attribute. -/
inductive AttrValue where
  | str (s : String)
  | int (n : Int)
  deriving DecidableEq, Repr

/-- An attribute (`attribute.KeyValue`). -/
abbrev KeyValue := String × AttrValue

/-- ErrorAttr returns a metric option with error.type attribute. -/
def ErrorAttr (errType : String) : List KeyValue := [("error.type", AttrValue.str errType)]

/-- MethodAttr returns a metric option with mcp.method.name attribute. -/
def MethodAttr (method : String) : List KeyValue := [("mcp.method.name", AttrValue.str method)]

/-- DirectionAttr returns a metric option with direction attribute. -/
def DirectionAttr (direction : String) : List KeyValue :=
  [("direction", AttrValue.str direction)]

/-- MethodToolAttrs returns metric options with mcp.method.name and gen_ai.tool.name. -/
def MethodToolAttrs (method toolName : String) : List KeyValue :=
  [("mcp.method.name", AttrValue.str method)] ++
    (if toolName ≠ "" then [("gen_ai.tool.name", AttrValue.str toolName)] else [])

/-- MethodToolErrorAttrs returns metric options with method, tool, and error
attributes. -/
def MethodToolErrorAttrs (method toolName : String) (respInfo : Option ResponseInfo) :
    List KeyValue :=
  [("mcp.method.name", AttrValue.str method)] ++
    (if toolName ≠ "" then [("gen_ai.tool.name", AttrValue.str toolName)] else []) ++
    (match respInfo with
      | some ri => if ri.HasError then [("error.type", AttrValue.str ri.ErrorType)] else []
      | none => [])

/-- What a request makes observable besides the response: operations on the span, the
metric instruments and the logger, and the call to the upstream. Durations are readings
of the wall clock and are not part of the record. -/
inductive Event where
  | spanStart (name : String) (attrs : List KeyValue)
  | spanSetAttributes (attrs : List KeyValue)
  | spanSetStatusError (description : String)
  | spanEnd
  | RequestCount (attrs : List KeyValue)
  | MessageSize (size : Nat) (attrs : List KeyValue)
  | ErrorsTotal (attrs : List KeyValue)
  | UpstreamLatency (attrs : List KeyValue)
  | RequestDuration (attrs : List KeyValue)
  | ActiveSessions (delta : Int)
  | log (level : String) (msg : String)
  | upstreamRequest (body : Bytes)
  deriving DecidableEq, Repr

/-- The attributes `StartMCPSpan` gives the span. -/
def spanAttrs (reqInfo : RequestInfo) (session : Option Session) (serverAddr : String)
    (serverPort : Int) : List KeyValue :=
  [("mcp.method.name", AttrValue.str reqInfo.Method),
   ("network.transport", AttrValue.str "tcp"),
   ("network.protocol.name", AttrValue.str "http"),
   ("server.address", AttrValue.str serverAddr),
   ("server.port", AttrValue.int serverPort)] ++
  (if reqInfo.ToolName ≠ "" then [("gen_ai.tool.name", AttrValue.str reqInfo.ToolName)] else []) ++
  (if reqInfo.PromptName ≠ "" then [("gen_ai.prompt.name", AttrValue.str reqInfo.PromptName)]
    else []) ++
  (if reqInfo.ResourceURI ≠ "" then [("mcp.resource.uri", AttrValue.str reqInfo.ResourceURI)]
    else []) ++
  (if reqInfo.RequestID ≠ "" then [("jsonrpc.request.id", AttrValue.str reqInfo.RequestID)]
    else []) ++
  (if reqInfo.Method = "tools/call" then [("gen_ai.operation.name", AttrValue.str "execute_tool")]
    else []) ++
  (match session with
    | none => []
    | some s =>
      (if s.ProtocolVersion ≠ "" then [("mcp.protocol.version", AttrValue.str s.ProtocolVersion)]
        else []) ++
      (if s.ID ≠ "" then [("mcp.session.id", AttrValue.str s.ID)] else []))

/-- StartMCPSpan creates a new OTel span for an MCP request following semantic
conventions. -/
def StartMCPSpan (O : Otel) (ctx : Context) (reqInfo : RequestInfo) (session : Option Session)
    (serverAddr : String) (serverPort : Int) : Context × List Event :=
  (O.start ctx reqInfo.SpanName,
    [Event.spanStart reqInfo.SpanName (spanAttrs reqInfo session serverAddr serverPort)])

/-- EndMCPSpan completes the span with response information. -/
def EndMCPSpan (respInfo : Option ResponseInfo) : List Event :=
  match respInfo with
  | none => [Event.spanEnd]
  | some ri =>
    (if ri.HasError then
      [Event.spanSetAttributes [("error.type", AttrValue.str ri.ErrorType)]] ++
      (if ri.ErrorCode ≠ 0 then
        [Event.spanSetAttributes [("rpc.response.status_code", AttrValue.str ri.ErrorType)]]
        else []) ++
      [Event.spanSetStatusError (if ri.IsToolError then "tool execution failed" else ri.ErrorMessage)]
    else []) ++ [Event.spanEnd]

/-- SetPayloadAttributes sets opt-in payload attributes on a span. -/
def SetPayloadAttributes (arguments result : String) : List Event :=
  (if arguments ≠ "" then
    [Event.spanSetAttributes [("gen_ai.tool.call.arguments", AttrValue.str arguments)]] else []) ++
  (if result ≠ "" then
    [Event.spanSetAttributes [("gen_ai.tool.call.result", AttrValue.str result)]] else [])

/-! ## internal/proxy/handler.go -/

/-- An `http.Header`: the values stored under each key. The headers of a request or
response read from the network have their keys in canonical form. -/
abbrev Header := List (String × List String)

/-- A byte that may occur in the name of a header field: a letter, a digit, or one of
the fifteen punctuation marks of a token. -/
def validHeaderFieldByte (c : Char) : Bool :=
  let n := c.toNat
  (0x30 ≤ n && n ≤ 0x39) || (0x41 ≤ n && n ≤ 0x5A) || (0x61 ≤ n && n ≤ 0x7A) ||
    [0x21, 0x23, 0x24, 0x25, 0x26, 0x27, 0x2A, 0x2B, 0x2D, 0x2E, 0x5E, 0x5F, 0x60, 0x7C,
      0x7E].contains n

/-- The casing of a canonical key: a letter is upper case at the start and after a
hyphen, and lower case elsewhere. `upper` tells whether the next letter is to be upper
case. -/
def canonicalCase : Bool → List Char → List Char
  | _, [] => []
  | upper, c :: rest =>
    let n := c.toNat
    let c1 :=
      if upper && 0x61 ≤ n && n ≤ 0x7A then Char.ofNat (n - 32)
      else if !upper && 0x41 ≤ n && n ≤ 0x5A then Char.ofNat (n + 32)
      else c
    c1 :: canonicalCase (c1 == '-') rest

/-- The function `textproto.CanonicalMIMEHeaderKey`: a key made of header field bytes is
put in canonical case, any other key is returned as it is. -/
def CanonicalMIMEHeaderKey (s : String) : String :=
  if s.data.all validHeaderFieldByte then String.mk (canonicalCase true s.data) else s

/-- The method `Header.Get`: the first value under the canonical form of the key, or the
empty string. -/
def Header.Get (h : Header) (key : String) : String :=
  match assocGet (CanonicalMIMEHeaderKey key) h with
  | some (v :: _) => v
  | _ => ""

/-- The method `Header.Add`: append a value to the values under the canonical form of
the key. -/
def Header.Add (h : Header) (key value : String) : Header :=
  assocSet (CanonicalMIMEHeaderKey key)
    ((assocGet (CanonicalMIMEHeaderKey key) h).getD [] ++ [value]) h

/-- The function `copyHeaders`: add every value of `src` to `dst`. -/
def copyHeaders (dst src : Header) : Header :=
  src.foldl (fun d kvv => kvv.2.foldl (fun d1 v => d1.Add kvv.1 v) d) dst

/-- The configuration the handler reads. -/
structure Config where
  UpstreamURL : String
  ContextPropagation : Bool
  CapturePayload : Bool

/-- An inbound request. `Body` is the result of `io.ReadAll(r.Body)`, `none` when the
read fails; `ctx` is `r.Context()`. -/
structure HTTPRequest where
  Method : String
  Path : String
  RawQuery : String
  Header : Header
  Body : Option Bytes
  ctx : Context

/-- What `doUpstreamRequest` returns when it succeeds. -/
structure UpstreamResponse where
  body : Bytes
  header : Header
  statusCode : Nat

/-- What the handler has written to the `http.ResponseWriter`. -/
structure ClientResponse where
  header : Header
  statusCode : Nat
  body : Bytes
  deriving DecidableEq, Repr

/-- The three readings of the clock a request can pass to the session store. -/
structure Clock where
  lookup : Int
  created : Int
  accessed : Int

/-- Handler is the MCP proxy HTTP handler, with the collaborators it calls: the
double conversion of the decoder, the tracing SDK, and `upstream`, the outcome of
building and sending the upstream request for a body (`none` when any step fails). -/
structure Handler where
  config : Config
  serverAddr : String
  serverPort : Int
  F : Float64
  O : Otel
  upstream : HTTPRequest → Bytes → Option UpstreamResponse

/-- What one call of `ServeHTTP` leaves behind: the events in order, the response
written (`none` when nothing was written), the session store, and the panic the handler
ended with, if any. -/
structure Outcome where
  events : List Event
  response : Option ClientResponse
  sessions : SessionStore
  panic : Option Panic

/-- The function `http.Error`: a plain-text reply with the given status. -/
def httpError (w : Header) (msg : String) (code : Nat) : ClientResponse :=
  ⟨assocSet "X-Content-Type-Options" ["nosniff"]
      (assocSet "Content-Type" ["text/plain; charset=utf-8"] w),
    code, msg.data ++ ['\n']⟩

/-- The status `http.StatusBadGateway`. -/
def StatusBadGateway : Nat := 502

/-- The relay that ends all three paths: `copyHeaders`, `WriteHeader`, `Write`, on a
fresh response writer. -/
def writeUpstream (up : UpstreamResponse) : ClientResponse :=
  ⟨copyHeaders [] up.header, up.statusCode, up.body⟩

/-- The length of a buffer in bytes. -/
def byteLen (b : Bytes) : Nat := b.foldl (fun n c => n + c.utf8Size) 0

/-- The text of a raw message (`string(raw)`). -/
def rawString (raw : RawMessage) : String :=
  match raw with
  | none => ""
  | some v => String.mk v.text

/-- The events of the session callbacks as wired in `main`. -/
def sessionEvents (ns : List Notification) : List Event :=
  ns.map (fun n =>
    match n with
    | Notification.added => Event.ActiveSessions 1
    | Notification.removed => Event.ActiveSessions (-1))

/-- The method `forwardRaw`. -/
def Handler.forwardRaw (h : Handler) (sessions : SessionStore) (r : HTTPRequest)
    (reqBody : Bytes) (before : List Event) : Outcome :=
  match h.upstream r reqBody with
  | none =>
    ⟨before ++ [Event.upstreamRequest reqBody],
      some (httpError [] "upstream request failed" StatusBadGateway), sessions, none⟩
  | some up =>
    ⟨before ++ [Event.upstreamRequest reqBody], some (writeUpstream up), sessions, none⟩

/-- The telemetry `handleSingle` derives from a response body that was received: the
response info, the session store after the handshake tracking, and the events of the
tracking and of the payload capture. -/
def Handler.observeResponse (h : Handler) (sessions : SessionStore) (clock : Clock)
    (req : Request) (reqInfo : RequestInfo) (sessionID : String) (up : UpstreamResponse) :
    Option ResponseInfo × SessionStore × List Event :=
  match ParseResponse up.body with
  | Except.error _ => (none, sessions, [])
  | Except.ok respParsed =>
    match respParsed.Responses with
    | [] => (none, sessions, [])
    | resp0 :: _ =>
      let respInfo := ExtractResponseInfo resp0 reqInfo.Method
      -- Track initialize handshake
      let tracked : SessionStore × List Notification :=
        if reqInfo.Method = "initialize" ∧ respInfo.HasError = false then
          let respSessionID :=
            if sessionID = "" then up.header.Get "Mcp-Session-Id" else sessionID
          sessions.TrackInitialize resp0 respSessionID clock.created clock.accessed
        else (sessions, [])
      -- Opt-in payload capture
      let captured : List Event :=
        if h.config.CapturePayload = true ∧ reqInfo.Method = "tools/call" then
          SetPayloadAttributes (rawString req.Params) (rawString resp0.Result)
        else []
      (some respInfo, tracked.1, sessionEvents tracked.2 ++ captured)

/-- The method `handleSingle`. The deferred `span.End()` is the last event on every way
out, a panic included. -/
def Handler.handleSingle (h : Handler) (sessions : SessionStore) (clock : Clock)
    (r : HTTPRequest) (reqBody : Bytes) (req : Request) : Outcome :=
  let reqInfo := ExtractRequestInfo req
  -- Get session for this request
  let sessionID := r.Header.Get "Mcp-Session-Id"
  let looked : Option Session × SessionStore :=
    if sessionID ≠ "" then sessions.Get sessionID clock.lookup else (none, sessions)
  -- Extract context from params._meta or HTTP headers
  let ctx1 := ExtractContextFromMeta h.F h.O r.ctx req.Params r.Header.Get
  -- Start span
  let started := StartMCPSpan h.O ctx1 reqInfo looked.1 h.serverAddr h.serverPort
  let ctx := started.1
  -- Record request metrics, log request
  let ev1 : List Event := started.2 ++
    [Event.RequestCount (MethodToolAttrs reqInfo.Method reqInfo.ToolName),
     Event.MessageSize (byteLen reqBody) (DirectionAttr "request" ++ MethodAttr reqInfo.Method),
     Event.log "DEBUG" "MCP request"]
  -- Inject context propagation into params._meta
  let injected : Except Panic Bytes :=
    if h.config.ContextPropagation then
      match InjectContextIntoBody h.F ctx reqBody with
      | Except.error p => Except.error p
      | Except.ok (modified, err) => Except.ok (if err = none then modified else reqBody)
    else Except.ok reqBody
  match injected with
  | Except.error p => ⟨ev1 ++ [Event.spanEnd], none, looked.2, some p⟩
  | Except.ok bodyToSend =>
    -- Forward to upstream
    match h.upstream r bodyToSend with
    | none =>
      ⟨ev1 ++ [Event.upstreamRequest bodyToSend,
          Event.log "ERROR" "upstream request failed",
          Event.ErrorsTotal (ErrorAttr "upstream_error"),
          Event.spanSetAttributes [("error.type", AttrValue.str "upstream_error")],
          Event.spanEnd],
        some (httpError [] "upstream request failed" StatusBadGateway), looked.2, none⟩
    | some up =>
      -- Parse response for telemetry
      let observed := h.observeResponse looked.2 clock req reqInfo sessionID up
      let respInfo := observed.1
      let hasError : Bool :=
        match respInfo with
        | some ri => ri.HasError
        | none => false
      ⟨ev1 ++ [Event.upstreamRequest bodyToSend,
          Event.UpstreamLatency (MethodToolAttrs reqInfo.Method reqInfo.ToolName)] ++
        observed.2.2 ++
        [Event.RequestDuration (MethodToolErrorAttrs reqInfo.Method reqInfo.ToolName respInfo),
         Event.MessageSize (byteLen up.body) (DirectionAttr "response" ++ MethodAttr reqInfo.Method)] ++
        EndMCPSpan respInfo ++
        [Event.log (if hasError then "ERROR" else "DEBUG") "MCP response", Event.spanEnd],
        some (writeUpstream up), observed.2.1, none⟩

/-- The method `handleBatch`. -/
def Handler.handleBatch (h : Handler) (sessions : SessionStore) (r : HTTPRequest)
    (reqBody : Bytes) (parsed : ParseResult) : Outcome :=
  -- Extract context from HTTP headers for batch
  let ctx1 := ExtractContextFromMeta h.F h.O r.ctx none r.Header.Get
  -- Create parent batch span
  let batchInfo : RequestInfo := ⟨"batch", "", "", "", ""⟩
  let started := StartMCPSpan h.O ctx1 batchInfo none h.serverAddr h.serverPort
  let ctx := started.1
  let ev1 : List Event := started.2 ++
    [Event.spanSetAttributes [("jsonrpc.batch.size", AttrValue.int parsed.Requests.length)]]
  -- Inject context into batch
  let injected : Except Panic Bytes :=
    if h.config.ContextPropagation then
      match InjectContextIntoBatchBody h.F ctx reqBody with
      | Except.error p => Except.error p
      | Except.ok (modified, err) => Except.ok (if err = none then modified else reqBody)
    else Except.ok reqBody
  match injected with
  | Except.error p => ⟨ev1 ++ [Event.spanEnd], none, sessions, some p⟩
  | Except.ok bodyToSend =>
    -- Forward to upstream
    match h.upstream r bodyToSend with
    | none =>
      ⟨ev1 ++ [Event.upstreamRequest bodyToSend,
          Event.log "ERROR" "upstream batch request failed",
          Event.ErrorsTotal (ErrorAttr "upstream_error"),
          Event.spanEnd],
        some (httpError [] "upstream request failed" StatusBadGateway), sessions, none⟩
    | some up =>
      ⟨ev1 ++ [Event.upstreamRequest bodyToSend, Event.UpstreamLatency (MethodAttr "batch")] ++
        -- Record metrics for each request in the batch
        parsed.Requests.map (fun req =>
          Event.RequestCount
            (MethodToolAttrs (ExtractRequestInfo req).Method (ExtractRequestInfo req).ToolName)) ++
        [Event.RequestDuration (MethodAttr "batch"),
         Event.MessageSize (byteLen reqBody) (DirectionAttr "request" ++ MethodAttr "batch"),
         Event.MessageSize (byteLen up.body) (DirectionAttr "response" ++ MethodAttr "batch"),
         Event.spanEnd],
        some (writeUpstream up), sessions, none⟩

/-- The method `ServeHTTP`. -/
def Handler.ServeHTTP (h : Handler) (sessions : SessionStore) (clock : Clock)
    (r : HTTPRequest) : Outcome :=
  -- Read request body
  match r.Body with
  | none =>
    ⟨[Event.log "ERROR" "failed to read request body",
        Event.ErrorsTotal (ErrorAttr "connection_error")],
      some (httpError [] "failed to read request body" StatusBadGateway), sessions, none⟩
  | some reqBody =>
    -- Parse JSON-RPC request
    match ParseRequest reqBody with
    | Except.error _ =>
      -- Fail-open: forward raw request
      h.forwardRaw sessions r reqBody
        [Event.log "WARN" "failed to parse JSON-RPC request, forwarding raw",
         Event.ErrorsTotal (ErrorAttr "parse_error")]
    | Except.ok parsed =>
      if parsed.IsBatch then h.handleBatch sessions r reqBody parsed
      else
        match parsed.Requests with
        | [] => ⟨[], none, sessions, some Panic.indexOutOfRange⟩
        | req :: _ => h.handleSingle sessions clock r reqBody req

/-! ## Notions used to state the properties -/

/-- The last member of an object whose name is `name` when letter case is ignored. -/
def lastMemberFold (name : String) : List (String × JSON) → Option JSON
  | [] => none
  | kv :: rest =>
    match lastMemberFold name rest with
    | some v => some v
    | none => if foldName kv.1 = name then some kv.2 else none

/-- The last member of an object with exactly the name `name`. -/
def lastMember {α : Type} (name : String) : List (String × α) → Option α
  | [] => none
  | kv :: rest =>
    match lastMember name rest with
    | some v => some v
    | none => if kv.1 = name then some kv.2 else none

/-- A value that is neither an object nor `null`. -/
def JSON.notStructOrNull : JSON → Bool
  | JSON.obj _ _ => false
  | JSON.null => false
  | _ => true

/-- A scalar other than `null`: a boolean, a number or a string. -/
def JSON.isScalar : JSON → Bool
  | JSON.bool _ => true
  | JSON.num _ => true
  | JSON.str _ _ => true
  | _ => false

/-- The `_meta` object the extraction reads trace context from: `params` is an object,
its `_meta` member is an object that decodes and has a member named `traceparent`. The
result is the decoded `_meta`. -/
def traceMeta (F : Float64) (params : RawMessage) : Option (List (String × GoVal)) :=
  match params with
  | some (JSON.obj ps _) =>
    match lastMember "_meta" ps with
    | some (JSON.obj ms _) =>
      match toGoMembers F ms with
      | Except.ok gs =>
        if ms.any (fun kv => kv.1 == "traceparent") then some (buildMap gs) else none
      | Except.error _ => none
    | _ => none
  | _ => none

/-- The string value of the member `name` of a raw object: the string the last member
with that name holds, and the empty string when the message is absent, is not an object,
has no such member, or the member is not a string. -/
def stringMember (raw : RawMessage) (name : String) : String :=
  match raw with
  | some (JSON.obj ms _) =>
    match lastMember name ms with
    | some (JSON.str s _) => s
    | _ => ""
  | _ => ""

/-- The target the method-to-field table assigns to a request: `name` for `tools/call`
and `prompts/get`, `uri` for the three resource methods, nothing for any other method. -/
def targetOf (req : Request) : String :=
  if req.Method = "tools/call" ∨ req.Method = "prompts/get" then stringMember req.Params "name"
  else if req.Method = "resources/read" ∨ req.Method = "resources/subscribe" ∨
      req.Method = "resources/unsubscribe" then stringMember req.Params "uri"
  else ""

/-- Whether a raw result is an object whose `isError` member is the boolean true. -/
def isErrorTrue (result : RawMessage) : Bool :=
  match result with
  | some (JSON.obj ms _) =>
    match lastMember "isError" ms with
    | some (JSON.bool true) => true
    | _ => false
  | _ => false

/-- The identifiers of the records of a store. -/
def SessionStore.ids (ss : SessionStore) : List String := ss.sessions.map Prod.fst

/-- A store is a map: no identifier occurs twice. -/
def SessionStore.WF (ss : SessionStore) : Prop := ss.ids.Nodup

/-- The record of a store under an identifier, without the refresh of `Get`. -/
def SessionStore.find (ss : SessionStore) (id : String) : Option Session :=
  assocGet id ss.sessions

/-- The value of the up/down counter after a list of callback calls. -/
def counterValue : List Notification → Int
  | [] => 0
  | Notification.added :: rest => counterValue rest + 1
  | Notification.removed :: rest => counterValue rest - 1

/-- An operation on the session store, with the readings of the clock it makes. -/
inductive StoreOp where
  | get (id : String) (now : Int)
  | track (resp : Response) (sessionID : String) (created accessed : Int)
  | evict (now : Int)

/-- The store after an operation. -/
def StoreOp.apply (ss : SessionStore) : StoreOp → SessionStore
  | StoreOp.get id now => (ss.Get id now).2
  | StoreOp.track resp id created accessed => (ss.TrackInitialize resp id created accessed).1
  | StoreOp.evict now => (ss.evict now).1

/-- The callback calls of an operation. -/
def StoreOp.notes (ss : SessionStore) : StoreOp → List Notification
  | StoreOp.get _ _ => []
  | StoreOp.track resp id created accessed => (ss.TrackInitialize resp id created accessed).2
  | StoreOp.evict now => (ss.evict now).2

/-- The first reading of the clock an operation makes. -/
def StoreOp.first : StoreOp → Int
  | StoreOp.get _ now => now
  | StoreOp.track _ _ created _ => created
  | StoreOp.evict now => now

/-- The last reading of the clock an operation makes. -/
def StoreOp.last : StoreOp → Int
  | StoreOp.get _ now => now
  | StoreOp.track _ _ _ accessed => accessed
  | StoreOp.evict now => now

/-- The store after a sequence of operations. -/
def runOps (ss : SessionStore) : List StoreOp → SessionStore
  | [] => ss
  | op :: rest => runOps (op.apply ss) rest

/-- The callback calls of a sequence of operations, in order. -/
def runNotes (ss : SessionStore) : List StoreOp → List Notification
  | [] => []
  | op :: rest => op.notes ss ++ runNotes (op.apply ss) rest

/-- The readings of the clock along a sequence of operations never decrease, starting
from `t`. -/
def clockOK (t : Int) : List StoreOp → Prop
  | [] => True
  | op :: rest => t ≤ op.first ∧ op.first ≤ op.last ∧ clockOK op.last rest

/-- The last reading of the clock after a sequence of operations started at `t`. -/
def lastClock (t : Int) : List StoreOp → Int
  | [] => t
  | op :: rest => lastClock op.last rest

/-- The invariant of the store at clock reading `t`: it is a map, and every record was
created no later than it was last accessed, which was no later than `t`. -/
def SessionStore.Inv (ss : SessionStore) (t : Int) : Prop :=
  ss.WF ∧ ∀ kv, kv ∈ ss.sessions → kv.2.CreatedAt ≤ kv.2.LastAccessedAt ∧ kv.2.LastAccessedAt ≤ t

/-- The number of `TrackInitialize` operations of a sequence that find a record under
their non-empty id and write over it. -/
def overwrites (ss : SessionStore) : List StoreOp → Nat
  | [] => 0
  | op :: rest =>
    (match op with
      | StoreOp.track _ id _ _ => if id ≠ "" ∧ id ∈ ss.ids then 1 else 0
      | _ => 0) + overwrites (op.apply ss) rest

/-- What operations leave of the store from clock reading `t` on: every record afterwards
is a record from before, unchanged, or was last accessed no earlier than `t`. -/
def Fresh (ss : SessionStore) (t : Int) (ss1 : SessionStore) : Prop :=
  ∀ id s1, ss1.find id = some s1 → ss.find id = some s1 ∨ t ≤ s1.LastAccessedAt

/-- The session identifier a handshake resolves to: the `Mcp-Session-Id` header of the
request, or else that of the response. -/
def resolvedSessionID (r : HTTPRequest) (up : UpstreamResponse) : String :=
  if r.Header.Get "Mcp-Session-Id" = "" then up.header.Get "Mcp-Session-Id"
  else r.Header.Get "Mcp-Session-Id"

/-- The store `handleSingle` works on after its lookup of the session header. -/
def lookedUp (sessions : SessionStore) (clock : Clock) (r : HTTPRequest) : SessionStore :=
  if r.Header.Get "Mcp-Session-Id" ≠ "" then
    (sessions.Get (r.Header.Get "Mcp-Session-Id") clock.lookup).2
  else sessions

/-- Whether an event is an increment of the request counter. -/
def Event.isRequestCount : Event → Bool
  | Event.RequestCount _ => true
  | _ => false

/-- Whether an event sets the `error.type` attribute of the span. -/
def Event.isSpanErrorType : Event → Bool
  | Event.spanSetAttributes attrs => attrs.any (fun kv => kv.1 == "error.type")
  | _ => false

/-- Whether an event sets the `rpc.response.status_code` attribute of the span. -/
def Event.isStatusCode : Event → Bool
  | Event.spanSetAttributes attrs => attrs.any (fun kv => kv.1 == "rpc.response.status_code")
  | _ => false

/-- Whether an event is a measurement of upstream latency, of request duration, or of
the size of a response. -/
def Event.isResponseMeasurement : Event → Bool
  | Event.UpstreamLatency _ => true
  | Event.RequestDuration _ => true
  | Event.MessageSize _ attrs => attrs.any (fun kv => kv == ("direction", AttrValue.str "response"))
  | _ => false

/-- With fuel `n` the three parsers consume input, and their result is the result for
every amount of fuel from twice the consumption on. -/
def FuelOK (n : Nat) : Prop :=
  (∀ d s v r, parseValue n d s = some (v, r) →
    r.length < s.length ∧
    ∀ m, 2 * (s.length - r.length) ≤ m → parseValue m d s = some (v, r)) ∧
  (∀ d s vs r, parseElems n d s = some (vs, r) →
    r.length < s.length ∧
    ∀ m, 2 * (s.length - r.length) + 1 ≤ m → parseElems m d s = some (vs, r)) ∧
  (∀ d s ms r, parseMembers n d s = some (ms, r) →
    r.length < s.length ∧
    ∀ m, 2 * (s.length - r.length) + 1 ≤ m → parseMembers m d s = some (ms, r))

/-- Whether an event opens a span. -/
def Event.isSpanStart : Event → Bool
  | Event.spanStart _ _ => true
  | _ => false

/-- Whether an event is an increment of the error counter. -/
def Event.isErrorsTotal : Event → Bool
  | Event.ErrorsTotal _ => true
  | _ => false

/-- The reply the three paths end with, given what the upstream call returned. -/
def relay (up : Option UpstreamResponse) : ClientResponse :=
  match up with
  | some u => writeUpstream u
  | none => httpError [] "upstream request failed" StatusBadGateway

/-! ## A concrete deployment -/

/-- A double conversion that prints a literal as it was written, which is what the
conversion does on the short integers used below. -/
def exampleFloat64 : Float64 := ⟨fun lit => some lit⟩

/-- A context whose span is sampled. -/
def exampleContext : Context :=
  ⟨true, "00-0af7651916cd43dd8448eb211c80319c-b7ad6b7169203331-01", "", ""⟩

/-- A tracing SDK that takes the trace context of a carrier as it is written there, and
samples every span. -/
def exampleOtel : Otel :=
  ⟨fun ctx get =>
      if get "traceparent" = "" then ctx
      else ⟨true, get "traceparent", get "tracestate", get "baggage"⟩,
    fun _ _ => exampleContext⟩

/-- An upstream that answers every request with the same successful reply. -/
def exampleUpstream : HTTPRequest → Bytes → Option UpstreamResponse :=
  fun _ _ => some ⟨"\x7b\"jsonrpc\":\"2.0\",\"id\":1,\"result\":\x7b\x7d\x7d".toList,
    [("Content-Type", ["application/json"])], 200⟩

/-- A handler with the default configuration: context propagation on, payload capture
off. -/
def exampleHandler : Handler :=
  ⟨⟨"http://upstream:3000", true, false⟩, "upstream", 3000, exampleFloat64, exampleOtel,
    exampleUpstream⟩

/-- A request without headers whose body was read. -/
def exampleRequest (body : Bytes) : HTTPRequest :=
  ⟨"POST", "/mcp", "", [], some body, ⟨false, "", "", ""⟩⟩

/-- An empty session store with both callbacks set, as `main` makes it. -/
def exampleStore : SessionStore := NewSessionStore 3600 true true

/-- A clock that stands still. -/
def exampleClock : Clock := ⟨0, 0, 0⟩

/-- A store with TTL 50 holding a record last accessed at time 0 and a record last
accessed at time 100. -/
def exampleAgedStore : SessionStore :=
  ⟨[("old", ⟨"old", "", 0, 0⟩), ("edge", ⟨"edge", "", 0, 100⟩)], 50, true, true⟩

/-- An `initialize` request that carries the session id `s1` in its header. -/
def exampleInitialize : HTTPRequest :=
  ⟨"POST", "/mcp", "", [("Mcp-Session-Id", ["s1"])],
    some "\x7b\"jsonrpc\":\"2.0\",\"id\":1,\"method\":\"initialize\"\x7d".toList,
    ⟨false, "", "", ""⟩⟩

/-- An upstream that cannot be reached. -/
def exampleDownUpstream : HTTPRequest → Bytes → Option UpstreamResponse := fun _ _ => none

/-- The handler of `exampleHandler` in front of the unreachable upstream. -/
def exampleDownHandler : Handler :=
  ⟨⟨"http://upstream:3000", true, false⟩, "upstream", 3000, exampleFloat64, exampleOtel,
    exampleDownUpstream⟩

/-! ## The decoder: the fuel is enough -/

theorem skipSpace_length (s : List Char) : (skipSpace s).length ≤ s.length := by
  induction s with
  | nil => simp [skipSpace]
  | cons c cs ih =>
    rw [skipSpace]
    split
    · simp; omega
    · simp

theorem takeDigits_length (s : List Char) : (takeDigits s).2.length ≤ s.length := by
  induction s with
  | nil => simp [takeDigits]
  | cons c cs ih =>
    rw [takeDigits]
    split
    · simp; omega
    · simp

theorem scanInt_length (s i r : List Char) (h : scanInt s = some (i, r)) :
    r.length < s.length := by
  cases s with
  | nil => simp [scanInt] at h
  | cons c cs =>
    rw [scanInt] at h
    split at h
    · simp at h; rw [← h.2]; simp
    · split at h
      · simp at h
        rw [← h.2]
        have := takeDigits_length cs
        simp; omega
      · simp at h

theorem scanFrac_length (s f r : List Char) (h : scanFrac s = some (f, r)) :
    r.length ≤ s.length := by
  unfold scanFrac at h
  split at h
  · rename_i cs
    split at h
    · simp at h
    · rename_i ds rest hne htd
      simp at h
      rw [← h.2]
      have := takeDigits_length cs
      rw [htd] at this
      simp at this ⊢
      omega
  · simp at h; rw [← h.2]

theorem scanSign_length (s : List Char) : (scanSign s).2.length ≤ s.length := by
  cases s with
  | nil => simp [scanSign]
  | cons c cs => rw [scanSign]; split <;> simp

theorem scanMinus_length (s : List Char) : (scanMinus s).2.length ≤ s.length := by
  cases s with
  | nil => simp [scanMinus]
  | cons c cs => rw [scanMinus]; split <;> simp

theorem scanExp_length (s e r : List Char) (h : scanExp s = some (e, r)) :
    r.length ≤ s.length := by
  cases s with
  | nil => simp [scanExp] at h; rw [← h.2]
  | cons c cs =>
    rw [scanExp] at h
    split at h
    · split at h
      · simp at h
      · rename_i ds rest hne htd
        simp at h
        rw [← h.2]
        have h1 := takeDigits_length (scanSign cs).2
        have h2 := scanSign_length cs
        rw [htd] at h1
        simp at h1 ⊢
        omega
    · simp at h; rw [← h.2]

theorem scanNumber_length (s lit r : List Char) (h : scanNumber s = some (lit, r)) :
    r.length < s.length := by
  unfold scanNumber at h
  split at h
  · simp at h
  · rename_i i r1 hi
    split at h
    · simp at h
    · rename_i f r2 hf
      split at h
      · simp at h
      · rename_i e r3 he
        simp at h
        rw [← h.2]
        have h1 := scanInt_length _ _ _ hi
        have h2 := scanFrac_length _ _ _ hf
        have h3 := scanExp_length _ _ _ he
        have h0 := scanMinus_length s
        omega

theorem scanString_length_aux :
    ∀ (n : Nat) (s : List Char) (us : List StrUnit) (r : List Char),
      s.length ≤ n → scanString s = some (us, r) → r.length < s.length := by
  intro n
  induction n with
  | zero =>
    intro s us r hn h
    have : s = [] := List.length_eq_zero.mp (Nat.le_zero.mp hn)
    subst this
    simp [scanString] at h
  | succ k ih =>
    intro s us r hn h
    unfold scanString at h
    split at h
    · simp at h
    · simp at h; rw [← h.2]; simp
    · split at h
      · split at h
        · simp at h
        · split at h
          · simp at h
          · rename_i us1 r1 hrec
            simp at h
            rw [← h.2]
            have := ih _ _ _ (by simp at hn ⊢; omega) hrec
            simp at this ⊢
            omega
      · dsimp only at h
        split at h
        · simp at h
        · split at h
          · simp at h
          · rename_i us1 r1 hrec
            simp at h
            rw [← h.2]
            have := ih _ _ _ (by simp at hn ⊢; omega) hrec
            simp at this ⊢
            omega
      · simp at h
    · split at h
      · simp at h
      · split at h
        · simp at h
        · rename_i us1 r1 hrec
          simp at h
          rw [← h.2]
          have := ih _ _ _ (by simp at hn ⊢; omega) hrec
          simp at this ⊢
          omega

theorem parseString_length (s : List Char) (k : String) (r : List Char)
    (h : parseString s = some (k, r)) : r.length < s.length := by
  unfold parseString at h
  split at h
  · simp at h
  · rename_i us rest hs
    simp at h
    rw [← h.2]
    exact scanString_length_aux s.length s us rest (Nat.le_refl _) hs

theorem fuelOK_value (n : Nat) (ih : FuelOK n) :
    ∀ d s v r, parseValue (n + 1) d s = some (v, r) →
    r.length < s.length ∧
    ∀ m, 2 * (s.length - r.length) ≤ m → parseValue m d s = some (v, r) := by
  intro d s v r h
  have hsk := skipSpace_length s
  rw [parseValue] at h
  split at h
  · simp at h
  · -- object
    rename_i rest heq
    rw [heq] at hsk
    have h1 := skipSpace_length rest
    split at h
    · simp at h
    · rename_i hdepth
      split at h
      · rename_i rest1 heq1
        simp at h
        obtain ⟨hv, hr⟩ := h
        subst hv; subst hr
        rw [heq1] at h1
        simp at hsk h1
        refine ⟨by omega, ?_⟩
        intro m hm
        obtain ⟨m', rfl⟩ : ∃ m', m = m' + 1 := ⟨m - 1, by omega⟩
        rw [parseValue, heq]
        simp [hdepth, heq1]
      · rename_i rest1 hne
        split at h
        · simp at h
        · rename_i ms r1 hms
          simp at h
          obtain ⟨hv, hr⟩ := h
          subst hv; subst hr
          obtain ⟨hlen, hfuel⟩ := ih.2.2 _ _ _ _ hms
          simp at hsk
          refine ⟨by omega, ?_⟩
          intro m hm
          obtain ⟨m', rfl⟩ : ∃ m', m = m' + 1 := ⟨m - 1, by omega⟩
          rw [parseValue, heq]
          have hm' := hfuel m' (by omega)
          simp only [hdepth, if_false]
          rw [hm']
  · -- array
    rename_i rest heq
    rw [heq] at hsk
    have h1 := skipSpace_length rest
    split at h
    · simp at h
    · rename_i hdepth
      split at h
      · rename_i rest1 heq1
        simp at h
        obtain ⟨hv, hr⟩ := h
        subst hv; subst hr
        rw [heq1] at h1
        simp at hsk h1
        refine ⟨by omega, ?_⟩
        intro m hm
        obtain ⟨m', rfl⟩ : ∃ m', m = m' + 1 := ⟨m - 1, by omega⟩
        rw [parseValue, heq]
        simp [hdepth, heq1]
      · rename_i rest1 hne
        split at h
        · simp at h
        · rename_i vs r1 hvs
          simp at h
          obtain ⟨hv, hr⟩ := h
          subst hv; subst hr
          obtain ⟨hlen, hfuel⟩ := ih.2.1 _ _ _ _ hvs
          simp at hsk
          refine ⟨by omega, ?_⟩
          intro m hm
          obtain ⟨m', rfl⟩ : ∃ m', m = m' + 1 := ⟨m - 1, by omega⟩
          rw [parseValue, heq]
          have hm' := hfuel m' (by omega)
          simp only [hdepth, if_false]
          rw [hm']
  · -- string
    rename_i rest heq
    rw [heq] at hsk
    split at h
    · simp at h
    · rename_i k r1 hk
      simp at h
      obtain ⟨hv, hr⟩ := h
      subst hv; subst hr
      have := parseString_length _ _ _ hk
      simp at hsk
      refine ⟨by omega, ?_⟩
      intro m hm
      obtain ⟨m', rfl⟩ : ∃ m', m = m' + 1 := ⟨m - 1, by omega⟩
      rw [parseValue, heq]
      simp [hk]
  · -- true
    rename_i rest heq
    rw [heq] at hsk
    simp at h
    obtain ⟨hv, hr⟩ := h
    subst hv; subst hr
    simp at hsk
    refine ⟨by omega, ?_⟩
    intro m hm
    obtain ⟨m', rfl⟩ : ∃ m', m = m' + 1 := ⟨m - 1, by omega⟩
    rw [parseValue, heq]
    simp
  · -- false
    rename_i rest heq
    rw [heq] at hsk
    simp at h
    obtain ⟨hv, hr⟩ := h
    subst hv; subst hr
    simp at hsk
    refine ⟨by omega, ?_⟩
    intro m hm
    obtain ⟨m', rfl⟩ : ∃ m', m = m' + 1 := ⟨m - 1, by omega⟩
    rw [parseValue, heq]
    simp
  · -- null
    rename_i rest heq
    rw [heq] at hsk
    simp at h
    obtain ⟨hv, hr⟩ := h
    subst hv; subst hr
    simp at hsk
    refine ⟨by omega, ?_⟩
    intro m hm
    obtain ⟨m', rfl⟩ : ∃ m', m = m' + 1 := ⟨m - 1, by omega⟩
    rw [parseValue, heq]
    simp
  · -- number
    rename_i c rest h1 h2 h3 h4 h5 h6 heq
    rw [heq] at hsk
    split at h
    · simp at h
    · rename_i lit r1 hnum
      simp at h
      obtain ⟨hv, hr⟩ := h
      subst hv; subst hr
      have := scanNumber_length _ _ _ hnum
      refine ⟨by omega, ?_⟩
      intro m hm
      obtain ⟨m', rfl⟩ : ∃ m', m = m' + 1 := ⟨m - 1, by omega⟩
      rw [parseValue, heq]
      simp only []
      rw [hnum]



theorem fuelOK_elems (n : Nat) (ih : FuelOK n) :
    ∀ d s vs r, parseElems (n + 1) d s = some (vs, r) →
    r.length < s.length ∧
    ∀ m, 2 * (s.length - r.length) + 1 ≤ m → parseElems m d s = some (vs, r) := by
  intro d s vs r h
  rw [parseElems] at h
  split at h
  · simp at h
  · rename_i v rest hv
    obtain ⟨hlen, hfuel⟩ := ih.1 _ _ _ _ hv
    have hsk := skipSpace_length rest
    split at h
    · rename_i rest1 heq
      rw [heq] at hsk
      split at h
      · simp at h
      · rename_i vs1 r1 hvs
        simp at h
        obtain ⟨hvs', hr⟩ := h
        subst hvs'; subst hr
        obtain ⟨hlen1, hfuel1⟩ := ih.2.1 _ _ _ _ hvs
        simp at hsk
        refine ⟨by omega, ?_⟩
        intro m hm
        obtain ⟨m', rfl⟩ : ∃ m', m = m' + 1 := ⟨m - 1, by omega⟩
        rw [parseElems, hfuel m' (by omega)]
        simp only [heq]
        rw [hfuel1 m' (by omega)]
    · rename_i rest1 heq
      rw [heq] at hsk
      simp at h
      obtain ⟨hvs', hr⟩ := h
      subst hvs'; subst hr
      simp at hsk
      refine ⟨by omega, ?_⟩
      intro m hm
      obtain ⟨m', rfl⟩ : ∃ m', m = m' + 1 := ⟨m - 1, by omega⟩
      rw [parseElems, hfuel m' (by omega)]
      simp only [heq]
    · simp at h

theorem fuelOK_members (n : Nat) (ih : FuelOK n) :
    ∀ d s ms r, parseMembers (n + 1) d s = some (ms, r) →
    r.length < s.length ∧
    ∀ m, 2 * (s.length - r.length) + 1 ≤ m → parseMembers m d s = some (ms, r) := by
  intro d s ms r h
  have hsk := skipSpace_length s
  rw [parseMembers] at h
  split at h
  · rename_i rest heq
    rw [heq] at hsk
    split at h
    · simp at h
    · rename_i k rest1 hk
      have hklen := parseString_length _ _ _ hk
      have hsk1 := skipSpace_length rest1
      split at h
      · rename_i rest2 heq2
        rw [heq2] at hsk1
        split at h
        · simp at h
        · rename_i v rest3 hv
          obtain ⟨hlen, hfuel⟩ := ih.1 _ _ _ _ hv
          have hsk3 := skipSpace_length rest3
          split at h
          · rename_i rest4 heq4
            rw [heq4] at hsk3
            split at h
            · simp at h
            · rename_i ms1 r1 hms
              simp at h
              obtain ⟨hms', hr⟩ := h
              subst hms'; subst hr
              obtain ⟨hlen1, hfuel1⟩ := ih.2.2 _ _ _ _ hms
              simp at hsk hsk1 hsk3
              refine ⟨by omega, ?_⟩
              intro m hm
              obtain ⟨m', rfl⟩ : ∃ m', m = m' + 1 := ⟨m - 1, by omega⟩
              rw [parseMembers, heq]
              simp only [hk, heq2]
              rw [hfuel m' (by omega)]
              simp only [heq4]
              rw [hfuel1 m' (by omega)]
          · rename_i rest4 heq4
            rw [heq4] at hsk3
            simp at h
            obtain ⟨hms', hr⟩ := h
            subst hms'; subst hr
            simp at hsk hsk1 hsk3
            refine ⟨by omega, ?_⟩
            intro m hm
            obtain ⟨m', rfl⟩ : ∃ m', m = m' + 1 := ⟨m - 1, by omega⟩
            rw [parseMembers, heq]
            simp only [hk, heq2]
            rw [hfuel m' (by omega)]
            simp only [heq4]
          · simp at h
      · simp at h
  · simp at h

theorem fuelOK : ∀ n, FuelOK n := by
  intro n
  induction n with
  | zero =>
    refine ⟨?_, ?_, ?_⟩
    · intro d s v r h; simp [parseValue] at h
    · intro d s v r h; simp [parseElems] at h
    · intro d s v r h; simp [parseMembers] at h
  | succ k ih => exact ⟨fuelOK_value k ih, fuelOK_elems k ih, fuelOK_members k ih⟩

/-- The fuel of `decodeJSON` is enough: whatever some amount of fuel parses, the fuel
`decodeJSON` uses parses with the same result, so `decodeJSON` reports a text as invalid
only when no amount of fuel parses it. -/
theorem decodeJSON_fuel (data : Bytes) (n : Nat) (v : JSON) (rest : List Char)
    (h : parseValue n 0 data = some (v, rest)) :
    parseValue (2 * data.length + 2) 0 data = some (v, rest) := by
  obtain ⟨hlen, hfuel⟩ := (fuelOK n).1 0 data v rest h
  exact hfuel _ (by omega)

/-! ## The decoder: auxiliary facts -/

theorem parseValue_open_bracket (fuel depth : Nat) (rest : List Char) (v : JSON) (r : List Char)
    (h : parseValue fuel depth ('[' :: rest) = some (v, r)) : ∃ xs raw, v = JSON.arr xs raw := by
  cases fuel with
  | zero => simp [parseValue] at h
  | succ n =>
    have hs : skipSpace ('[' :: rest) = '[' :: rest := by
      simp [skipSpace, isJSONSpace]
    rw [parseValue, hs] at h
    simp only at h
    split at h
    · simp at h
    · split at h
      · simp at h; exact ⟨_, _, h.1.symm⟩
      · split at h
        · simp at h
        · simp at h; exact ⟨_, _, h.1.symm⟩

theorem decodeJSON_open_bracket (rest : List Char) (v : JSON)
    (h : decodeJSON ('[' :: rest) = some v) : ∃ xs raw, v = JSON.arr xs raw := by
  unfold decodeJSON at h
  split at h
  · simp at h
  · rename_i w r hw
    split at h
    · simp at h; subst h; exact parseValue_open_bracket _ _ _ _ _ hw
    · simp at h

theorem decodeJSON_nil : decodeJSON [] = none := by
  simp [decodeJSON, parseValue, skipSpace]

theorem decodeAll_forall₂ {α : Type} (dec : JSON → Except UnmarshalError α) :
    ∀ (xs : List JSON) (ys : List α), decodeAll dec xs = Except.ok ys →
      List.Forall₂ (fun x y => dec x = Except.ok y) xs ys := by
  intro xs
  induction xs with
  | nil =>
    intro ys h
    simp [decodeAll] at h
    subst h
    exact List.Forall₂.nil
  | cons x rest ih =>
    intro ys h
    rw [decodeAll] at h
    split at h
    · simp at h
    · rename_i y hy
      split at h
      · simp at h
      · rename_i zs hzs
        simp at h
        subst h
        exact List.Forall₂.cons hy (ih zs hzs)

theorem decodeAll_error_of_mem {α : Type} (dec : JSON → Except UnmarshalError α) :
    ∀ (xs : List JSON) (x : JSON), x ∈ xs → (∃ e, dec x = Except.error e) →
      ∃ e, decodeAll dec xs = Except.error e := by
  intro xs
  induction xs with
  | nil => intro x hx; simp at hx
  | cons y rest ih =>
    intro x hx hbad
    rw [decodeAll]
    split
    · exact ⟨_, rfl⟩
    · rename_i z hz
      rcases List.mem_cons.mp hx with hxy | hxr
      · subst hxy
        obtain ⟨e, he⟩ := hbad
        rw [he] at hz
        simp at hz
      · obtain ⟨e, he⟩ := ih x hxr hbad
        rw [he]
        exact ⟨_, rfl⟩

theorem decodeRequest_notStructOrNull (v : JSON) (h : v.notStructOrNull = true) :
    decodeRequest v = Except.error UnmarshalError.typeMismatch := by
  cases v <;> simp [JSON.notStructOrNull] at h <;> rfl

theorem decodeResponse_notStructOrNull (v : JSON) (h : v.notStructOrNull = true) :
    decodeResponse v = Except.error UnmarshalError.typeMismatch := by
  cases v <;> simp [JSON.notStructOrNull] at h <;> rfl

theorem decodeSlice_isScalar {α : Type} (dec : JSON → Except UnmarshalError α) (v : JSON)
    (h : v.isScalar = true) : decodeSlice dec v = Except.error UnmarshalError.typeMismatch := by
  cases v <;> simp [JSON.isScalar] at h <;> rfl

theorem notStructOrNull_of_isScalar (v : JSON) (h : v.isScalar = true) :
    v.notStructOrNull = true := by
  cases v <;> simp [JSON.isScalar] at h <;> rfl

/-- What `ParseRequest` does on a body that is not empty after trimming, in terms of the
value the body denotes. -/
theorem ParseRequest_cons (body : Bytes) (c : Char) (rest : List Char)
    (ht : TrimSpace body = c :: rest) :
    ParseRequest body =
      if c = '[' then
        match Unmarshal (decodeSlice decodeRequest) (c :: rest) with
        | Except.error e => Except.error (ParseError.decode e)
        | Except.ok rs => Except.ok ⟨true, rs, []⟩
      else
        match Unmarshal decodeRequest (c :: rest) with
        | Except.error e => Except.error (ParseError.decode e)
        | Except.ok req => Except.ok ⟨false, [req], []⟩ := by
  unfold ParseRequest
  rw [ht]

theorem ParseResponse_cons (body : Bytes) (c : Char) (rest : List Char)
    (ht : TrimSpace body = c :: rest) :
    ParseResponse body =
      if c = '[' then
        match Unmarshal (decodeSlice decodeResponse) (c :: rest) with
        | Except.error e => Except.error (ParseError.decode e)
        | Except.ok rs => Except.ok ⟨true, [], rs⟩
      else
        match Unmarshal decodeResponse (c :: rest) with
        | Except.error e => Except.error (ParseError.decode e)
        | Except.ok resp => Except.ok ⟨false, [], [resp]⟩ := by
  unfold ParseResponse
  rw [ht]

/-- The shape of a successful parse, for either envelope kind. -/
theorem parse_ok_shape {α : Type} (dec : JSON → Except UnmarshalError α) (c : Char)
    (rest : List Char) :
    (∀ rs, c = '[' → Unmarshal (decodeSlice dec) (c :: rest) = Except.ok rs →
      ∃ xs raw, decodeJSON (c :: rest) = some (JSON.arr xs raw) ∧
        List.Forall₂ (fun x y => dec x = Except.ok y) xs rs) := by
  intro rs hc h
  subst hc
  unfold Unmarshal at h
  split at h
  · simp at h
  · rename_i v hv
    obtain ⟨xs, raw, hxs⟩ := decodeJSON_open_bracket rest v hv
    subst hxs
    refine ⟨xs, raw, hv, ?_⟩
    exact decodeAll_forall₂ dec xs rs h

/-! ## internal/jsonrpc/parser.go: properties -/

/-- Where `Request.store` leaves the `ID` field. -/
theorem Request.store_ID (r r1 : Request) (kv : String × JSON)
    (h : Request.store r kv = Except.ok r1) :
    r1.ID = if foldName kv.1 = "id" then some kv.2 else r.ID := by
  unfold Request.store at h
  simp only at h
  by_cases h1 : foldName kv.1 = "jsonrpc"
  · have hne : ¬ foldName kv.1 = "id" := by rw [h1]; decide
    rw [if_pos h1] at h
    split at h
    · simp at h
    · simp at h; subst h; simp [hne]
  · rw [if_neg h1] at h
    by_cases h2 : foldName kv.1 = "method"
    · have hne : ¬ foldName kv.1 = "id" := by rw [h2]; decide
      rw [if_pos h2] at h
      split at h
      · simp at h
      · simp at h; subst h; simp [hne]
    · rw [if_neg h2] at h
      by_cases h3 : foldName kv.1 = "params"
      · have hne : ¬ foldName kv.1 = "id" := by rw [h3]; decide
        rw [if_pos h3] at h
        simp at h; subst h; simp [hne]
      · rw [if_neg h3] at h
        by_cases h4 : foldName kv.1 = "id"
        · rw [if_pos h4] at h
          simp at h; subst h; simp [h4]
        · rw [if_neg h4] at h
          simp at h; subst h; simp [h4]

/-- After an object is decoded into a request, `ID` holds the last member that
selects the field, or what it held before when there is none. -/
theorem decodeMembers_Request_ID :
    ∀ (ms : List (String × JSON)) (r0 r : Request),
      decodeMembers Request.store r0 ms = Except.ok r →
      r.ID = match lastMemberFold "id" ms with
        | some v => some v
        | none => r0.ID := by
  intro ms
  induction ms with
  | nil =>
    intro r0 r h
    simp [decodeMembers] at h
    subst h
    simp [lastMemberFold]
  | cons kv rest ih =>
    intro r0 r h
    rw [decodeMembers] at h
    split at h
    · simp at h
    · rename_i r1 h1
      have hr := ih r1 r h
      have h1' := Request.store_ID r0 r1 kv h1
      rw [hr, lastMemberFold]
      cases hl : lastMemberFold "id" rest with
      | some v => simp
      | none =>
        simp only [h1']
        by_cases hk : foldName kv.1 = "id" <;> simp [hk]

theorem IsNotification_iff (r : Request) :
    r.IsNotification = true ↔ (r.ID = none ∨ r.ID = some JSON.null) := by
  unfold Request.IsNotification
  cases h : r.ID with
  | none => simp
  | some v => cases v <;> simp

/-- The notification test on a request decoded from an object, for `decodeRequest`. -/
theorem decodeRequest_IsNotification (ms : List (String × JSON)) (raw : List Char)
    (r : Request) (h : decodeRequest (JSON.obj ms raw) = Except.ok r) :
    (r.IsNotification = true ↔
      (lastMemberFold "id" ms = none ∨ lastMemberFold "id" ms = some JSON.null)) := by
  have hid := decodeMembers_Request_ID ms Request.zero r h
  rw [IsNotification_iff, hid]
  cases hl : lastMemberFold "id" ms with
  | none => simp [Request.zero]
  | some v => simp

/-- The shape of a successful `ParseRequest`. -/
theorem ParseRequest_shape (body : Bytes) (res : ParseResult)
    (h : ParseRequest body = Except.ok res) :
    (res.IsBatch = true ↔ (TrimSpace body).head? = some '[') ∧
    (res.IsBatch = true →
      ∃ xs raw, decodeJSON (TrimSpace body) = some (JSON.arr xs raw) ∧
        res.Requests.length = xs.length ∧
        List.Forall₂ (fun x req => decodeRequest x = Except.ok req) xs res.Requests) ∧
    (res.IsBatch = false → ∃ req, res.Requests = [req]) := by
  cases ht : TrimSpace body with
  | nil => unfold ParseRequest at h; rw [ht] at h; simp at h
  | cons c rest =>
    rw [ParseRequest_cons body c rest ht] at h
    by_cases hc : c = '['
    · rw [if_pos hc] at h
      split at h
      · simp at h
      · rename_i rs hrs
        simp at h
        subst h
        obtain ⟨xs, raw, hxs, hall⟩ := parse_ok_shape decodeRequest c rest rs hc hrs
        refine ⟨by simp [hc], fun _ => ⟨xs, raw, hxs, hall.length_eq.symm, hall⟩, by simp⟩
    · rw [if_neg hc] at h
      split at h
      · simp at h
      · rename_i req hreq
        simp at h
        subst h
        refine ⟨by simp [hc], by simp, fun _ => ⟨req, rfl⟩⟩

/-- The shape of a successful `ParseResponse`. -/
theorem ParseResponse_shape (body : Bytes) (res : ParseResult)
    (h : ParseResponse body = Except.ok res) :
    (res.IsBatch = true ↔ (TrimSpace body).head? = some '[') ∧
    (res.IsBatch = true →
      ∃ xs raw, decodeJSON (TrimSpace body) = some (JSON.arr xs raw) ∧
        res.Responses.length = xs.length ∧
        List.Forall₂ (fun x resp => decodeResponse x = Except.ok resp) xs res.Responses) ∧
    (res.IsBatch = false → ∃ resp, res.Responses = [resp]) := by
  cases ht : TrimSpace body with
  | nil => unfold ParseResponse at h; rw [ht] at h; simp at h
  | cons c rest =>
    rw [ParseResponse_cons body c rest ht] at h
    by_cases hc : c = '['
    · rw [if_pos hc] at h
      split at h
      · simp at h
      · rename_i rs hrs
        simp at h
        subst h
        obtain ⟨xs, raw, hxs, hall⟩ := parse_ok_shape decodeResponse c rest rs hc hrs
        refine ⟨by simp [hc], fun _ => ⟨xs, raw, hxs, hall.length_eq.symm, hall⟩, by simp⟩
    · rw [if_neg hc] at h
      split at h
      · simp at h
      · rename_i resp hresp
        simp at h
        subst h
        refine ⟨by simp [hc], by simp, fun _ => ⟨resp, rfl⟩⟩

/-- C9, as amended. A body that is not empty after trimming and that is not valid
JSON, or denotes a boolean, a number or a string, or denotes an array with an element
that is neither an object nor `null`, makes `ParseRequest` and `ParseResponse` return
the decode error and no result. -/
theorem Parse_rejects_malformed (body : Bytes) (hne : TrimSpace body ≠ [])
    (hbad : decodeJSON (TrimSpace body) = none ∨
      (∃ v, decodeJSON (TrimSpace body) = some v ∧ v.isScalar = true) ∨
      (∃ xs raw, decodeJSON (TrimSpace body) = some (JSON.arr xs raw) ∧
        ∃ x, x ∈ xs ∧ x.notStructOrNull = true)) :
    (∃ e, ParseRequest body = Except.error (ParseError.decode e)) ∧
    (∃ e, ParseResponse body = Except.error (ParseError.decode e)) := by
  cases ht : TrimSpace body with
  | nil => exact absurd ht hne
  | cons c rest =>
    rw [ParseRequest_cons body c rest ht, ParseResponse_cons body c rest ht]
    rw [ht] at hbad
    have key : ∀ {α : Type} (dec : JSON → Except UnmarshalError α),
        (∀ v, v.notStructOrNull = true → dec v = Except.error UnmarshalError.typeMismatch) →
        (∃ e, Unmarshal (decodeSlice dec) (c :: rest) = Except.error e) ∧
        (∃ e, Unmarshal dec (c :: rest) = Except.error e) := by
      intro α dec hdec
      rcases hbad with hnone | ⟨v, hv, hs⟩ | ⟨xs, raw, hxs, x, hx, hxbad⟩
      · simp [Unmarshal, hnone]
      · simp only [Unmarshal, hv]
        exact ⟨⟨_, decodeSlice_isScalar dec v hs⟩,
          ⟨_, hdec v (notStructOrNull_of_isScalar v hs)⟩⟩
      · simp only [Unmarshal, hxs]
        refine ⟨?_, ⟨_, hdec _ rfl⟩⟩
        exact decodeAll_error_of_mem dec xs x hx ⟨_, hdec x hxbad⟩
    obtain ⟨⟨e1, h1⟩, ⟨e2, h2⟩⟩ := key decodeRequest decodeRequest_notStructOrNull
    obtain ⟨⟨e3, h3⟩, ⟨e4, h4⟩⟩ := key decodeResponse decodeResponse_notStructOrNull
    by_cases hc : c = '['
    · simp only [if_pos hc, h1, h3]
      exact ⟨⟨_, rfl⟩, ⟨_, rfl⟩⟩
    · simp only [if_neg hc, h2, h4]
      exact ⟨⟨_, rfl⟩, ⟨_, rfl⟩⟩

/-- C10, as amended. For a request `ParseRequest` decodes from a JSON object, alone or
as an element of a batch, `IsNotification` is true exactly when the object has no member
whose name is `id` up to letter case, or the last such member is `null`. -/
theorem ParseRequest_IsNotification :
    (∀ (body : Bytes) (ms : List (String × JSON)) (raw : List Char) (res : ParseResult),
      decodeJSON (TrimSpace body) = some (JSON.obj ms raw) → ParseRequest body = Except.ok res →
      ∃ r, res.Requests = [r] ∧
        (r.IsNotification = true ↔
          (lastMemberFold "id" ms = none ∨ lastMemberFold "id" ms = some JSON.null))) ∧
    (∀ (body : Bytes) (xs : List JSON) (raw : List Char) (res : ParseResult),
      decodeJSON (TrimSpace body) = some (JSON.arr xs raw) → ParseRequest body = Except.ok res →
      List.Forall₂ (fun x r => ∀ ms mraw, x = JSON.obj ms mraw →
        (r.IsNotification = true ↔
          (lastMemberFold "id" ms = none ∨ lastMemberFold "id" ms = some JSON.null)))
        xs res.Requests) := by
  constructor
  · intro body ms raw res hv h
    cases ht : TrimSpace body with
    | nil => rw [ht, decodeJSON_nil] at hv; simp at hv
    | cons c rest =>
      rw [ParseRequest_cons body c rest ht] at h
      rw [ht] at hv
      by_cases hc : c = '['
      · rw [if_pos hc] at h
        simp [Unmarshal, hv, decodeSlice] at h
      · rw [if_neg hc] at h
        simp only [Unmarshal, hv] at h
        split at h
        · simp at h
        · rename_i req hreq
          simp at h
          subst h
          exact ⟨req, rfl, decodeRequest_IsNotification ms raw req hreq⟩
  · intro body xs raw res hv h
    cases ht : TrimSpace body with
    | nil => rw [ht, decodeJSON_nil] at hv; simp at hv
    | cons c rest =>
      rw [ParseRequest_cons body c rest ht] at h
      rw [ht] at hv
      by_cases hc : c = '['
      · rw [if_pos hc] at h
        simp only [Unmarshal, hv, decodeSlice] at h
        split at h
        · simp at h
        · rename_i rs hrs
          simp at h
          subst h
          refine (decodeAll_forall₂ decodeRequest xs rs hrs).imp ?_
          intro x r hx ms mraw hms
          subst hms
          exact decodeRequest_IsNotification ms mraw r hx
      · rw [if_neg hc] at h
        simp [Unmarshal, hv, decodeRequest] at h

/-! ## Go maps: auxiliary facts -/

theorem assocGet_assocSet {α : Type} (k k1 : String) (v : α) :
    ∀ l : List (String × α),
      assocGet k (assocSet k1 v l) = if k1 = k then some v else assocGet k l := by
  intro l
  induction l with
  | nil => simp [assocSet, assocGet]
  | cons kv rest ih =>
    obtain ⟨k2, v2⟩ := kv
    by_cases h21 : k2 = k1
    · subst h21
      by_cases h2 : k2 = k <;> simp [assocSet, assocGet, h2]
    · by_cases h2 : k2 = k
      · subst h2
        have h12 : ¬ k1 = k2 := fun h => h21 h.symm
        simp [assocSet, assocGet, h21, h12]
      · simp [assocSet, assocGet, h21, h2, ih]

theorem assocGet_foldl_assocSet {α : Type} (k : String) :
    ∀ (ms acc : List (String × α)),
      assocGet k (ms.foldl (fun a kv => assocSet kv.1 kv.2 a) acc) =
        match lastMember k ms with
        | some v => some v
        | none => assocGet k acc := by
  intro ms
  induction ms with
  | nil => intro acc; simp [lastMember]
  | cons kv rest ih =>
    intro acc
    rw [List.foldl_cons, ih, lastMember]
    cases hl : lastMember k rest with
    | some v => simp
    | none =>
      simp only [assocGet_assocSet]
      by_cases hk : kv.1 = k <;> simp [hk]

/-- Reading a decoded object finds the last member with the key. -/
theorem assocGet_buildMap {α : Type} (k : String) (ms : List (String × α)) :
    assocGet k (buildMap ms) = lastMember k ms := by
  unfold buildMap
  rw [assocGet_foldl_assocSet]
  cases lastMember k ms <;> simp [assocGet]

theorem lastMember_isSome {α : Type} (k : String) :
    ∀ ms : List (String × α), (lastMember k ms).isSome = ms.any (fun kv => kv.1 == k) := by
  intro ms
  induction ms with
  | nil => simp [lastMember]
  | cons kv rest ih =>
    rw [lastMember, List.any_cons, ← ih]
    cases hl : lastMember k rest with
    | some v => simp
    | none => by_cases hk : kv.1 = k <;> simp [hk]

theorem toGoMembers_keys (F : Float64) :
    ∀ (ms : List (String × JSON)) (gs : List (String × GoVal)),
      toGoMembers F ms = Except.ok gs →
      gs.any (fun kv => kv.1 == "traceparent") = ms.any (fun kv => kv.1 == "traceparent") := by
  intro ms
  induction ms with
  | nil =>
    intro gs h
    simp [toGoMembers] at h
    subst h
    rfl
  | cons kv rest ih =>
    intro gs h
    obtain ⟨k, x⟩ := kv
    rw [toGoMembers] at h
    split at h
    · rename_i y ys hy hys
      simp at h
      subst h
      simp [List.any_cons, ih ys hys]
    · simp at h
    · simp at h

/-! ## internal/telemetry/propagation.go: properties -/

/-- C7. `ExtractContextFromMeta` returns the propagator's extraction from the decoded
`_meta` object when `params` is an object whose `_meta` member is an object that decodes
and has a `traceparent` member, and the propagator's extraction from the transport
headers in every other case. It is a total function: no input makes it fail. -/
theorem ExtractContextFromMeta_eq (F : Float64) (O : Otel) (ctx : Context)
    (params : RawMessage) (headers : String → String) :
    ExtractContextFromMeta F O ctx params headers =
      match traceMeta F params with
      | some m => O.extract ctx (metaCarrier.Get (some m))
      | none => O.extract ctx headers := by
  unfold ExtractContextFromMeta traceMeta
  cases params with
  | none => rfl
  | some p =>
    cases p with
    | null => rfl
    | bool b => rfl
    | num l => rfl
    | str s raw => rfl
    | arr xs raw => rfl
    | obj ps raw =>
      simp only [unmarshalRawMap, GoMap.get, assocGet_buildMap]
      cases hm : lastMember "_meta" ps with
      | none => rfl
      | some metaRaw =>
        cases metaRaw with
        | null => rfl
        | bool b => rfl
        | num l => rfl
        | str s raw => rfl
        | arr xs raw => rfl
        | obj ms raw =>
          simp only [unmarshalIfaceMap]
          cases hg : toGoMembers F ms with
          | error e => rfl
          | ok gs =>
            simp only [GoMap.get, assocGet_buildMap]
            have hkeys := toGoMembers_keys F ms gs hg
            have hsome := lastMember_isSome "traceparent" gs
            rw [hkeys] at hsome
            cases hl : lastMember "traceparent" gs with
            | none =>
              rw [hl] at hsome
              simp only [Option.isSome_none] at hsome
              rw [← hsome]
              simp
            | some v =>
              rw [hl] at hsome
              simp only [Option.isSome_some] at hsome
              rw [← hsome]
              simp

/-- A request whose `_meta` carries a `traceparent`, at which the extraction reads the
payload and not the headers. -/
theorem ExtractContextFromMeta_eq_witness :
    ExtractContextFromMeta exampleFloat64 exampleOtel ⟨false, "", "", ""⟩
      (some (JSON.mkObj [("name", JSON.mkStr "search"),
        ("_meta", JSON.mkObj [("traceparent", JSON.mkStr exampleContext.traceparent)])]))
      (fun _ => "") = exampleContext :=
  (ExtractContextFromMeta_eq exampleFloat64 exampleOtel ⟨false, "", "", ""⟩
    (some (JSON.mkObj [("name", JSON.mkStr "search"),
      ("_meta", JSON.mkObj [("traceparent", JSON.mkStr exampleContext.traceparent)])]))
    (fun _ => "")).trans rfl

/-- Injection into a nil carrier map panics as soon as the span context is valid. -/
theorem propagatorInject_nil (ctx : Context) (h : ctx.spanValid = true) :
    propagatorInject ctx none = Except.error Panic.nilMapAssignment := by
  unfold propagatorInject traceContextInject
  simp only [h, metaCarrier.Set, GoMap.set]
  by_cases hs : ctx.tracestate = "" <;> simp [hs]

/-- Injection into an allocated carrier map returns an allocated map. -/
theorem propagatorInject_some (ctx : Context) (l : List (String × GoVal)) :
    ∃ l1, propagatorInject ctx (some l) = Except.ok (some l1) := by
  unfold propagatorInject traceContextInject baggageInject
  by_cases hv : ctx.spanValid = false <;> by_cases hs : ctx.tracestate = "" <;>
    by_cases hb : ctx.baggage = "" <;> simp [hv, hs, hb, metaCarrier.Set, GoMap.set]

/-- A panic of the value-level injection is a panic of `InjectContextIntoBody`. -/
theorem InjectContextIntoBody_panics_of_value (F : Float64) (ctx : Context) (body : Bytes)
    (v : JSON) (p : Panic) (h : ctx.spanValid = true) (hd : decodeJSON body = some v)
    (hp : injectIntoValue F ctx v = Except.error p) :
    InjectContextIntoBody F ctx body = Except.error p := by
  unfold InjectContextIntoBody
  rw [if_neg (by simp [h]), hd]
  simp only [hp]

/-- The value-level injection panics on `null`. -/
theorem injectIntoValue_null (F : Float64) (ctx : Context) :
    injectIntoValue F ctx JSON.null = Except.error Panic.nilMapAssignment := by
  obtain ⟨l1, hl1⟩ := propagatorInject_some ctx []
  simp [injectIntoValue, unmarshalRawMap, GoMap.get, assocGet, hl1, GoMap.set]

/-- The value-level injection panics on an object whose last `params` member is
`null`. -/
theorem injectIntoValue_params_null (F : Float64) (ctx : Context) (ms : List (String × JSON))
    (raw : List Char) (h : lastMember "params" ms = some JSON.null) :
    injectIntoValue F ctx (JSON.obj ms raw) = Except.error Panic.nilMapAssignment := by
  obtain ⟨l1, hl1⟩ := propagatorInject_some ctx []
  simp [injectIntoValue, unmarshalRawMap, GoMap.get, assocGet_buildMap, h, hl1, GoMap.set]

/-- The value-level injection panics, for a valid span context, on an object whose
`params` is an object whose last `_meta` member is `null`. -/
theorem injectIntoValue_meta_null (F : Float64) (ctx : Context) (ms ps : List (String × JSON))
    (raw praw : List Char)
    (hv : ctx.spanValid = true) (h : lastMember "params" ms = some (JSON.obj ps praw))
    (hm : lastMember "_meta" ps = some JSON.null) :
    injectIntoValue F ctx (JSON.obj ms raw) = Except.error Panic.nilMapAssignment := by
  have hnil := propagatorInject_nil ctx hv
  simp [injectIntoValue, unmarshalRawMap, GoMap.get, assocGet_buildMap, h, hm,
    unmarshalIfaceMap, hnil]

/-- C1, at the payloads it names. With a valid span context the injection panics on a
body that is `null`, on a body whose `params` is `null`, on a body whose `params._meta`
is `null`, and the batch injection panics on `[null]`: each case ends in a write to a
nil map. -/
theorem InjectContextIntoBody_null_panics (F : Float64) (ctx : Context)
    (h : ctx.spanValid = true) :
    InjectContextIntoBody F ctx "null".toList = Except.error Panic.nilMapAssignment ∧
    InjectContextIntoBody F ctx "\x7b\"method\":\"ping\",\"params\":null\x7d".toList =
      Except.error Panic.nilMapAssignment ∧
    InjectContextIntoBody F ctx "\x7b\"params\":\x7b\"_meta\":null\x7d\x7d".toList =
      Except.error Panic.nilMapAssignment ∧
    InjectContextIntoBatchBody F ctx "[null]".toList = Except.error Panic.nilMapAssignment := by
  have d4 : decodeJSON "[null]".toList = some (JSON.mkArr [JSON.null]) := rfl
  refine ⟨?_, ?_, ?_, ?_⟩
  · exact InjectContextIntoBody_panics_of_value F ctx _ JSON.null _ h rfl
      (injectIntoValue_null F ctx)
  · exact InjectContextIntoBody_panics_of_value F ctx _
      (JSON.mkObj [("method", JSON.mkStr "ping"), ("params", JSON.null)]) _ h rfl
      (injectIntoValue_params_null F ctx _ _ rfl)
  · exact InjectContextIntoBody_panics_of_value F ctx _
      (JSON.mkObj [("params", JSON.mkObj [("_meta", JSON.null)])]) _ h rfl
      (injectIntoValue_meta_null F ctx _ [("_meta", JSON.null)] _ _ h rfl rfl)
  · unfold InjectContextIntoBatchBody Unmarshal
    rw [d4]
    simp [JSON.mkArr, unmarshalRawSlice, injectEach, InjectContextIntoRaw, h,
      injectIntoValue_null]

/-- A deployment at which `InjectContextIntoBody_null_panics` applies. -/
theorem InjectContextIntoBody_null_panics_witness :
    exampleContext.spanValid = true ∧
    InjectContextIntoBody exampleFloat64 exampleContext "null".toList =
      Except.error Panic.nilMapAssignment :=
  ⟨rfl, (InjectContextIntoBody_null_panics exampleFloat64 exampleContext rfl).1⟩

/-- C4, at the failing inputs. For a valid span context and a body that is a JSON
object whose `params` is a JSON object with a `_meta` member that is `null`, the
injection returns no payload: it panics on the write to the nil carrier map. -/
theorem InjectContextIntoBody_meta_null_panics (F : Float64) (ctx : Context) (body : Bytes)
    (ms ps : List (String × JSON)) (raw praw : List Char) (hv : ctx.spanValid = true)
    (hd : decodeJSON body = some (JSON.obj ms raw))
    (hp : lastMember "params" ms = some (JSON.obj ps praw))
    (hm : lastMember "_meta" ps = some JSON.null) :
    InjectContextIntoBody F ctx body = Except.error Panic.nilMapAssignment :=
  InjectContextIntoBody_panics_of_value F ctx body (JSON.obj ms raw) _ hv hd
    (injectIntoValue_meta_null F ctx ms ps raw praw hv hp hm)

/-- A `tools/call` request at which `InjectContextIntoBody_meta_null_panics` applies. -/
theorem InjectContextIntoBody_meta_null_panics_witness :
    exampleContext.spanValid = true ∧
    InjectContextIntoBody exampleFloat64 exampleContext
      "\x7b\"id\":1,\"method\":\"tools/call\",\"params\":\x7b\"name\":\"search\",\"_meta\":null\x7d\x7d".toList
      = Except.error Panic.nilMapAssignment :=
  ⟨rfl, InjectContextIntoBody_meta_null_panics exampleFloat64 exampleContext _
    [("id", JSON.num ['1']), ("method", JSON.mkStr "tools/call"),
      ("params", JSON.mkObj [("name", JSON.mkStr "search"), ("_meta", JSON.null)])]
    [("name", JSON.mkStr "search"), ("_meta", JSON.null)] _ _ rfl rfl rfl rfl⟩

/-- C5, at the failing inputs. For a valid span context the injection does not return
the input: it panics on a body that denotes `null` and on a body that is an object whose
`params` member is `null`. -/
theorem InjectContextIntoBody_params_null_panics (F : Float64) (ctx : Context) (body : Bytes)
    (hv : ctx.spanValid = true)
    (hd : decodeJSON body = some JSON.null ∨
      ∃ ms raw, decodeJSON body = some (JSON.obj ms raw) ∧
        lastMember "params" ms = some JSON.null) :
    InjectContextIntoBody F ctx body = Except.error Panic.nilMapAssignment := by
  rcases hd with hnull | ⟨ms, raw, hobj, hp⟩
  · exact InjectContextIntoBody_panics_of_value F ctx body JSON.null _ hv hnull
      (injectIntoValue_null F ctx)
  · exact InjectContextIntoBody_panics_of_value F ctx body (JSON.obj ms raw) _ hv hobj
      (injectIntoValue_params_null F ctx ms raw hp)

/-- A `ping` request at which `InjectContextIntoBody_params_null_panics` applies. -/
theorem InjectContextIntoBody_params_null_panics_witness :
    exampleContext.spanValid = true ∧
    InjectContextIntoBody exampleFloat64 exampleContext
      "\x7b\"jsonrpc\":\"2.0\",\"id\":1,\"method\":\"ping\",\"params\":null\x7d".toList
      = Except.error Panic.nilMapAssignment :=
  ⟨rfl, InjectContextIntoBody_params_null_panics exampleFloat64 exampleContext _ rfl
    (Or.inr ⟨[("jsonrpc", JSON.mkStr "2.0"), ("id", JSON.num ['1']),
      ("method", JSON.mkStr "ping"), ("params", JSON.null)], _, rfl, rfl⟩)⟩

theorem GoMap.set_error {α : Type} (m : GoMap α) (k : String) (v : α) (p : Panic)
    (h : m.set k v = Except.error p) : p = Panic.nilMapAssignment := by
  cases m with
  | none => simp [GoMap.set] at h; exact h.symm
  | some l => simp [GoMap.set] at h

theorem propagatorInject_error (ctx : Context) (m : GoMap GoVal) (p : Panic)
    (h : propagatorInject ctx m = Except.error p) : p = Panic.nilMapAssignment := by
  cases m with
  | some l =>
    obtain ⟨l1, hl1⟩ := propagatorInject_some ctx l
    rw [hl1] at h
    simp at h
  | none =>
    unfold propagatorInject traceContextInject baggageInject at h
    by_cases hv : ctx.spanValid = false <;> by_cases hs : ctx.tracestate = "" <;>
      by_cases hb : ctx.baggage = "" <;>
      simp [hv, hs, hb, metaCarrier.Set, GoMap.set] at h <;> exact h.symm

/-- The only panic of the value-level injection is the write to a nil map. -/
theorem injectIntoValue_error (F : Float64) (ctx : Context) (v : JSON) (p : Panic)
    (h : injectIntoValue F ctx v = Except.error p) : p = Panic.nilMapAssignment := by
  unfold injectIntoValue at h
  repeat' (first | split at h | (dsimp only at h; split at h))
  all_goals first
    | (simp at h; done)
    | (simp only [Except.error.injEq] at h
       subst h
       first
        | exact propagatorInject_error _ _ _ (by assumption)
        | exact GoMap.set_error _ _ _ _ (by assumption))

theorem InjectContextIntoRaw_error (F : Float64) (ctx : Context) (y : JSON) (p : Panic)
    (h : InjectContextIntoRaw F ctx y = Except.error p) : p = Panic.nilMapAssignment := by
  unfold InjectContextIntoRaw at h
  split at h
  · simp at h
  · split at h
    · rename_i q hq
      simp at h
      subst h
      exact injectIntoValue_error F ctx y _ hq
    · simp at h
    · simp at h

theorem InjectContextIntoBody_error (F : Float64) (ctx : Context) (body : Bytes) (p : Panic)
    (h : InjectContextIntoBody F ctx body = Except.error p) : p = Panic.nilMapAssignment := by
  unfold InjectContextIntoBody at h
  split at h
  · simp at h
  · split at h
    · simp at h
    · split at h
      · rename_i q hq
        simp at h
        subst h
        exact injectIntoValue_error F ctx _ _ hq
      · simp at h
      · simp at h

/-- A panic on one element is a panic of the loop over the batch. -/
theorem injectEach_panics_of_mem (F : Float64) (ctx : Context) :
    ∀ (xs : List JSON) (x : JSON), x ∈ xs →
      InjectContextIntoRaw F ctx x = Except.error Panic.nilMapAssignment →
      injectEach F ctx xs = Except.error Panic.nilMapAssignment := by
  intro xs
  induction xs with
  | nil => intro x hx; simp at hx
  | cons y rest ih =>
    intro x hx hbad
    rw [injectEach]
    rcases List.mem_cons.mp hx with hxy | hxr
    · subst hxy
      rw [hbad]
    · have hrest := ih x hxr hbad
      cases hy : InjectContextIntoRaw F ctx y with
      | error q => rw [InjectContextIntoRaw_error F ctx y q hy]
      | ok r => simp only [hrest]

theorem injectEach_error (F : Float64) (ctx : Context) (p : Panic) :
    ∀ xs : List JSON, injectEach F ctx xs = Except.error p → p = Panic.nilMapAssignment := by
  intro xs
  induction xs with
  | nil => intro h; simp [injectEach] at h
  | cons y rest ih =>
    intro h
    rw [injectEach] at h
    split at h
    · rename_i q hq
      simp at h
      subst h
      exact InjectContextIntoRaw_error F ctx y _ hq
    · split at h
      · rename_i q hq
        simp at h
        subst h
        exact ih hq
      · simp at h

theorem InjectContextIntoBatchBody_error (F : Float64) (ctx : Context) (body : Bytes)
    (p : Panic) (h : InjectContextIntoBatchBody F ctx body = Except.error p) :
    p = Panic.nilMapAssignment := by
  unfold InjectContextIntoBatchBody at h
  split at h
  · simp at h
  · simp at h
  · split at h
    · rename_i q hq
      simp at h
      subst h
      exact injectEach_error F ctx _ _ hq
    · simp at h

/-- C6, at the failing inputs. For a valid span context and a body that is a JSON
array with an element that is `null` or an object whose `params` member is `null`, the
batch injection returns no array at all: the panic of that element ends the call, so
the other elements receive nothing. And a body that denotes `null`, which is not an
array, comes back as the four bytes `null` whatever white space surrounded it. -/
theorem InjectContextIntoBatchBody_null_element_panics (F : Float64) (ctx : Context)
    (body : Bytes) (xs : List JSON) (raw : List Char) (hv : ctx.spanValid = true)
    (hd : decodeJSON body = some (JSON.arr xs raw))
    (hx : JSON.null ∈ xs ∨
      ∃ ms mraw, JSON.obj ms mraw ∈ xs ∧ lastMember "params" ms = some JSON.null) :
    InjectContextIntoBatchBody F ctx body = Except.error Panic.nilMapAssignment ∧
    InjectContextIntoBatchBody F ctx [' ', 'n', 'u', 'l', 'l'] =
      Except.ok (['n', 'u', 'l', 'l'], none) := by
  constructor
  · unfold InjectContextIntoBatchBody Unmarshal
    rw [hd]
    simp only [unmarshalRawSlice]
    have hraw : ∀ y, injectIntoValue F ctx y = Except.error Panic.nilMapAssignment →
        InjectContextIntoRaw F ctx y = Except.error Panic.nilMapAssignment := by
      intro y hy
      unfold InjectContextIntoRaw
      rw [if_neg (by simp [hv]), hy]
    rcases hx with hnull | ⟨ms, mraw, hmem, hp⟩
    · rw [injectEach_panics_of_mem F ctx xs JSON.null hnull (hraw _ (injectIntoValue_null F ctx))]
    · rw [injectEach_panics_of_mem F ctx xs (JSON.obj ms mraw) hmem
        (hraw _ (injectIntoValue_params_null F ctx ms mraw hp))]
  · rfl

/-- A batch of two at which `InjectContextIntoBatchBody_null_element_panics` applies:
the first element could be injected, the second is `null`. -/
theorem InjectContextIntoBatchBody_null_element_panics_witness :
    exampleContext.spanValid = true ∧
    InjectContextIntoBatchBody exampleFloat64 exampleContext
      "[\x7b\"id\":1,\"method\":\"ping\"\x7d,null]".toList =
      Except.error Panic.nilMapAssignment :=
  ⟨rfl, (InjectContextIntoBatchBody_null_element_panics exampleFloat64 exampleContext
    "[\x7b\"id\":1,\"method\":\"ping\"\x7d,null]".toList
    [JSON.mkObj [("id", JSON.num ['1']), ("method", JSON.mkStr "ping")], JSON.null] _ rfl rfl
    (Or.inl (by simp))).1⟩

/-! ## internal/proxy/handler.go: properties -/

/-- C2. When `ParseRequest` fails on the body that was read, `ServeHTTP` forwards
exactly that body, relays the status and the body of the upstream reply, increments the
error counter once, with `error.type = "parse_error"`, and opens no span; the session
store is left alone and the handler does not panic. -/
theorem ServeHTTP_parse_failure (h : Handler) (sessions : SessionStore) (clock : Clock)
    (r : HTTPRequest) (reqBody : Bytes) (e : ParseError)
    (hbody : r.Body = some reqBody) (hparse : ParseRequest reqBody = Except.error e) :
    (h.ServeHTTP sessions clock r).events =
      [Event.log "WARN" "failed to parse JSON-RPC request, forwarding raw",
       Event.ErrorsTotal [("error.type", AttrValue.str "parse_error")],
       Event.upstreamRequest reqBody] ∧
    (h.ServeHTTP sessions clock r).events.filter Event.isErrorsTotal =
      [Event.ErrorsTotal [("error.type", AttrValue.str "parse_error")]] ∧
    (h.ServeHTTP sessions clock r).events.countP Event.isSpanStart = 0 ∧
    (∀ up, h.upstream r reqBody = some up →
      ∃ resp, (h.ServeHTTP sessions clock r).response = some resp ∧
        resp.statusCode = up.statusCode ∧ resp.body = up.body) ∧
    (h.ServeHTTP sessions clock r).sessions = sessions ∧
    (h.ServeHTTP sessions clock r).panic = none := by
  have hev : (h.ServeHTTP sessions clock r).events =
      [Event.log "WARN" "failed to parse JSON-RPC request, forwarding raw",
       Event.ErrorsTotal [("error.type", AttrValue.str "parse_error")],
       Event.upstreamRequest reqBody] := by
    unfold Handler.ServeHTTP Handler.forwardRaw
    rw [hbody]
    simp only [hparse]
    cases h.upstream r reqBody <;> rfl
  refine ⟨hev, ?_, ?_, ?_, ?_, ?_⟩
  · rw [hev]; rfl
  · rw [hev]; rfl
  · intro up hup
    refine ⟨writeUpstream up, ?_, rfl, rfl⟩
    unfold Handler.ServeHTTP Handler.forwardRaw
    rw [hbody]
    simp only [hparse, hup]
  · unfold Handler.ServeHTTP Handler.forwardRaw
    rw [hbody]
    simp only [hparse]
    cases h.upstream r reqBody <;> rfl
  · unfold Handler.ServeHTTP Handler.forwardRaw
    rw [hbody]
    simp only [hparse]
    cases h.upstream r reqBody <;> rfl

/-- A truncated body at which `ServeHTTP_parse_failure` applies. -/
theorem ServeHTTP_parse_failure_witness :
    (exampleRequest ['\x7b']).Body = some ['\x7b'] ∧
    ParseRequest ['\x7b'] = Except.error (ParseError.decode UnmarshalError.invalidJSON) ∧
    (exampleHandler.ServeHTTP exampleStore exampleClock (exampleRequest ['\x7b'])).events =
      [Event.log "WARN" "failed to parse JSON-RPC request, forwarding raw",
       Event.ErrorsTotal [("error.type", AttrValue.str "parse_error")],
       Event.upstreamRequest ['\x7b']] :=
  ⟨rfl, rfl, (ServeHTTP_parse_failure exampleHandler exampleStore exampleClock
    (exampleRequest ['\x7b']) ['\x7b'] _ rfl rfl).1⟩

/-- C3, at the failing input. With the default configuration and a sampled span, the
request body `null` parses as a single request, the injection panics, and `ServeHTTP`
ends without calling the upstream and without writing a response, although the upstream
would have answered. -/
theorem ServeHTTP_null_body_writes_nothing :
    (∀ body, ∃ up, exampleHandler.upstream (exampleRequest "null".toList) body = some up) ∧
    (exampleHandler.ServeHTTP exampleStore exampleClock (exampleRequest "null".toList)).response
      = none ∧
    (exampleHandler.ServeHTTP exampleStore exampleClock (exampleRequest "null".toList)).panic
      = some Panic.nilMapAssignment ∧
    (exampleHandler.ServeHTTP exampleStore exampleClock
      (exampleRequest "null".toList)).events.all
        (fun ev => match ev with
          | Event.upstreamRequest _ => false
          | _ => true) = true :=
  ⟨fun _ => ⟨_, rfl⟩, rfl, rfl, rfl⟩

theorem forwardRaw_panic (h : Handler) (sessions : SessionStore) (r : HTTPRequest)
    (reqBody : Bytes) (before : List Event) :
    (h.forwardRaw sessions r reqBody before).panic = none := by
  unfold Handler.forwardRaw
  cases h.upstream r reqBody <;> rfl

theorem handleSingle_panic (h : Handler) (sessions : SessionStore) (clock : Clock)
    (r : HTTPRequest) (reqBody : Bytes) (req : Request) (p : Panic)
    (hp : (h.handleSingle sessions clock r reqBody req).panic = some p) :
    p = Panic.nilMapAssignment := by
  unfold Handler.handleSingle at hp
  dsimp only at hp
  split at hp
  · rename_i q hq
    simp only [Option.some.injEq] at hp
    subst hp
    split at hq
    · split at hq
      · rename_i q1 hq1
        simp only [Except.error.injEq] at hq
        subst hq
        exact InjectContextIntoBody_error _ _ _ _ hq1
      · simp at hq
    · simp at hq
  · split at hp <;> simp at hp

theorem handleBatch_panic (h : Handler) (sessions : SessionStore)
    (r : HTTPRequest) (reqBody : Bytes) (parsed : ParseResult) (p : Panic)
    (hp : (h.handleBatch sessions r reqBody parsed).panic = some p) :
    p = Panic.nilMapAssignment := by
  unfold Handler.handleBatch at hp
  dsimp only at hp
  split at hp
  · rename_i q hq
    simp only [Option.some.injEq] at hp
    subst hp
    split at hq
    · split at hq
      · rename_i q1 hq1
        simp only [Except.error.injEq] at hq
        subst hq
        exact InjectContextIntoBatchBody_error _ _ _ _ hq1
      · simp at hq
    · simp at hq
  · split at hp <;> simp at hp

/-- The index `Requests[0]` of `ServeHTTP` is never out of range. -/
theorem ServeHTTP_index_in_range (h : Handler) (sessions : SessionStore) (clock : Clock)
    (r : HTTPRequest) :
    (h.ServeHTTP sessions clock r).panic ≠ some Panic.indexOutOfRange := by
  intro hp
  unfold Handler.ServeHTTP at hp
  split at hp
  · simp at hp
  · rename_i reqBody hb
    split at hp
    · rw [forwardRaw_panic] at hp
      simp at hp
    · rename_i parsed hparsed
      split at hp
      · have := handleBatch_panic h sessions r reqBody parsed _ hp
        simp at this
      · rename_i hnb
        have hshape := (ParseRequest_shape reqBody parsed hparsed).2.2
          (by simpa using hnb)
        obtain ⟨req, hreq⟩ := hshape
        rw [hreq] at hp
        have := handleSingle_panic h sessions clock r reqBody req _ hp
        simp at this

/-- C8. `ParseRequest` and `ParseResponse` dispatch on the trimmed buffer: an empty
buffer fails with `ErrEmptyBody`; a successful parse has `IsBatch` true exactly when the
first byte after trimming is `[`, in which case the body denotes an array and the
envelope list holds the decoding of each element, in order; when `IsBatch` is false the
envelope list has exactly one entry; and the access to `Requests[0]` in `ServeHTTP` never
panics. -/
theorem ParseRequest_ParseResponse_dispatch (body : Bytes) :
    (TrimSpace body = [] →
      ParseRequest body = Except.error ParseError.ErrEmptyBody ∧
      ParseResponse body = Except.error ParseError.ErrEmptyBody) ∧
    (∀ res, ParseRequest body = Except.ok res →
      (res.IsBatch = true ↔ (TrimSpace body).head? = some '[') ∧
      (res.IsBatch = true →
        ∃ xs raw, decodeJSON (TrimSpace body) = some (JSON.arr xs raw) ∧
          res.Requests.length = xs.length ∧
          List.Forall₂ (fun x req => decodeRequest x = Except.ok req) xs res.Requests) ∧
      (res.IsBatch = false → ∃ req, res.Requests = [req])) ∧
    (∀ res, ParseResponse body = Except.ok res →
      (res.IsBatch = true ↔ (TrimSpace body).head? = some '[') ∧
      (res.IsBatch = true →
        ∃ xs raw, decodeJSON (TrimSpace body) = some (JSON.arr xs raw) ∧
          res.Responses.length = xs.length ∧
          List.Forall₂ (fun x resp => decodeResponse x = Except.ok resp) xs res.Responses) ∧
      (res.IsBatch = false → ∃ resp, res.Responses = [resp])) ∧
    (∀ (h : Handler) (sessions : SessionStore) (clock : Clock) (r : HTTPRequest),
      r.Body = some body →
      (h.ServeHTTP sessions clock r).panic ≠ some Panic.indexOutOfRange) := by
  refine ⟨?_, ?_, ?_, ?_⟩
  · intro ht
    constructor
    · unfold ParseRequest; rw [ht]
    · unfold ParseResponse; rw [ht]
  · exact fun res h => ParseRequest_shape body res h
  · exact fun res h => ParseResponse_shape body res h
  · exact fun h sessions clock r _ => ServeHTTP_index_in_range h sessions clock r

/-- Three bodies at which `ParseRequest_ParseResponse_dispatch` applies: white space
only, a batch of two, and a single request. -/
theorem ParseRequest_ParseResponse_dispatch_witness :
    (TrimSpace [' ', '\n'] = [] ∧
      ParseRequest [' ', '\n'] = Except.error ParseError.ErrEmptyBody ∧
      ParseResponse [' ', '\n'] = Except.error ParseError.ErrEmptyBody) ∧
    (ParseRequest " [\x7b\"id\":1\x7d,\x7b\"method\":\"b\"\x7d]".toList =
        Except.ok ⟨true, [⟨"", "", none, some (JSON.num ['1'])⟩, ⟨"", "b", none, none⟩], []⟩ ∧
      ∃ xs raw, decodeJSON (TrimSpace " [\x7b\"id\":1\x7d,\x7b\"method\":\"b\"\x7d]".toList) =
          some (JSON.arr xs raw) ∧
        [(⟨"", "", none, some (JSON.num ['1'])⟩ : Request), ⟨"", "b", none, none⟩].length =
          xs.length ∧
        List.Forall₂ (fun x req => decodeRequest x = Except.ok req) xs
          [⟨"", "", none, some (JSON.num ['1'])⟩, ⟨"", "b", none, none⟩]) ∧
    (ParseResponse "\x7b\"id\":1,\"result\":\x7b\x7d\x7d".toList =
        Except.ok ⟨false, [], [⟨"", some (JSON.mkObj []), none, some (JSON.num ['1'])⟩]⟩ ∧
      ∃ resp, [(⟨"", some (JSON.mkObj []), none, some (JSON.num ['1'])⟩ : Response)] = [resp]) ∧
    ((exampleRequest "null".toList).Body = some "null".toList ∧
      (exampleHandler.ServeHTTP exampleStore exampleClock (exampleRequest "null".toList)).panic ≠
        some Panic.indexOutOfRange) :=
  ⟨⟨rfl, (ParseRequest_ParseResponse_dispatch [' ', '\n']).1 rfl⟩,
    ⟨rfl, ((ParseRequest_ParseResponse_dispatch
      " [\x7b\"id\":1\x7d,\x7b\"method\":\"b\"\x7d]".toList).2.1 _ rfl).2.1 rfl⟩,
    ⟨rfl, ((ParseRequest_ParseResponse_dispatch
      "\x7b\"id\":1,\"result\":\x7b\x7d\x7d".toList).2.2.1 _ rfl).2.2 rfl⟩,
    ⟨rfl, (ParseRequest_ParseResponse_dispatch "null".toList).2.2.2 exampleHandler exampleStore
      exampleClock (exampleRequest "null".toList) rfl⟩⟩

/-- C9, the counterexample. The bodies `null` and `[null]` are not empty, are neither
an object nor an array of objects, and both parsers accept them: each `null` decodes to
a zero envelope. -/
theorem Parse_accepts_null :
    TrimSpace "null".toList ≠ [] ∧
    decodeJSON (TrimSpace "null".toList) = some JSON.null ∧
    ParseRequest "null".toList = Except.ok ⟨false, [Request.zero], []⟩ ∧
    ParseResponse "null".toList = Except.ok ⟨false, [], [Response.zero]⟩ ∧
    decodeJSON (TrimSpace "[null]".toList) = some (JSON.mkArr [JSON.null]) ∧
    ParseRequest "[null]".toList = Except.ok ⟨true, [Request.zero], []⟩ ∧
    ParseResponse "[null]".toList = Except.ok ⟨true, [], [Response.zero]⟩ :=
  ⟨by decide, rfl, rfl, rfl, rfl, rfl, rfl⟩

/-- Three bodies at which `Parse_rejects_malformed` applies: `[1]`, the scalar `true`
and the truncated `[`. -/
theorem Parse_rejects_malformed_witness :
    (TrimSpace "[1]".toList ≠ [] ∧
      decodeJSON (TrimSpace "[1]".toList) = some (JSON.mkArr [JSON.num ['1']]) ∧
      (∃ e, ParseRequest "[1]".toList = Except.error (ParseError.decode e)) ∧
      (∃ e, ParseResponse "[1]".toList = Except.error (ParseError.decode e))) ∧
    (decodeJSON (TrimSpace "true".toList) = some (JSON.bool true) ∧
      (∃ e, ParseRequest "true".toList = Except.error (ParseError.decode e))) ∧
    (decodeJSON (TrimSpace "[".toList) = none ∧
      (∃ e, ParseRequest "[".toList = Except.error (ParseError.decode e))) :=
  ⟨⟨by decide, rfl,
      Parse_rejects_malformed "[1]".toList (by decide)
        (Or.inr (Or.inr ⟨[JSON.num ['1']], _, rfl, JSON.num ['1'], by simp, rfl⟩))⟩,
    ⟨rfl, (Parse_rejects_malformed "true".toList (by decide)
        (Or.inr (Or.inl ⟨JSON.bool true, rfl, rfl⟩))).1⟩,
    ⟨rfl, (Parse_rejects_malformed "[".toList (by decide) (Or.inl rfl)).1⟩⟩

/-- C10, the counterexample. The object `{"ID":7}` has no member named `id`, yet the
request decoded from it is not a notification: the key `ID` selects the `id` field. -/
theorem IsNotification_false_without_id_member :
    decodeJSON (TrimSpace "\x7b\"ID\":7\x7d".toList) = some (JSON.mkObj [("ID", JSON.num ['7'])]) ∧
    lastMember "id" [("ID", JSON.num ['7'])] = none ∧
    ParseRequest "\x7b\"ID\":7\x7d".toList =
      Except.ok ⟨false, [⟨"", "", none, some (JSON.num ['7'])⟩], []⟩ ∧
    Request.IsNotification ⟨"", "", none, some (JSON.num ['7'])⟩ = false :=
  ⟨rfl, rfl, rfl, rfl⟩

/-- Two bodies at which `ParseRequest_IsNotification` applies: a single request whose
`id` is `null`, and a batch whose second element has the empty string as `id`. -/
theorem ParseRequest_IsNotification_witness :
    (∃ r, ([⟨"", "ping", none, some JSON.null⟩] : List Request) = [r] ∧
      (r.IsNotification = true ↔
        (lastMemberFold "id" [("method", JSON.mkStr "ping"), ("id", JSON.null)] = none ∨
          lastMemberFold "id" [("method", JSON.mkStr "ping"), ("id", JSON.null)] =
            some JSON.null))) ∧
    List.Forall₂ (fun x r => ∀ ms mraw, x = JSON.obj ms mraw →
        (Request.IsNotification r = true ↔
          (lastMemberFold "id" ms = none ∨ lastMemberFold "id" ms = some JSON.null)))
      [JSON.mkObj [("method", JSON.mkStr "a")], JSON.mkObj [("id", JSON.mkStr "")]]
      [⟨"", "a", none, none⟩, ⟨"", "", none, some (JSON.mkStr "")⟩] :=
  ⟨ParseRequest_IsNotification.1 "\x7b\"method\":\"ping\",\"id\":null\x7d".toList
      [("method", JSON.mkStr "ping"), ("id", JSON.null)] _
      ⟨false, [⟨"", "ping", none, some JSON.null⟩], []⟩ rfl rfl,
    ParseRequest_IsNotification.2 "[\x7b\"method\":\"a\"\x7d,\x7b\"id\":\"\"\x7d]".toList
      [JSON.mkObj [("method", JSON.mkStr "a")], JSON.mkObj [("id", JSON.mkStr "")]] _
      ⟨true, [⟨"", "a", none, none⟩, ⟨"", "", none, some (JSON.mkStr "")⟩], []⟩ rfl rfl⟩

/-! ## Fail-open and relay: what holds apart from the nil-map panic -/

/-- On the values for which `json.Unmarshal` reports an error or finds no object, the
injection returns the input buffer itself. -/
theorem InjectContextIntoBody_falls_open (F : Float64) (ctx : Context) (body : Bytes)
    (h : ctx.spanValid = false ∨ decodeJSON body = none ∨
      (∃ v, decodeJSON body = some v ∧ v.notStructOrNull = true) ∨
      (∃ ms raw p, decodeJSON body = some (JSON.obj ms raw) ∧
        lastMember "params" ms = some p ∧ p.notStructOrNull = true)) :
    InjectContextIntoBody F ctx body = Except.ok (body, none) := by
  unfold InjectContextIntoBody
  by_cases hv : ctx.spanValid = false
  · rw [if_pos hv]
  · rw [if_neg hv]
    rcases h with h | h | ⟨v, hd, hn⟩ | ⟨ms, raw, p, hd, hp, hn⟩
    · exact absurd h hv
    · rw [h]
    · rw [hd]
      have : injectIntoValue F ctx v = Except.ok none := by
        cases v <;> simp [JSON.notStructOrNull] at hn <;> rfl
      simp only [this]
    · rw [hd]
      have : injectIntoValue F ctx (JSON.obj ms raw) = Except.ok none := by
        cases p <;> simp [JSON.notStructOrNull] at hn <;>
          simp [injectIntoValue, unmarshalRawMap, GoMap.get, assocGet_buildMap, hp]
      simp only [this]

/-- A run of `handleSingle` that does not panic makes one upstream call and ends with
the relay of its outcome. -/
theorem handleSingle_relay (h : Handler) (sessions : SessionStore) (clock : Clock)
    (r : HTTPRequest) (reqBody : Bytes) (req : Request)
    (hp : (h.handleSingle sessions clock r reqBody req).panic = none) :
    ∃ sent, Event.upstreamRequest sent ∈ (h.handleSingle sessions clock r reqBody req).events ∧
      (h.handleSingle sessions clock r reqBody req).response =
        some (relay (h.upstream r sent)) := by
  unfold Handler.handleSingle at hp ⊢
  dsimp only at hp ⊢
  split
  · rename_i q hq
    rw [hq] at hp
    simp at hp
  · rename_i sent hs
    refine ⟨sent, ?_, ?_⟩
    · cases h.upstream r sent <;> simp
    · cases h.upstream r sent <;> rfl

/-- A run of `handleBatch` that does not panic makes one upstream call and ends with
the relay of its outcome. -/
theorem handleBatch_relay (h : Handler) (sessions : SessionStore)
    (r : HTTPRequest) (reqBody : Bytes) (parsed : ParseResult)
    (hp : (h.handleBatch sessions r reqBody parsed).panic = none) :
    ∃ sent, Event.upstreamRequest sent ∈ (h.handleBatch sessions r reqBody parsed).events ∧
      (h.handleBatch sessions r reqBody parsed).response =
        some (relay (h.upstream r sent)) := by
  unfold Handler.handleBatch at hp ⊢
  dsimp only at hp ⊢
  split
  · rename_i q hq
    rw [hq] at hp
    simp at hp
  · rename_i sent hs
    refine ⟨sent, ?_, ?_⟩
    · cases h.upstream r sent <;> simp
    · cases h.upstream r sent <;> rfl

/-- A run of `ServeHTTP` on a body that was read, if it does not panic, makes one
upstream call and ends with the relay of its outcome. -/
theorem ServeHTTP_relay (h : Handler) (sessions : SessionStore) (clock : Clock)
    (r : HTTPRequest) (reqBody : Bytes) (hb : r.Body = some reqBody)
    (hp : (h.ServeHTTP sessions clock r).panic = none) :
    ∃ sent, Event.upstreamRequest sent ∈ (h.ServeHTTP sessions clock r).events ∧
      (h.ServeHTTP sessions clock r).response = some (relay (h.upstream r sent)) := by
  unfold Handler.ServeHTTP at hp ⊢
  rw [hb] at hp ⊢
  dsimp only at hp ⊢
  split
  · refine ⟨reqBody, ?_, ?_⟩
    · unfold Handler.forwardRaw
      cases h.upstream r reqBody <;> simp
    · unfold Handler.forwardRaw
      cases h.upstream r reqBody <;> rfl
  · rename_i parsed hparsed
    rw [hparsed] at hp
    dsimp only at hp
    split
    · rename_i hbatch
      rw [if_pos hbatch] at hp
      exact handleBatch_relay h sessions r reqBody parsed hp
    · rename_i hbatch
      rw [if_neg hbatch] at hp
      split
      · rename_i hnil
        rw [hnil] at hp
        simp at hp
      · rename_i req rest hreq
        rw [hreq] at hp
        exact handleSingle_relay h sessions clock r reqBody req hp

/-! ## internal/mcp/extractor.go: properties -/

/-- The string lookup of the extractors on a decoded object, by the last member. -/
theorem stringParam_buildMap (ms : List (String × JSON)) (key : String) :
    stringParam (some (buildMap ms)) key =
      match lastMember key ms with
      | some (JSON.str s _) => some s
      | some JSON.null => some ""
      | _ => none := by
  unfold stringParam
  simp only [GoMap.get, assocGet_buildMap]
  cases h : lastMember key ms with
  | none => rfl
  | some v => cases v <;> rfl

/-- The string lookup, when it succeeds, is the string value of the member. -/
theorem stringParam_of_obj (ms : List (String × JSON)) (raw : List Char) (key : String) :
    (stringParam (some (buildMap ms)) key).getD "" =
      stringMember (some (JSON.obj ms raw)) key := by
  rw [stringParam_buildMap]
  unfold stringMember
  cases h : lastMember key ms with
  | none => simp [h]
  | some v => cases v <;> simp [h]

/-- A field set from a lookup holds the lookup's string, or stays empty. -/
theorem stringParam_none_or (ms : List (String × JSON)) (raw : List Char) (key : String) :
    (match stringParam (some (buildMap ms)) key with
      | some s => s
      | none => "") = stringMember (some (JSON.obj ms raw)) key := by
  rw [← stringParam_of_obj]
  cases stringParam (some (buildMap ms)) key <;> rfl

/-- The cases of `IDString`: empty for no id and for `null`, the string for a string id,
and the bytes of the id as they were read for every other id. -/
theorem IDString_cases :
    IDString none = "" ∧ IDString (some JSON.null) = "" ∧
    (∀ s raw, IDString (some (JSON.str s raw)) = s) ∧
    (∀ lit, IDString (some (JSON.num lit)) = String.mk lit) ∧
    IDString (some (JSON.bool true)) = "true" ∧ IDString (some (JSON.bool false)) = "false" ∧
    (∀ xs raw, IDString (some (JSON.arr xs raw)) = String.mk raw) ∧
    (∀ ms raw, IDString (some (JSON.obj ms raw)) = String.mk raw) :=
  ⟨rfl, rfl, fun _ _ => rfl, fun _ => rfl, rfl, rfl, fun _ _ => rfl, fun _ _ => rfl⟩

/-- The method-to-field table of `ExtractRequestInfo`. -/
theorem ExtractRequestInfo_eq (req : Request) :
    ExtractRequestInfo req =
      ⟨req.Method,
        if req.Method = "tools/call" then stringMember req.Params "name" else "",
        if req.Method = "prompts/get" then stringMember req.Params "name" else "",
        if req.Method = "resources/read" ∨ req.Method = "resources/subscribe" ∨
            req.Method = "resources/unsubscribe" then stringMember req.Params "uri" else "",
        IDString req.ID⟩ := by
  unfold ExtractRequestInfo
  cases hp : req.Params with
  | none => simp [stringMember]
  | some p =>
    cases p with
    | null => simp [unmarshalRawMap, stringParam, GoMap.get, stringMember]
    | bool b => simp [unmarshalRawMap, stringMember]
    | num l => simp [unmarshalRawMap, stringMember]
    | str s raw => simp [unmarshalRawMap, stringMember]
    | arr xs raw => simp [unmarshalRawMap, stringMember]
    | obj ms raw =>
      simp only [unmarshalRawMap]
      have hname := stringParam_none_or ms raw "name"
      have huri := stringParam_none_or ms raw "uri"
      by_cases h1 : req.Method = "tools/call"
      · have h2 : ¬ req.Method = "prompts/get" := by rw [h1]; decide
        have h3 : ¬ (req.Method = "resources/read" ∨ req.Method = "resources/subscribe" ∨
            req.Method = "resources/unsubscribe") := by rw [h1]; decide
        simp only [h1, h2, h3, if_true, if_false] at *
        rw [← hname]
        cases stringParam (some (buildMap ms)) "name" <;> rfl
      · by_cases h3 : req.Method = "resources/read" ∨ req.Method = "resources/subscribe" ∨
            req.Method = "resources/unsubscribe"
        · have h2 : ¬ req.Method = "prompts/get" := by
            rcases h3 with h | h | h <;> rw [h] <;> decide
          simp only [h1, h2, h3, if_true, if_false]
          rw [← huri]
          cases stringParam (some (buildMap ms)) "uri" <;> rfl
        · by_cases h2 : req.Method = "prompts/get"
          · simp only [h1, h2, h3, if_true, if_false]
            rw [← hname]
            cases stringParam (some (buildMap ms)) "name" <;> rfl
          · simp only [h1, h2, h3, if_false]

/-- C11. `ExtractRequestInfo` is a total function and equals the method-to-field table:
`Method` and `RequestID` come from the request; `ToolName` is the string value of `name`
for `tools/call`, `ResourceURI` the string value of `uri` for the three resource methods,
`PromptName` the string value of `name` for `prompts/get`, where the string value is
empty unless `params` is an object holding the member as a string; every other field is
empty. So at most one of the three target fields is not empty. -/
theorem ExtractRequestInfo_table (req : Request) :
    ExtractRequestInfo req =
      ⟨req.Method,
        if req.Method = "tools/call" then stringMember req.Params "name" else "",
        if req.Method = "prompts/get" then stringMember req.Params "name" else "",
        if req.Method = "resources/read" ∨ req.Method = "resources/subscribe" ∨
            req.Method = "resources/unsubscribe" then stringMember req.Params "uri" else "",
        IDString req.ID⟩ ∧
    [(ExtractRequestInfo req).ToolName, (ExtractRequestInfo req).PromptName,
      (ExtractRequestInfo req).ResourceURI].countP (fun s => s ≠ "") ≤ 1 := by
  refine ⟨ExtractRequestInfo_eq req, ?_⟩
  rw [ExtractRequestInfo_eq]
  by_cases h1 : req.Method = "tools/call"
  · have h2 : ¬ req.Method = "prompts/get" := by rw [h1]; decide
    have h3 : ¬ (req.Method = "resources/read" ∨ req.Method = "resources/subscribe" ∨
        req.Method = "resources/unsubscribe") := by rw [h1]; decide
    simp only [h1, h2, h3, if_true, if_false]
    by_cases hs : stringMember req.Params "name" = "" <;> simp [List.countP_cons, hs]
  · by_cases h3 : req.Method = "resources/read" ∨ req.Method = "resources/subscribe" ∨
        req.Method = "resources/unsubscribe"
    · have h2 : ¬ req.Method = "prompts/get" := by
        rcases h3 with h | h | h <;> rw [h] <;> decide
      simp only [h1, h2, h3, if_true, if_false]
      by_cases hs : stringMember req.Params "uri" = "" <;> simp [List.countP_cons, hs]
    · by_cases h2 : req.Method = "prompts/get"
      · simp only [h1, h2, h3, if_true, if_false]
        by_cases hs : stringMember req.Params "name" = "" <;> simp [List.countP_cons, hs]
      · simp [h1, h2, h3]

/-- The request of the concrete scenario, as `ParseRequest` decodes it, and its
extraction; and a request whose id is an array written with a space inside, which comes
back as it was written. -/
theorem ExtractRequestInfo_table_witness :
    ParseRequest
      "\x7b\"jsonrpc\":\"2.0\",\"id\":1,\"method\":\"tools/call\",\"params\":\x7b\"name\":\"search\",\"arguments\":\x7b\x7d\x7d\x7d".toList
      = Except.ok ⟨false, [⟨"2.0", "tools/call",
          some (JSON.mkObj [("name", JSON.mkStr "search"), ("arguments", JSON.mkObj [])]),
          some (JSON.num ['1'])⟩], []⟩ ∧
    ExtractRequestInfo ⟨"2.0", "tools/call",
        some (JSON.mkObj [("name", JSON.mkStr "search"), ("arguments", JSON.mkObj [])]),
        some (JSON.num ['1'])⟩ = ⟨"tools/call", "search", "", "", "1"⟩ ∧
    ParseRequest "\x7b\"id\": [1, 2], \"method\": \"ping\"\x7d".toList
      = Except.ok ⟨false, [⟨"", "ping", none,
          some (JSON.arr [JSON.num ['1'], JSON.num ['2']] "[1, 2]".toList)⟩], []⟩ ∧
    ExtractRequestInfo ⟨"", "ping", none,
        some (JSON.arr [JSON.num ['1'], JSON.num ['2']] "[1, 2]".toList)⟩ =
      ⟨"ping", "", "", "", "[1, 2]"⟩ :=
  ⟨rfl, (ExtractRequestInfo_table ⟨"2.0", "tools/call",
      some (JSON.mkObj [("name", JSON.mkStr "search"), ("arguments", JSON.mkObj [])]),
      some (JSON.num ['1'])⟩).1.trans rfl,
    rfl, (ExtractRequestInfo_table ⟨"", "ping", none,
      some (JSON.arr [JSON.num ['1'], JSON.num ['2']] "[1, 2]".toList)⟩).1.trans rfl⟩

theorem Target_eq_empty_iff (ri : RequestInfo) :
    ri.Target = "" ↔ ri.ToolName = "" ∧ ri.PromptName = "" ∧ ri.ResourceURI = "" := by
  unfold RequestInfo.Target
  by_cases h1 : ri.ToolName = "" <;> by_cases h2 : ri.PromptName = "" <;>
    by_cases h3 : ri.ResourceURI = "" <;> simp [h1, h2, h3]

/-- The target of an extracted request is the target of the table. -/
theorem ExtractRequestInfo_Target (req : Request) :
    (ExtractRequestInfo req).Target = targetOf req := by
  rw [ExtractRequestInfo_eq]
  unfold RequestInfo.Target targetOf
  by_cases h1 : req.Method = "tools/call"
  · have h2 : ¬ req.Method = "prompts/get" := by rw [h1]; decide
    have h3 : ¬ (req.Method = "resources/read" ∨ req.Method = "resources/subscribe" ∨
        req.Method = "resources/unsubscribe") := by rw [h1]; decide
    by_cases hs : stringMember req.Params "name" = "" <;> simp [h1, hs]
  · by_cases h3 : req.Method = "resources/read" ∨ req.Method = "resources/subscribe" ∨
        req.Method = "resources/unsubscribe"
    · have h2 : ¬ req.Method = "prompts/get" := by
        rcases h3 with h | h | h <;> rw [h] <;> decide
      by_cases hs : stringMember req.Params "uri" = "" <;> simp [h1, h2, h3, hs]
    · by_cases h2 : req.Method = "prompts/get"
      · by_cases hs : stringMember req.Params "name" = "" <;> simp [h1, h2, hs]
      · simp [h1, h2, h3]

/-- C12. For every `RequestInfo`, `SpanName` is the method alone when `Target` is empty
and the method, one space, and `Target` otherwise, where `Target` is the tool name, the
prompt name or the resource URI, and is empty exactly when all three are. For an
extracted request the target is the one of the method-to-field table, so the span name
is `<method> <target>` when the family's member is a non-empty string and `<method>`
otherwise. -/
theorem SpanName_spec :
    (∀ ri : RequestInfo,
      ri.SpanName = (if ri.Target = "" then ri.Method else ri.Method ++ " " ++ ri.Target) ∧
      (ri.Target = ri.ToolName ∨ ri.Target = ri.PromptName ∨ ri.Target = ri.ResourceURI) ∧
      (ri.Target = "" ↔ ri.ToolName = "" ∧ ri.PromptName = "" ∧ ri.ResourceURI = "")) ∧
    (∀ req : Request,
      (ExtractRequestInfo req).SpanName =
        if targetOf req = "" then req.Method else req.Method ++ " " ++ targetOf req) := by
  constructor
  · intro ri
    refine ⟨?_, ?_, Target_eq_empty_iff ri⟩
    · unfold RequestInfo.SpanName
      by_cases h : ri.Target = "" <;> simp [h]
    · unfold RequestInfo.Target
      by_cases h1 : ri.ToolName = "" <;> by_cases h2 : ri.PromptName = "" <;>
        by_cases h3 : ri.ResourceURI = "" <;> simp [h1, h2, h3]
  · intro req
    have hm : (ExtractRequestInfo req).Method = req.Method := by
      rw [ExtractRequestInfo_eq]
    unfold RequestInfo.SpanName
    rw [ExtractRequestInfo_Target, hm]
    by_cases h : targetOf req = "" <;> simp [h]

/-- The span names of one request of each of the three families, and of a request
without a target. -/
theorem SpanName_spec_witness :
    (ExtractRequestInfo ⟨"2.0", "tools/call", some (JSON.mkObj [("name", JSON.mkStr "search")]),
      none⟩).SpanName = "tools/call search" ∧
    (ExtractRequestInfo ⟨"2.0", "prompts/get", some (JSON.mkObj [("name", JSON.mkStr "greet")]),
      none⟩).SpanName = "prompts/get greet" ∧
    (ExtractRequestInfo ⟨"2.0", "resources/read",
      some (JSON.mkObj [("uri", JSON.mkStr "file:///a")]), none⟩).SpanName =
        "resources/read file:///a" ∧
    (ExtractRequestInfo ⟨"2.0", "tools/call", some (JSON.mkObj [("name", JSON.num ['7'])]),
      none⟩).SpanName = "tools/call" :=
  ⟨(SpanName_spec.2 _).trans (by decide), (SpanName_spec.2 _).trans (by decide),
    (SpanName_spec.2 _).trans (by decide), (SpanName_spec.2 _).trans (by decide)⟩

/-- The probe of the result is the test for an `isError` member that is true. -/
theorem resultIsError_eq (result : RawMessage) : resultIsError result = isErrorTrue result := by
  unfold resultIsError isErrorTrue
  cases result with
  | none => rfl
  | some raw =>
    cases raw with
    | obj ms raw =>
      simp only [unmarshalRawMap, GoMap.get, assocGet_buildMap]
      cases h : lastMember "isError" ms with
      | none => rfl
      | some v =>
        cases v with
        | bool b => cases b <;> rfl
        | _ => rfl
    | _ => rfl

/-- C13. The label of a response: with an error object, `HasError` is true, the message
is the error's message and the label is the decimal rendering of the error's code;
without one, for the method `tools/call` and a result that is an object whose `isError`
member is the boolean true, `HasError` and `IsToolError` are true and the label is
`tool_error`; in every other case `HasError` is false and the label is empty. -/
theorem ErrorType_spec (resp : Response) (method : String) :
    (∀ e, resp.Error = some e →
      ExtractResponseInfo resp method = ⟨e.Code, e.Message, true, false⟩ ∧
      (ExtractResponseInfo resp method).ErrorType = Itoa e.Code) ∧
    (resp.Error = none → method = "tools/call" → isErrorTrue resp.Result = true →
      ExtractResponseInfo resp method = ⟨0, "", true, true⟩ ∧
      (ExtractResponseInfo resp method).ErrorType = "tool_error") ∧
    (resp.Error = none → (method ≠ "tools/call" ∨ isErrorTrue resp.Result = false) →
      ExtractResponseInfo resp method = ⟨0, "", false, false⟩ ∧
      (ExtractResponseInfo resp method).ErrorType = "") := by
  refine ⟨?_, ?_, ?_⟩
  · intro e he
    have : ExtractResponseInfo resp method = ⟨e.Code, e.Message, true, false⟩ := by
      unfold ExtractResponseInfo
      simp [he]
    rw [this]
    exact ⟨rfl, rfl⟩
  · intro he hm hr
    have : ExtractResponseInfo resp method = ⟨0, "", true, true⟩ := by
      unfold ExtractResponseInfo
      simp [he, hm, resultIsError_eq, hr]
    rw [this]
    exact ⟨rfl, rfl⟩
  · intro he hr
    have : ExtractResponseInfo resp method = ⟨0, "", false, false⟩ := by
      unfold ExtractResponseInfo
      rcases hr with hm | hr
      · simp [he, hm]
      · simp [he, resultIsError_eq, hr]
    rw [this]
    exact ⟨rfl, rfl⟩

/-- The two responses of the tool-error scenario, and an `isError` result under another
method. -/
theorem ErrorType_spec_witness :
    (ExtractResponseInfo ⟨"2.0", none, some ⟨-32601, "Method not found", none⟩, none⟩
      "tools/call").ErrorType = "-32601" ∧
    (ExtractResponseInfo ⟨"2.0", some (JSON.mkObj [("isError", JSON.bool true)]), none, none⟩
      "tools/call").ErrorType = "tool_error" ∧
    (ExtractResponseInfo ⟨"2.0", some (JSON.mkObj [("isError", JSON.bool true)]), none, none⟩
      "resources/read").ErrorType = "" :=
  ⟨((ErrorType_spec ⟨"2.0", none, some ⟨-32601, "Method not found", none⟩, none⟩
      "tools/call").1 _ rfl).2.trans (by decide),
    ((ErrorType_spec ⟨"2.0", some (JSON.mkObj [("isError", JSON.bool true)]), none, none⟩
      "tools/call").2.1 rfl rfl rfl).2,
    ((ErrorType_spec ⟨"2.0", some (JSON.mkObj [("isError", JSON.bool true)]), none, none⟩
      "resources/read").2.2 rfl (Or.inl (by decide))).2⟩

/-! ## internal/mcp/session.go: auxiliary facts -/

theorem assocGet_none_of_not_mem {α : Type} (k : String) :
    ∀ l : List (String × α), k ∉ l.map Prod.fst → assocGet k l = none := by
  intro l
  induction l with
  | nil => intro _; rfl
  | cons kv rest ih =>
    intro h
    obtain ⟨k1, v1⟩ := kv
    simp only [List.map_cons, List.mem_cons, not_or] at h
    have hne : ¬ k1 = k := fun e => h.1 e.symm
    simp [assocGet, hne, ih h.2]

theorem assocGet_some_mem {α : Type} (k : String) (v : α) :
    ∀ l : List (String × α), assocGet k l = some v → (k, v) ∈ l := by
  intro l
  induction l with
  | nil => intro h; simp [assocGet] at h
  | cons kv rest ih =>
    intro h
    obtain ⟨k1, v1⟩ := kv
    by_cases hk : k1 = k
    · subst hk
      simp [assocGet] at h
      subst h
      simp
    · simp [assocGet, hk] at h
      exact List.mem_cons_of_mem _ (ih h)

theorem assocGet_isSome_iff {α : Type} (k : String) :
    ∀ l : List (String × α), (assocGet k l).isSome = true ↔ k ∈ l.map Prod.fst := by
  intro l
  induction l with
  | nil => simp [assocGet]
  | cons kv rest ih =>
    obtain ⟨k1, v1⟩ := kv
    by_cases hk : k1 = k
    · subst hk; simp [assocGet]
    · have hk' : ¬ k = k1 := fun e => hk e.symm
      simp [assocGet, hk, hk', ih]

theorem keys_assocSet {α : Type} (k : String) (v : α) :
    ∀ l : List (String × α),
      (assocSet k v l).map Prod.fst =
        if k ∈ l.map Prod.fst then l.map Prod.fst else l.map Prod.fst ++ [k] := by
  intro l
  induction l with
  | nil => simp [assocSet]
  | cons kv rest ih =>
    obtain ⟨k1, v1⟩ := kv
    by_cases hk : k1 = k
    · subst hk; simp [assocSet]
    · have hk' : ¬ k = k1 := fun e => hk e.symm
      simp only [assocSet, hk, beq_iff_eq, if_false, List.map_cons, ih, List.mem_cons, hk',
        false_or]
      split <;> simp

theorem mem_assocSet {α : Type} (k : String) (v : α) (kv : String × α) :
    ∀ l : List (String × α), kv ∈ assocSet k v l → kv = (k, v) ∨ kv ∈ l := by
  intro l
  induction l with
  | nil => intro h; simp [assocSet] at h; exact Or.inl h
  | cons kv1 rest ih =>
    intro h
    obtain ⟨k1, v1⟩ := kv1
    by_cases hk : k1 = k
    · subst hk
      simp [assocSet] at h
      rcases h with h | h
      · exact Or.inl h
      · exact Or.inr (List.mem_cons_of_mem _ h)
    · simp [assocSet, hk] at h
      rcases h with h | h
      · exact Or.inr (by rw [h]; simp)
      · rcases ih h with h1 | h1
        · exact Or.inl h1
        · exact Or.inr (List.mem_cons_of_mem _ h1)

theorem nodup_keys_assocSet {α : Type} (k : String) (v : α) (l : List (String × α))
    (h : (l.map Prod.fst).Nodup) : ((assocSet k v l).map Prod.fst).Nodup := by
  rw [keys_assocSet]
  split
  · exact h
  · rename_i hk
    rw [List.nodup_append]
    refine ⟨h, by simp, ?_⟩
    intro a ha hb
    simp at hb
    subst hb
    exact hk ha

theorem assocGet_filter {α : Type} (k : String) (p : α → Bool) :
    ∀ l : List (String × α), (l.map Prod.fst).Nodup →
      assocGet k (l.filter (fun kv => p kv.2)) = (assocGet k l).filter p := by
  intro l
  induction l with
  | nil => intro _; rfl
  | cons kv rest ih =>
    intro h
    obtain ⟨k1, v1⟩ := kv
    simp only [List.map_cons, List.nodup_cons] at h
    by_cases hp : p v1 = true
    · by_cases hk : k1 = k
      · subst hk; simp [List.filter_cons, hp, assocGet, Option.filter]
      · simp [List.filter_cons, hp, assocGet, hk, ih h.2]
    · by_cases hk : k1 = k
      · subst hk
        have hnone : assocGet k1 (rest.filter (fun kv => p kv.2)) = none := by
          apply assocGet_none_of_not_mem
          intro hmem
          apply h.1
          rw [List.mem_map] at hmem ⊢
          obtain ⟨a, ha, hak⟩ := hmem
          exact ⟨a, (List.mem_filter.mp ha).1, hak⟩
        simp [List.filter_cons, hp, assocGet, Option.filter, hnone]
      · simp [List.filter_cons, hp, assocGet, hk, ih h.2]

/-- The version `TrackInitialize` reads is the string value of `protocolVersion`. -/
theorem protocolVersionOf_eq (resp : Response) :
    protocolVersionOf resp = stringMember resp.Result "protocolVersion" := by
  unfold protocolVersionOf
  cases h : resp.Result with
  | none => rfl
  | some raw =>
    cases raw with
    | obj ms raw => simp only [unmarshalRawMap]; exact stringParam_of_obj ms raw "protocolVersion"
    | null => rfl
    | _ => rfl

/-! ## internal/mcp/session.go: properties -/

theorem Get_of_find_some (ss : SessionStore) (id : String) (now : Int) (s : Session)
    (h : ss.find id = some s) :
    ss.Get id now = (some { s with LastAccessedAt := now },
      { ss with sessions := assocSet id { s with LastAccessedAt := now } ss.sessions }) := by
  unfold SessionStore.find at h
  unfold SessionStore.Get
  rw [h]

theorem Get_of_find_none (ss : SessionStore) (id : String) (now : Int)
    (h : ss.find id = none) : ss.Get id now = (none, ss) := by
  unfold SessionStore.find at h
  unfold SessionStore.Get
  rw [h]

/-- C14. `TrackInitialize` with a non-empty id installs a record, new or in place of
the one under that id: an immediately following `Get` returns a session with that `ID`
and with `ProtocolVersion` the string value of the result's `protocolVersion` member
(empty when there is none); the record under every other id is unchanged; and the added
callback, when the store has one, is called exactly once. With the empty id the store is
unchanged and no callback is called. -/
theorem TrackInitialize_spec (ss : SessionStore) (resp : Response) (id : String)
    (created accessed now : Int) :
    (id ≠ "" →
      (∃ s, ((ss.TrackInitialize resp id created accessed).1.Get id now).1 = some s ∧
        s.ID = id ∧ s.ProtocolVersion = stringMember resp.Result "protocolVersion") ∧
      (ss.TrackInitialize resp id created accessed).1.ids =
        (if id ∈ ss.ids then ss.ids else ss.ids ++ [id]) ∧
      (∀ k, k ≠ id → (ss.TrackInitialize resp id created accessed).1.find k = ss.find k) ∧
      (ss.onAdd = true →
        (ss.TrackInitialize resp id created accessed).2 = [Notification.added])) ∧
    (id = "" → ss.TrackInitialize resp id created accessed = (ss, [])) := by
  constructor
  · intro hid
    have hT : ss.TrackInitialize resp id created accessed =
        ({ ss with sessions :=
            assocSet id ⟨id, protocolVersionOf resp, created, accessed⟩ ss.sessions },
          if ss.onAdd then [Notification.added] else []) := by
      unfold SessionStore.TrackInitialize
      rw [if_neg hid]
    rw [hT]
    refine ⟨?_, ?_, ?_, ?_⟩
    · refine ⟨⟨id, protocolVersionOf resp, created, now⟩, ?_, rfl, protocolVersionOf_eq resp⟩
      have hf : (ss.TrackInitialize resp id created accessed).1.find id =
          some ⟨id, protocolVersionOf resp, created, accessed⟩ := by
        rw [hT]
        simp [SessionStore.find, assocGet_assocSet]
      rw [hT] at hf
      rw [Get_of_find_some _ id now _ hf]
    · simp only [SessionStore.ids]
      exact keys_assocSet _ _ _
    · intro k hk
      have hk' : ¬ id = k := fun e => hk e.symm
      simp [SessionStore.find, assocGet_assocSet, hk']
    · intro ha
      simp [ha]
  · intro hid
    unfold SessionStore.TrackInitialize
    rw [if_pos hid]

/-- A handshake response with a negotiated version, tracked in the empty store of the
deployment. -/
theorem TrackInitialize_spec_witness :
    ("s1" : String) ≠ "" ∧ exampleStore.onAdd = true ∧
    (∃ s, ((exampleStore.TrackInitialize
        ⟨"2.0", some (JSON.mkObj [("protocolVersion", JSON.mkStr "2025-03-26")]), none, none⟩
        "s1" 10 11).1.Get "s1" 12).1 = some s ∧
      s.ID = "s1" ∧ s.ProtocolVersion = "2025-03-26") ∧
    (exampleStore.TrackInitialize
        ⟨"2.0", some (JSON.mkObj [("protocolVersion", JSON.mkStr "2025-03-26")]), none, none⟩
        "s1" 10 11).2 = [Notification.added] ∧
    exampleStore.TrackInitialize Response.zero "" 10 11 = (exampleStore, []) :=
  ⟨by decide, rfl,
    ((TrackInitialize_spec exampleStore
      ⟨"2.0", some (JSON.mkObj [("protocolVersion", JSON.mkStr "2025-03-26")]), none, none⟩
      "s1" 10 11 12).1 (by decide)).1,
    ((TrackInitialize_spec exampleStore
      ⟨"2.0", some (JSON.mkObj [("protocolVersion", JSON.mkStr "2025-03-26")]), none, none⟩
      "s1" 10 11 12).1 (by decide)).2.2.2 rfl,
    (TrackInitialize_spec exampleStore Response.zero "" 10 11 12).2 rfl⟩

theorem timeSub_of_inRange (t u : Int) (h1 : minDuration ≤ t - u) (h2 : t - u ≤ maxDuration) :
    timeSub t u = t - u := by
  unfold timeSub
  rw [if_neg (by omega), if_neg (by omega)]

theorem length_filter_add {α : Type} (p : α → Bool) (l : List α) :
    (l.filter (fun x => !p x)).length + (l.filter p).length = l.length := by
  induction l with
  | nil => rfl
  | cons a rest ih =>
    by_cases h : p a = true
    · simp [List.filter_cons, h]; omega
    · simp [List.filter_cons, h]; omega

/-- C15. One pass of `evict` at time `now` on a store that is a map removes exactly the
records with `now.Sub(LastAccessedAt) > ttl`, which is `now - LastAccessedAt > ttl`
whenever the difference is in the range of a duration, and so keeps a record whose age
equals the TTL; it retains every other record unchanged; it calls the removed callback,
when the store has one, once per removed record; afterwards `ActiveCount` is the
previous count less the number of records removed, and `Get` of a removed id returns
nil. -/
theorem evict_spec (ss : SessionStore) (now : Int) (hwf : ss.WF) :
    (∀ s, ss.expired now s = true ↔ timeSub now s.LastAccessedAt > ss.ttl) ∧
    (∀ s, minDuration ≤ now - s.LastAccessedAt → now - s.LastAccessedAt ≤ maxDuration →
      (ss.expired now s = true ↔ now - s.LastAccessedAt > ss.ttl)) ∧
    (∀ s, timeSub now s.LastAccessedAt = ss.ttl → ss.expired now s = false) ∧
    (ss.evict now).1.sessions = ss.sessions.filter (fun kv => !ss.expired now kv.2) ∧
    (∀ id s, ss.find id = some s → ss.expired now s = true →
      (ss.evict now).1.find id = none ∧ ∀ t, ((ss.evict now).1.Get id t).1 = none) ∧
    (∀ id s, ss.find id = some s → ss.expired now s = false →
      (ss.evict now).1.find id = some s) ∧
    (∀ id, ss.find id = none → (ss.evict now).1.find id = none) ∧
    (ss.onRemove = true →
      (ss.evict now).2 = List.replicate
        (ss.sessions.filter (fun kv => ss.expired now kv.2)).length Notification.removed) ∧
    (ss.evict now).1.ActiveCount +
      (ss.sessions.filter (fun kv => ss.expired now kv.2)).length = ss.ActiveCount := by
  have hfind : ∀ id, (ss.evict now).1.find id =
      (ss.find id).filter (fun s => !ss.expired now s) := by
    intro id
    unfold SessionStore.find SessionStore.evict
    exact assocGet_filter id (fun s => !ss.expired now s) ss.sessions hwf
  refine ⟨?_, ?_, ?_, rfl, ?_, ?_, ?_, ?_, ?_⟩
  · intro s
    simp [SessionStore.expired]
  · intro s h1 h2
    simp [SessionStore.expired, timeSub_of_inRange now s.LastAccessedAt h1 h2]
  · intro s h
    simp [SessionStore.expired, h]
  · intro id s hs he
    have hnone : (ss.evict now).1.find id = none := by
      rw [hfind, hs]
      simp [Option.filter, he]
    exact ⟨hnone, fun t => by rw [Get_of_find_none _ id t hnone]⟩
  · intro id s hs he
    rw [hfind, hs]
    simp [Option.filter, he]
  · intro id hs
    rw [hfind, hs]
    rfl
  · intro hr
    unfold SessionStore.evict
    simp only [hr, if_true]
    rw [List.eq_replicate_iff]
    simp
  · have h := length_filter_add (fun kv : String × Session => ss.expired now kv.2) ss.sessions
    simp only [SessionStore.evict, SessionStore.ActiveCount]
    exact h

/-- A store with a record past its TTL and a record whose age is exactly the TTL, swept
at time 150. -/
theorem evict_spec_witness :
    exampleAgedStore.WF ∧
    (exampleAgedStore.evict 150).1.find "old" = none ∧
    (exampleAgedStore.evict 150).1.find "edge" = some ⟨"edge", "", 0, 100⟩ ∧
    (exampleAgedStore.evict 150).2 = [Notification.removed] ∧
    (exampleAgedStore.evict 150).1.ActiveCount + 1 = exampleAgedStore.ActiveCount :=
  ⟨by unfold SessionStore.WF; decide,
    ((evict_spec exampleAgedStore 150 (by unfold SessionStore.WF; decide)).2.2.2.2.1
      "old" ⟨"old", "", 0, 0⟩ rfl (by decide)).1,
    (evict_spec exampleAgedStore 150 (by unfold SessionStore.WF; decide)).2.2.2.2.2.1
      "edge" ⟨"edge", "", 0, 100⟩ rfl (by decide),
    ((evict_spec exampleAgedStore 150 (by unfold SessionStore.WF; decide)).2.2.2.2.2.2.2.1
      rfl).trans (by decide),
    (evict_spec exampleAgedStore 150 (by unfold SessionStore.WF; decide)).2.2.2.2.2.2.2.2⟩

theorem find_mem (ss : SessionStore) (id : String) (s : Session) (h : ss.find id = some s) :
    (id, s) ∈ ss.sessions :=
  assocGet_some_mem id s ss.sessions h

/-- One operation under a non-decreasing clock keeps the invariant, and leaves every
record untouched or freshly accessed. -/
theorem StoreOp.apply_Inv (ss : SessionStore) (t : Int) (op : StoreOp) (hinv : ss.Inv t)
    (h1 : t ≤ op.first) (h2 : op.first ≤ op.last) :
    (op.apply ss).Inv op.last ∧ Fresh ss t (op.apply ss) := by
  obtain ⟨hwf, hrec⟩ := hinv
  cases op with
  | get id now =>
    simp only [StoreOp.first, StoreOp.last] at h1 h2 ⊢
    simp only [StoreOp.apply]
    cases hf : ss.find id with
    | none =>
      rw [Get_of_find_none ss id now hf]
      refine ⟨⟨hwf, fun kv hkv => ⟨(hrec kv hkv).1, by have := (hrec kv hkv).2; omega⟩⟩, ?_⟩
      intro k s1 hk
      exact Or.inl hk
    | some s =>
      rw [Get_of_find_some ss id now s hf]
      have hs := hrec (id, s) (find_mem ss id s hf)
      simp only at hs
      refine ⟨⟨?_, ?_⟩, ?_⟩
      · exact nodup_keys_assocSet _ _ _ hwf
      · intro kv hkv
        rcases mem_assocSet _ _ _ _ hkv with he | hm
        · subst he
          simp only
          constructor <;> omega
        · exact ⟨(hrec kv hm).1, by have := (hrec kv hm).2; omega⟩
      · intro k s1 hk
        simp only [SessionStore.find, assocGet_assocSet] at hk
        by_cases hik : id = k
        · simp [hik] at hk
          subst hk
          right
          simp only
          omega
        · simp [hik] at hk
          exact Or.inl hk
  | track resp id created accessed =>
    simp only [StoreOp.first, StoreOp.last] at h1 h2 ⊢
    simp only [StoreOp.apply, SessionStore.TrackInitialize]
    by_cases hid : id = ""
    · simp only [hid, if_true]
      refine ⟨⟨hwf, fun kv hkv => ⟨(hrec kv hkv).1, by have := (hrec kv hkv).2; omega⟩⟩, ?_⟩
      intro k s1 hk
      exact Or.inl hk
    · simp only [hid, if_false]
      refine ⟨⟨?_, ?_⟩, ?_⟩
      · exact nodup_keys_assocSet _ _ _ hwf
      · intro kv hkv
        rcases mem_assocSet _ _ _ _ hkv with he | hm
        · subst he
          simp only
          constructor <;> omega
        · exact ⟨(hrec kv hm).1, by have := (hrec kv hm).2; omega⟩
      · intro k s1 hk
        simp only [SessionStore.find, assocGet_assocSet] at hk
        by_cases hik : id = k
        · simp [hik] at hk
          subst hk
          right
          simp only
          omega
        · simp [hik] at hk
          exact Or.inl hk
  | evict now =>
    simp only [StoreOp.first, StoreOp.last] at h1 h2 ⊢
    simp only [StoreOp.apply, SessionStore.evict]
    refine ⟨⟨?_, ?_⟩, ?_⟩
    · unfold SessionStore.WF SessionStore.ids
      exact (List.Sublist.map Prod.fst (List.filter_sublist _)).nodup hwf
    · intro kv hkv
      have hm := (List.mem_filter.mp hkv).1
      exact ⟨(hrec kv hm).1, by have := (hrec kv hm).2; omega⟩
    · intro k s1 hk
      left
      have := assocGet_filter k (fun s => !ss.expired now s) ss.sessions hwf
      simp only [SessionStore.find] at hk ⊢
      rw [this] at hk
      cases hg : assocGet k ss.sessions with
      | none => rw [hg] at hk; simp [Option.filter] at hk
      | some s =>
        rw [hg] at hk
        simp only [Option.filter] at hk
        split at hk
        · exact hk
        · simp at hk

/-- A sequence of operations under a non-decreasing clock keeps the invariant, and
leaves every record untouched or freshly accessed. -/
theorem runOps_Inv :
    ∀ (ops : List StoreOp) (ss : SessionStore) (t : Int), ss.Inv t → clockOK t ops →
      (runOps ss ops).Inv (lastClock t ops) ∧ Fresh ss t (runOps ss ops) := by
  intro ops
  induction ops with
  | nil =>
    intro ss t hinv _
    exact ⟨hinv, fun k s1 hk => Or.inl hk⟩
  | cons op rest ih =>
    intro ss t hinv hclock
    obtain ⟨h1, h2, h3⟩ := hclock
    obtain ⟨hinv1, hfresh1⟩ := StoreOp.apply_Inv ss t op hinv h1 h2
    obtain ⟨hinv2, hfresh2⟩ := ih (op.apply ss) op.last hinv1 h3
    refine ⟨hinv2, ?_⟩
    intro k s1 hk
    rcases hfresh2 k s1 hk with hsame | hnew
    · exact hfresh1 k s1 hsame
    · right; omega

theorem clockOK_append (t : Int) :
    ∀ (ops1 ops2 : List StoreOp), clockOK t (ops1 ++ ops2) →
      clockOK t ops1 ∧ clockOK (lastClock t ops1) ops2 := by
  intro ops1
  induction ops1 generalizing t with
  | nil => intro ops2 h; exact ⟨trivial, h⟩
  | cons op rest ih =>
    intro ops2 h
    obtain ⟨h1, h2, h3⟩ := h
    obtain ⟨h4, h5⟩ := ih op.last ops2 h3
    exact ⟨⟨h1, h2, h4⟩, h5⟩

theorem NewSessionStore_Inv (ttl : Int) (onAdd onRemove : Bool) (t : Int) :
    (NewSessionStore ttl onAdd onRemove).Inv t := by
  refine ⟨?_, ?_⟩
  · unfold SessionStore.WF SessionStore.ids NewSessionStore
    exact List.nodup_nil
  · intro kv hkv
    simp [NewSessionStore] at hkv

/-- C17. Under a non-decreasing clock, along every sequence of `Get`, `TrackInitialize`
and `evict` operations on a new store, a record's `LastAccessedAt` at a later point is at
least its `LastAccessedAt` at an earlier point, and at least its `CreatedAt`; the same
holds from any store that satisfies the invariant. `Get` on a present id returns the
record with `LastAccessedAt` set to now and changes nothing else: the ids, the other
fields of the record, every other record and the configuration stay as they are. `Get`
on an absent id returns nil and changes nothing. -/
theorem LastAccessedAt_monotone :
    (∀ (ttl : Int) (onAdd onRemove : Bool) (t : Int) (ops1 ops2 : List StoreOp),
      clockOK t (ops1 ++ ops2) →
      (∀ id s1 s2, (runOps (NewSessionStore ttl onAdd onRemove) ops1).find id = some s1 →
        (runOps (NewSessionStore ttl onAdd onRemove) (ops1 ++ ops2)).find id = some s2 →
        s1.LastAccessedAt ≤ s2.LastAccessedAt) ∧
      (∀ id s2, (runOps (NewSessionStore ttl onAdd onRemove) (ops1 ++ ops2)).find id = some s2 →
        s2.CreatedAt ≤ s2.LastAccessedAt)) ∧
    (∀ (ss : SessionStore) (t : Int) (ops : List StoreOp), ss.Inv t → clockOK t ops →
      (∀ id s1 s2, ss.find id = some s1 → (runOps ss ops).find id = some s2 →
        s1.LastAccessedAt ≤ s2.LastAccessedAt) ∧
      (∀ id s2, (runOps ss ops).find id = some s2 → s2.CreatedAt ≤ s2.LastAccessedAt)) ∧
    (∀ (ss : SessionStore) (id : String) (now : Int) (s : Session), ss.find id = some s →
      (ss.Get id now).1 = some ⟨s.ID, s.ProtocolVersion, s.CreatedAt, now⟩ ∧
      (ss.Get id now).2.find id = some ⟨s.ID, s.ProtocolVersion, s.CreatedAt, now⟩ ∧
      (ss.Get id now).2.ids = ss.ids ∧
      (∀ k, k ≠ id → (ss.Get id now).2.find k = ss.find k) ∧
      (ss.Get id now).2.ttl = ss.ttl ∧ (ss.Get id now).2.onAdd = ss.onAdd ∧
      (ss.Get id now).2.onRemove = ss.onRemove) ∧
    (∀ (ss : SessionStore) (id : String) (now : Int), ss.find id = none →
      ss.Get id now = (none, ss)) := by
  have general : ∀ (ss : SessionStore) (t : Int) (ops : List StoreOp), ss.Inv t →
      clockOK t ops →
      (∀ id s1 s2, ss.find id = some s1 → (runOps ss ops).find id = some s2 →
        s1.LastAccessedAt ≤ s2.LastAccessedAt) ∧
      (∀ id s2, (runOps ss ops).find id = some s2 → s2.CreatedAt ≤ s2.LastAccessedAt) := by
    intro ss t ops hinv hclock
    obtain ⟨hinv2, hfresh⟩ := runOps_Inv ops ss t hinv hclock
    constructor
    · intro id s1 s2 h1 h2
      rcases hfresh id s2 h2 with hsame | hnew
      · rw [h1] at hsame
        simp at hsame
        subst hsame
        exact Int.le_refl _
      · have := (hinv.2 (id, s1) (find_mem ss id s1 h1)).2
        simp only at this
        omega
    · intro id s2 h2
      exact (hinv2.2 (id, s2) (find_mem _ id s2 h2)).1
  have runOps_append : ∀ (ops1 ops2 : List StoreOp) (ss : SessionStore),
      runOps ss (ops1 ++ ops2) = runOps (runOps ss ops1) ops2 := by
    intro ops1
    induction ops1 with
    | nil => intro ops2 ss; rfl
    | cons op rest ih => intro ops2 ss; exact ih ops2 (op.apply ss)
  refine ⟨?_, general, ?_, ?_⟩
  · intro ttl onAdd onRemove t ops1 ops2 hclock
    obtain ⟨hc1, hc2⟩ := clockOK_append t ops1 ops2 hclock
    obtain ⟨hinv1, _⟩ := runOps_Inv ops1 _ t (NewSessionStore_Inv ttl onAdd onRemove t) hc1
    rw [runOps_append]
    exact general _ _ ops2 hinv1 hc2
  · intro ss id now s hf
    rw [Get_of_find_some ss id now s hf]
    refine ⟨rfl, ?_, ?_, ?_, rfl, rfl, rfl⟩
    · simp [SessionStore.find, assocGet_assocSet]
    · simp only [SessionStore.ids]
      rw [keys_assocSet, if_pos]
      have := (assocGet_isSome_iff id ss.sessions).mp (by
        unfold SessionStore.find at hf; rw [hf]; rfl)
      exact this
    · intro k hk
      have hk' : ¬ id = k := fun e => hk e.symm
      simp [SessionStore.find, assocGet_assocSet, hk']
  · intro ss id now hf
    exact Get_of_find_none ss id now hf

/-- A handshake, a lookup, a second lookup and a sweep, at times 1 to 8. -/
theorem LastAccessedAt_monotone_witness :
    clockOK 0 ([StoreOp.track Response.zero "s1" 1 2, StoreOp.get "s1" 5] ++
      [StoreOp.get "s1" 7, StoreOp.evict 8]) ∧
    (runOps (NewSessionStore 3600 true true)
      [StoreOp.track Response.zero "s1" 1 2, StoreOp.get "s1" 5]).find "s1" =
        some ⟨"s1", "", 1, 5⟩ ∧
    (runOps (NewSessionStore 3600 true true)
      ([StoreOp.track Response.zero "s1" 1 2, StoreOp.get "s1" 5] ++
        [StoreOp.get "s1" 7, StoreOp.evict 8])).find "s1" = some ⟨"s1", "", 1, 7⟩ ∧
    (⟨"s1", "", 1, 5⟩ : Session).LastAccessedAt ≤ (⟨"s1", "", 1, 7⟩ : Session).LastAccessedAt :=
  ⟨⟨by decide, by decide, by decide, by decide, by decide, by decide, by decide, by decide,
      trivial⟩,
    rfl, rfl,
    (LastAccessedAt_monotone.1 3600 true true 0
      [StoreOp.track Response.zero "s1" 1 2, StoreOp.get "s1" 5]
      [StoreOp.get "s1" 7, StoreOp.evict 8]
      ⟨by decide, by decide, by decide, by decide, by decide, by decide, by decide, by decide,
        trivial⟩).1 "s1" _ _ rfl rfl⟩

/-- C18, at the failing input. Two `TrackInitialize` calls with the same id on the
store of the deployment call the added callback twice and leave one record: the counter
stands at 2 while `ActiveCount` is 1. The same happens through the handler, with two
`initialize` requests that carry the same session header. -/
theorem ActiveSessions_drifts_on_overwrite :
    counterValue (runNotes exampleStore
      [StoreOp.track Response.zero "s1" 1 1, StoreOp.track Response.zero "s1" 2 2]) = 2 ∧
    (runOps exampleStore
      [StoreOp.track Response.zero "s1" 1 1, StoreOp.track Response.zero "s1" 2 2]).ActiveCount
        = 1 ∧
    ((exampleHandler.ServeHTTP exampleStore exampleClock exampleInitialize).events.filter
        (fun ev => ev == Event.ActiveSessions 1)).length +
      ((exampleHandler.ServeHTTP
        (exampleHandler.ServeHTTP exampleStore exampleClock exampleInitialize).sessions
        exampleClock exampleInitialize).events.filter
          (fun ev => ev == Event.ActiveSessions 1)).length = 2 ∧
    (exampleHandler.ServeHTTP
      (exampleHandler.ServeHTTP exampleStore exampleClock exampleInitialize).sessions
      exampleClock exampleInitialize).sessions.ActiveCount = 1 :=
  ⟨by decide, by decide, by rfl, by rfl⟩

/-! ## internal/proxy/handler.go: sessions and telemetry -/

theorem Get_ids (ss : SessionStore) (id : String) (now : Int) :
    (ss.Get id now).2.ids = ss.ids := by
  unfold SessionStore.Get
  cases h : assocGet id ss.sessions with
  | none => rfl
  | some s =>
    simp only [SessionStore.ids]
    rw [keys_assocSet, if_pos]
    exact (assocGet_isSome_iff id ss.sessions).1 (by rw [h]; rfl)

theorem TrackInitialize_ids (ss : SessionStore) (resp : Response) (id : String)
    (created accessed : Int) :
    (ss.TrackInitialize resp id created accessed).1.ids =
      if id = "" ∨ id ∈ ss.ids then ss.ids else ss.ids ++ [id] := by
  unfold SessionStore.TrackInitialize
  by_cases h : id = ""
  · simp [h]
  · simp only [h, if_false, false_or, SessionStore.ids]
    exact keys_assocSet _ _ _

theorem lookedUp_ids (sessions : SessionStore) (clock : Clock) (r : HTTPRequest) :
    (lookedUp sessions clock r).ids = sessions.ids := by
  unfold lookedUp
  split
  · exact Get_ids _ _ _
  · rfl

theorem ExtractResponseInfo_handshake (resp : Response) :
    (ExtractResponseInfo resp "initialize").HasError = false ↔ resp.Error = none := by
  unfold ExtractResponseInfo
  have : ¬ ("initialize" = "tools/call") := by decide
  cases resp.Error <;> simp [this]

/-- The store `observeResponse` returns: the store it was given, except after the
response to an `initialize` request parsed and its first envelope has no error, when it
is the store after `TrackInitialize` with the resolved identifier. -/
theorem observeResponse_sessions (h : Handler) (ss : SessionStore) (clock : Clock)
    (req : Request) (reqInfo : RequestInfo) (r : HTTPRequest) (up : UpstreamResponse) :
    (h.observeResponse ss clock req reqInfo (r.Header.Get "Mcp-Session-Id") up).2.1 =
      match ParseResponse up.body with
      | Except.error _ => ss
      | Except.ok res =>
        match res.Responses with
        | [] => ss
        | resp0 :: _ =>
          if reqInfo.Method = "initialize" ∧ resp0.Error.isNone = true then
            (ss.TrackInitialize resp0 (resolvedSessionID r up) clock.created clock.accessed).1
          else ss := by
  unfold Handler.observeResponse
  cases ParseResponse up.body with
  | error e => rfl
  | ok res =>
    dsimp only
    cases res.Responses with
    | nil => rfl
    | cons resp0 rest =>
      dsimp only
      by_cases hm : reqInfo.Method = "initialize"
      · rw [hm]
        by_cases he : resp0.Error = none
        · have := (ExtractResponseInfo_handshake resp0).2 he
          simp [this, he, resolvedSessionID]
        · have : ¬ (ExtractResponseInfo resp0 "initialize").HasError = false :=
            fun hc => he ((ExtractResponseInfo_handshake resp0).1 hc)
          have he2 : ¬ resp0.Error.isNone = true := by
            cases hE : resp0.Error with
            | none => exact absurd hE he
            | some e => simp
          simp [this, he2]
      · simp only [hm, false_and, if_false]

theorem upstreamRequest_not_mem_sessionEvents (sent : Bytes) (ns : List Notification) :
    Event.upstreamRequest sent ∉ sessionEvents ns := by
  unfold sessionEvents
  intro hmem
  rw [List.mem_map] at hmem
  obtain ⟨n, _, hn⟩ := hmem
  cases n <;> simp at hn

theorem upstreamRequest_not_mem_SetPayloadAttributes (sent : Bytes) (a b : String) :
    Event.upstreamRequest sent ∉ SetPayloadAttributes a b := by
  unfold SetPayloadAttributes
  intro hmem
  rw [List.mem_append] at hmem
  rcases hmem with hmem | hmem <;> (split at hmem <;> simp at hmem)

theorem upstreamRequest_not_mem_EndMCPSpan (sent : Bytes) (ri : Option ResponseInfo) :
    Event.upstreamRequest sent ∉ EndMCPSpan ri := by
  unfold EndMCPSpan
  intro hmem
  cases ri with
  | none => simp at hmem
  | some ri =>
    simp only [List.mem_append, List.mem_singleton] at hmem
    rcases hmem with hmem | hmem
    · split at hmem
      · simp only [List.mem_append, List.mem_singleton] at hmem
        rcases hmem with (hmem | hmem) | hmem
        · simp at hmem
        · split at hmem <;> simp at hmem
        · simp at hmem
      · simp at hmem
    · simp at hmem

theorem upstreamRequest_not_mem_observeResponse (h : Handler) (ss : SessionStore)
    (clock : Clock) (req : Request) (reqInfo : RequestInfo) (sid : String)
    (up : UpstreamResponse) (sent : Bytes) :
    Event.upstreamRequest sent ∉ (h.observeResponse ss clock req reqInfo sid up).2.2 := by
  unfold Handler.observeResponse
  intro hmem
  split at hmem
  · simp at hmem
  · split at hmem
    · simp at hmem
    · simp only [List.mem_append] at hmem
      rcases hmem with hmem | hmem
      · exact upstreamRequest_not_mem_sessionEvents _ _ hmem
      · split at hmem
        · exact upstreamRequest_not_mem_SetPayloadAttributes _ _ _ hmem
        · simp at hmem

/-- The sessions `handleSingle` leaves: the store after the lookup when the run panics or
the upstream call fails, and what `observeResponse` returns otherwise; the body of the
one upstream call is the only `upstreamRequest` event. -/
theorem handleSingle_sessions (h : Handler) (sessions : SessionStore) (clock : Clock)
    (r : HTTPRequest) (reqBody : Bytes) (req : Request) :
    ((∀ sent, Event.upstreamRequest sent ∉ (h.handleSingle sessions clock r reqBody req).events) ∧
      (h.handleSingle sessions clock r reqBody req).sessions = lookedUp sessions clock r) ∨
    ∃ bodyToSend,
      Event.upstreamRequest bodyToSend ∈ (h.handleSingle sessions clock r reqBody req).events ∧
      (∀ sent, Event.upstreamRequest sent ∈ (h.handleSingle sessions clock r reqBody req).events →
        sent = bodyToSend) ∧
      (h.handleSingle sessions clock r reqBody req).sessions =
        match h.upstream r bodyToSend with
        | none => lookedUp sessions clock r
        | some up =>
          (h.observeResponse (lookedUp sessions clock r) clock req (ExtractRequestInfo req)
            (r.Header.Get "Mcp-Session-Id") up).2.1 := by
  have hl : (if r.Header.Get "Mcp-Session-Id" ≠ "" then
      sessions.Get (r.Header.Get "Mcp-Session-Id") clock.lookup else (none, sessions)).2 =
      lookedUp sessions clock r := by
    unfold lookedUp
    split <;> rfl
  unfold Handler.handleSingle
  dsimp only
  simp only [hl]
  split
  · left
    refine ⟨?_, rfl⟩
    intro sent hmem
    simp [StartMCPSpan] at hmem
  · rename_i bodyToSend hb
    right
    refine ⟨bodyToSend, ?_, ?_, ?_⟩
    · cases h.upstream r bodyToSend <;> simp
    · intro sent hmem
      cases hu : h.upstream r bodyToSend with
      | none =>
        rw [hu] at hmem
        simp [StartMCPSpan] at hmem
        exact hmem
      | some up =>
        rw [hu] at hmem
        simp only [List.mem_append, List.mem_cons, List.mem_singleton, StartMCPSpan,
          List.not_mem_nil, or_false] at hmem
        have h1 := upstreamRequest_not_mem_observeResponse h (lookedUp sessions clock r)
          clock req (ExtractRequestInfo req) (r.Header.Get "Mcp-Session-Id") up sent
        have h2 := upstreamRequest_not_mem_EndMCPSpan sent
          (h.observeResponse (lookedUp sessions clock r)
            clock req (ExtractRequestInfo req) (r.Header.Get "Mcp-Session-Id") up).1
        simp only [h1, h2, or_false, false_or, Event.upstreamRequest.injEq, reduceCtorEq] at hmem
        exact hmem
    · cases hu : h.upstream r bodyToSend with
      | none => rfl
      | some up => rfl

theorem forwardRaw_sessions (h : Handler) (sessions : SessionStore) (r : HTTPRequest)
    (reqBody : Bytes) (before : List Event) :
    (h.forwardRaw sessions r reqBody before).sessions = sessions := by
  unfold Handler.forwardRaw
  cases h.upstream r reqBody <;> rfl

theorem handleBatch_sessions (h : Handler) (sessions : SessionStore) (r : HTTPRequest)
    (reqBody : Bytes) (parsed : ParseResult) :
    (h.handleBatch sessions r reqBody parsed).sessions = sessions := by
  unfold Handler.handleBatch
  dsimp only
  split
  · rfl
  · split <;> rfl

/-- What `handleSingle` does to the set of identifiers: nothing, or a handshake
succeeded and the store is the store after `TrackInitialize` with the resolved id. -/
theorem handleSingle_ids (h : Handler) (sessions : SessionStore) (clock : Clock)
    (r : HTTPRequest) (reqBody : Bytes) (req : Request) :
    (h.handleSingle sessions clock r reqBody req).sessions.ids = sessions.ids ∨
    (req.Method = "initialize" ∧
      ∃ sent up res resp0 rest,
        Event.upstreamRequest sent ∈ (h.handleSingle sessions clock r reqBody req).events ∧
        h.upstream r sent = some up ∧ ParseResponse up.body = Except.ok res ∧
        res.Responses = resp0 :: rest ∧ resp0.Error = none ∧
        (h.handleSingle sessions clock r reqBody req).sessions =
          ((lookedUp sessions clock r).TrackInitialize resp0 (resolvedSessionID r up)
            clock.created clock.accessed).1) := by
  rcases handleSingle_sessions h sessions clock r reqBody req with ⟨_, hs⟩ | ⟨b, hmem, _, hs⟩
  · left
    rw [hs, lookedUp_ids]
  · cases hu : h.upstream r b with
    | none =>
      left
      rw [hs, hu]
      exact lookedUp_ids _ _ _
    | some up =>
      rw [hu] at hs
      dsimp only at hs
      rw [observeResponse_sessions] at hs
      cases hp : ParseResponse up.body with
      | error e =>
        left
        rw [hs, hp]
        exact lookedUp_ids _ _ _
      | ok res =>
        rw [hp] at hs
        dsimp only at hs
        cases hr : res.Responses with
        | nil =>
          left
          rw [hs, hr]
          exact lookedUp_ids _ _ _
        | cons resp0 rest =>
          rw [hr] at hs
          dsimp only at hs
          by_cases hc : (ExtractRequestInfo req).Method = "initialize" ∧ resp0.Error.isNone = true
          · rw [if_pos hc] at hs
            right
            have hm : req.Method = "initialize" := by
              have := hc.1
              rw [ExtractRequestInfo_eq] at this
              exact this
            have he : resp0.Error = none := by
              have := hc.2
              cases hE : resp0.Error with
              | none => rfl
              | some e => rw [hE] at this; simp at this
            exact ⟨hm, b, up, res, resp0, rest, hmem, hu, hp, hr, he, hs⟩
          · rw [if_neg hc] at hs
            left
            rw [hs]
            exact lookedUp_ids _ _ _

/-- C16. For every request `handleSingle` processes: an identifier that is in the store
afterwards and was not there before comes from a handshake, that is, the method is
`initialize`, the upstream call succeeded, its body parsed, the first envelope carries no
error, and the identifier is the resolved session id, which is not empty; after such a
handshake with a non-empty resolved id, that identifier is in the store with the record
just made, and every identifier of the store was there before or is that one. No
identifier leaves the store in `handleSingle`, `handleBatch` and `forwardRaw` return the
store they were given, and no identifier leaves the store in `ServeHTTP`. -/
theorem handleSingle_creates_only_on_handshake (h : Handler) (sessions : SessionStore)
    (clock : Clock) (r : HTTPRequest) (reqBody : Bytes) (req : Request) :
    (∀ id, id ∈ (h.handleSingle sessions clock r reqBody req).sessions.ids →
      id ∉ sessions.ids →
      req.Method = "initialize" ∧
      ∃ sent up res resp0 rest,
        Event.upstreamRequest sent ∈ (h.handleSingle sessions clock r reqBody req).events ∧
        h.upstream r sent = some up ∧ ParseResponse up.body = Except.ok res ∧
        res.Responses = resp0 :: rest ∧ resp0.Error = none ∧
        resolvedSessionID r up = id ∧ id ≠ "") ∧
    (∀ sent up res resp0 rest, req.Method = "initialize" →
      Event.upstreamRequest sent ∈ (h.handleSingle sessions clock r reqBody req).events →
      h.upstream r sent = some up → ParseResponse up.body = Except.ok res →
      res.Responses = resp0 :: rest → resp0.Error = none → resolvedSessionID r up ≠ "" →
      (h.handleSingle sessions clock r reqBody req).sessions.find (resolvedSessionID r up) =
        some ⟨resolvedSessionID r up, stringMember resp0.Result "protocolVersion",
          clock.created, clock.accessed⟩ ∧
      resolvedSessionID r up ∈ (h.handleSingle sessions clock r reqBody req).sessions.ids ∧
      ∀ id, id ∈ (h.handleSingle sessions clock r reqBody req).sessions.ids →
        id ∈ sessions.ids ∨ id = resolvedSessionID r up) ∧
    (∀ id, id ∈ sessions.ids → id ∈ (h.handleSingle sessions clock r reqBody req).sessions.ids) ∧
    (∀ parsed, (h.handleBatch sessions r reqBody parsed).sessions = sessions) ∧
    (∀ before, (h.forwardRaw sessions r reqBody before).sessions = sessions) ∧
    (∀ id, id ∈ sessions.ids → id ∈ (h.ServeHTTP sessions clock r).sessions.ids) := by
  have hkeep : ∀ (rb : Bytes) (rq : Request) (id : String), id ∈ sessions.ids →
      id ∈ (h.handleSingle sessions clock r rb rq).sessions.ids := by
    intro rb rq id hid
    rcases handleSingle_ids h sessions clock r rb rq with hs | ⟨_, _, up, _, resp0, _, _, _, _, _, _, hs⟩
    · rw [hs]; exact hid
    · rw [hs, TrackInitialize_ids, lookedUp_ids]
      split
      · exact hid
      · exact List.mem_append_left _ hid
  refine ⟨?_, ?_, hkeep reqBody req, fun parsed => handleBatch_sessions h sessions r reqBody parsed,
    fun before => forwardRaw_sessions h sessions r reqBody before, ?_⟩
  · intro id hin hnot
    rcases handleSingle_ids h sessions clock r reqBody req with
      hs | ⟨hm, sent, up, res, resp0, rest, hmem, hu, hp, hr, he, hs⟩
    · rw [hs] at hin
      exact absurd hin hnot
    · refine ⟨hm, sent, up, res, resp0, rest, hmem, hu, hp, hr, he, ?_⟩
      rw [hs, TrackInitialize_ids, lookedUp_ids] at hin
      split at hin
      · exact absurd hin hnot
      · rename_i hc
        rw [List.mem_append, List.mem_singleton] at hin
        rcases hin with hin | hin
        · exact absurd hin hnot
        · subst hin
          exact ⟨rfl, fun he0 => hc (Or.inl he0)⟩
  · intro sent up res resp0 rest hm hmem hu hp hr he hne
    rcases handleSingle_sessions h sessions clock r reqBody req with ⟨hno, _⟩ | ⟨b, _, huniq, hs⟩
    · exact absurd hmem (hno sent)
    · have hb := huniq sent hmem
      subst hb
      rw [hu] at hs
      dsimp only at hs
      rw [observeResponse_sessions, hp] at hs
      dsimp only at hs
      rw [hr] at hs
      dsimp only at hs
      have hc : (ExtractRequestInfo req).Method = "initialize" ∧ resp0.Error.isNone = true := by
        refine ⟨?_, ?_⟩
        · rw [ExtractRequestInfo_eq]; exact hm
        · rw [he]; rfl
      rw [if_pos hc] at hs
      refine ⟨?_, ?_, ?_⟩
      · rw [hs]
        unfold SessionStore.TrackInitialize
        rw [if_neg hne]
        simp [SessionStore.find, assocGet_assocSet, protocolVersionOf_eq]
      · rw [hs, TrackInitialize_ids, lookedUp_ids]
        split
        · rename_i hc2
          rcases hc2 with hc2 | hc2
          · exact absurd hc2 hne
          · exact hc2
        · simp
      · intro id hid
        rw [hs, TrackInitialize_ids, lookedUp_ids] at hid
        split at hid
        · exact Or.inl hid
        · rw [List.mem_append, List.mem_singleton] at hid
          exact hid
  · intro id hid
    unfold Handler.ServeHTTP
    split
    · exact hid
    · split
      · rw [forwardRaw_sessions]; exact hid
      · split
        · rw [handleBatch_sessions]; exact hid
        · split
          · exact hid
          · exact hkeep _ _ id hid

/-- The handshake of `exampleInitialize` installs the id `s1` of its header. -/
theorem handleSingle_creates_only_on_handshake_witness :
    "s1" ∈ (exampleHandler.handleSingle exampleStore exampleClock exampleInitialize
      "\x7b\"jsonrpc\":\"2.0\",\"id\":1,\"method\":\"initialize\"\x7d".toList
      ⟨"2.0", "initialize", none, some (JSON.num "1".toList)⟩).sessions.ids ∧
    "s1" ∉ exampleStore.ids :=
  ⟨((handleSingle_creates_only_on_handshake exampleHandler exampleStore exampleClock
      exampleInitialize
      "\x7b\"jsonrpc\":\"2.0\",\"id\":1,\"method\":\"initialize\"\x7d".toList
      ⟨"2.0", "initialize", none, some (JSON.num "1".toList)⟩).2.1
      "\x7b\"id\":1,\"jsonrpc\":\"2.0\",\"method\":\"initialize\",\"params\":\x7b\"_meta\":\x7b\"traceparent\":\"00-0af7651916cd43dd8448eb211c80319c-b7ad6b7169203331-01\"\x7d\x7d\x7d".toList
      ⟨"\x7b\"jsonrpc\":\"2.0\",\"id\":1,\"result\":\x7b\x7d\x7d".toList,
        [("Content-Type", ["application/json"])], 200⟩
      ⟨false, [], [⟨"2.0", some (JSON.mkObj []), none, some (JSON.num "1".toList)⟩]⟩
      ⟨"2.0", some (JSON.mkObj []), none, some (JSON.num "1".toList)⟩ []
      rfl (by decide) rfl rfl rfl rfl (by decide)).2.1,
    by decide⟩

/-- When the upstream cannot be reached, a run of `handleBatch` that does not panic
records no increment of the request counter, sets no `error.type` attribute on the span,
records one increment of the error counter and no measurement of a response. -/
theorem handleBatch_upstream_failure (h : Handler) (sessions : SessionStore)
    (r : HTTPRequest) (reqBody : Bytes) (parsed : ParseResult)
    (hdown : ∀ b, h.upstream r b = none)
    (hp : (h.handleBatch sessions r reqBody parsed).panic = none) :
    (h.handleBatch sessions r reqBody parsed).events.filter Event.isRequestCount = [] ∧
    (h.handleBatch sessions r reqBody parsed).events.any Event.isSpanErrorType = false ∧
    (h.handleBatch sessions r reqBody parsed).events.filter Event.isErrorsTotal =
      [Event.ErrorsTotal (ErrorAttr "upstream_error")] ∧
    (h.handleBatch sessions r reqBody parsed).events.any Event.isResponseMeasurement = false := by
  unfold Handler.handleBatch at hp ⊢
  dsimp only at hp ⊢
  split
  · rename_i q hq
    rw [hq] at hp
    simp at hp
  · rename_i sent hs
    rw [hdown sent]
    simp [StartMCPSpan, List.filter_cons, Event.isRequestCount, Event.isSpanErrorType,
      Event.isErrorsTotal, Event.isResponseMeasurement]

/-- When the upstream answers, `handleBatch` records one increment of the request counter
per element, in order, tagged by `MethodToolAttrs` of the element. -/
theorem handleBatch_upstream_success (h : Handler) (sessions : SessionStore)
    (r : HTTPRequest) (reqBody : Bytes) (parsed : ParseResult) (up : UpstreamResponse)
    (hup : ∀ b, h.upstream r b = some up)
    (hp : (h.handleBatch sessions r reqBody parsed).panic = none) :
    (h.handleBatch sessions r reqBody parsed).events.filter Event.isRequestCount =
      parsed.Requests.map (fun req =>
        Event.RequestCount
          (MethodToolAttrs (ExtractRequestInfo req).Method (ExtractRequestInfo req).ToolName)) := by
  unfold Handler.handleBatch at hp ⊢
  dsimp only at hp ⊢
  split
  · rename_i q hq
    rw [hq] at hp
    simp at hp
  · rename_i sent hs
    rw [hup sent]
    simp [StartMCPSpan, List.filter_cons, List.filter_map, Event.isRequestCount, Function.comp_def]

/-- One span is opened on every run of `handleBatch`, named `batch`, and the next event
tags it with the number of elements. -/
theorem handleBatch_span (h : Handler) (sessions : SessionStore)
    (r : HTTPRequest) (reqBody : Bytes) (parsed : ParseResult) :
    (h.handleBatch sessions r reqBody parsed).events.filter Event.isSpanStart =
      [Event.spanStart "batch" (spanAttrs ⟨"batch", "", "", "", ""⟩ none h.serverAddr h.serverPort)] ∧
    (h.handleBatch sessions r reqBody parsed).events.take 2 =
      [Event.spanStart "batch" (spanAttrs ⟨"batch", "", "", "", ""⟩ none h.serverAddr h.serverPort),
       Event.spanSetAttributes [("jsonrpc.batch.size", AttrValue.int parsed.Requests.length)]] := by
  have hn : (⟨"batch", "", "", "", ""⟩ : RequestInfo).SpanName = "batch" := by decide
  unfold Handler.handleBatch
  dsimp only
  split
  · simp [StartMCPSpan, List.filter_cons, Event.isSpanStart, hn]
  · split <;>
      simp [StartMCPSpan, List.filter_cons, List.filter_map, Event.isSpanStart, hn,
        Function.comp_def]

/-- When the upstream cannot be reached, a run of `handleSingle` that does not panic
sets `error.type` on the span right before the span ends, records one increment of the
error counter and no measurement of a response. -/
theorem handleSingle_upstream_failure (h : Handler) (sessions : SessionStore) (clock : Clock)
    (r : HTTPRequest) (reqBody : Bytes) (req : Request)
    (hdown : ∀ b, h.upstream r b = none)
    (hp : (h.handleSingle sessions clock r reqBody req).panic = none) :
    (h.handleSingle sessions clock r reqBody req).events.filter Event.isSpanErrorType =
      [Event.spanSetAttributes [("error.type", AttrValue.str "upstream_error")]] ∧
    (h.handleSingle sessions clock r reqBody req).events.reverse.take 2 =
      [Event.spanEnd, Event.spanSetAttributes [("error.type", AttrValue.str "upstream_error")]] ∧
    (h.handleSingle sessions clock r reqBody req).events.filter Event.isErrorsTotal =
      [Event.ErrorsTotal (ErrorAttr "upstream_error")] ∧
    (h.handleSingle sessions clock r reqBody req).events.any Event.isResponseMeasurement = false := by
  unfold Handler.handleSingle at hp ⊢
  dsimp only at hp ⊢
  split
  · rename_i q hq
    rw [hq] at hp
    simp at hp
  · rename_i sent hs
    rw [hdown sent]
    simp [StartMCPSpan, List.filter_cons, Event.isSpanErrorType,
      Event.isErrorsTotal, Event.isResponseMeasurement, DirectionAttr, MethodAttr]

/-- C19, at the failing input. A batch of two requests is parsed and the upstream cannot
be reached: one span named `batch` is opened and tagged with the size 2, the caller gets
status 502, and no increment of the request counter is recorded. In front of an upstream
that answers, the same batch records the two increments, one per method. -/
theorem handleBatch_RequestCount_lost_on_upstream_failure :
    (exampleDownHandler.ServeHTTP exampleStore exampleClock
      (exampleRequest "[\x7b\"method\":\"a\"\x7d,\x7b\"method\":\"b\"\x7d]".toList)).events.take 2 =
      [Event.spanStart "batch"
        [("mcp.method.name", AttrValue.str "batch"), ("network.transport", AttrValue.str "tcp"),
         ("network.protocol.name", AttrValue.str "http"),
         ("server.address", AttrValue.str "upstream"), ("server.port", AttrValue.int 3000)],
       Event.spanSetAttributes [("jsonrpc.batch.size", AttrValue.int 2)]] ∧
    ((exampleDownHandler.ServeHTTP exampleStore exampleClock
      (exampleRequest "[\x7b\"method\":\"a\"\x7d,\x7b\"method\":\"b\"\x7d]".toList)).events.filter
        Event.isSpanStart).length = 1 ∧
    ((exampleDownHandler.ServeHTTP exampleStore exampleClock
      (exampleRequest "[\x7b\"method\":\"a\"\x7d,\x7b\"method\":\"b\"\x7d]".toList)).response.map
        (fun w => w.statusCode)) = some 502 ∧
    (exampleDownHandler.ServeHTTP exampleStore exampleClock
      (exampleRequest "[\x7b\"method\":\"a\"\x7d,\x7b\"method\":\"b\"\x7d]".toList)).events.filter
        Event.isRequestCount = [] ∧
    (exampleHandler.ServeHTTP exampleStore exampleClock
      (exampleRequest "[\x7b\"method\":\"a\"\x7d,\x7b\"method\":\"b\"\x7d]".toList)).events.filter
        Event.isRequestCount =
      [Event.RequestCount [("mcp.method.name", AttrValue.str "a")],
       Event.RequestCount [("mcp.method.name", AttrValue.str "b")]] :=
  ⟨rfl, rfl, rfl, rfl, rfl⟩

/-- C20, at the failing input. A batch of two requests is parsed and the upstream cannot
be reached: the run sets no `error.type` attribute on the span it opened, which ends
right after the increment of the error counter; the increment of the error counter with
`upstream_error` is the only one, and no latency, duration or response size is recorded.
A single request in front of the same upstream does get the attribute. -/
theorem handleBatch_span_not_annotated_on_upstream_failure :
    (exampleDownHandler.ServeHTTP exampleStore exampleClock
      (exampleRequest "[\x7b\"method\":\"a\"\x7d,\x7b\"method\":\"b\"\x7d]".toList)).events.filter
        Event.isSpanErrorType = [] ∧
    (exampleDownHandler.ServeHTTP exampleStore exampleClock
      (exampleRequest "[\x7b\"method\":\"a\"\x7d,\x7b\"method\":\"b\"\x7d]".toList)).events.reverse.take 2 =
      [Event.spanEnd, Event.ErrorsTotal [("error.type", AttrValue.str "upstream_error")]] ∧
    (exampleDownHandler.ServeHTTP exampleStore exampleClock
      (exampleRequest "[\x7b\"method\":\"a\"\x7d,\x7b\"method\":\"b\"\x7d]".toList)).events.filter
        Event.isErrorsTotal = [Event.ErrorsTotal [("error.type", AttrValue.str "upstream_error")]] ∧
    (exampleDownHandler.ServeHTTP exampleStore exampleClock
      (exampleRequest "[\x7b\"method\":\"a\"\x7d,\x7b\"method\":\"b\"\x7d]".toList)).events.any
        Event.isResponseMeasurement = false ∧
    (exampleDownHandler.ServeHTTP exampleStore exampleClock
      (exampleRequest "\x7b\"method\":\"a\"\x7d".toList)).events.filter Event.isSpanErrorType =
      [Event.spanSetAttributes [("error.type", AttrValue.str "upstream_error")]] :=
  ⟨rfl, rfl, rfl, rfl, rfl⟩

/-! ## The up/down counter against the store -/

theorem counterValue_append (a b : List Notification) :
    counterValue (a ++ b) = counterValue a + counterValue b := by
  induction a with
  | nil => simp [counterValue]
  | cons n rest ih =>
    cases n <;> simp [counterValue, ih] <;> omega

theorem counterValue_removed {α : Type} (l : List α) :
    counterValue (l.map (fun _ => Notification.removed)) = -(l.length : Int) := by
  induction l with
  | nil => simp [counterValue]
  | cons x rest ih =>
    simp only [List.map_cons, counterValue, List.length_cons, ih]
    push_cast
    omega

theorem length_assocSet {α : Type} (k : String) (v : α) (l : List (String × α)) :
    (assocSet k v l).length = if k ∈ l.map Prod.fst then l.length else l.length + 1 := by
  have h := congrArg List.length (keys_assocSet k v l)
  rw [List.length_map] at h
  rw [h]
  split <;> simp

theorem StoreOp.apply_callbacks (ss : SessionStore) (op : StoreOp) :
    (op.apply ss).onAdd = ss.onAdd ∧ (op.apply ss).onRemove = ss.onRemove := by
  cases op with
  | get id now =>
    simp only [StoreOp.apply, SessionStore.Get]
    cases assocGet id ss.sessions <;> exact ⟨rfl, rfl⟩
  | track resp id created accessed =>
    simp only [StoreOp.apply, SessionStore.TrackInitialize]
    split <;> exact ⟨rfl, rfl⟩
  | evict now => exact ⟨rfl, rfl⟩

/-- The counter against the store, one operation: with both callbacks set, the change of
the counter is the change of `ActiveCount`, plus one when a `TrackInitialize` writes over
a record. -/
theorem StoreOp.counter_step (ss : SessionStore) (op : StoreOp)
    (ha : ss.onAdd = true) (hr : ss.onRemove = true) :
    counterValue (op.notes ss) + (ss.ActiveCount : Int) =
      ((op.apply ss).ActiveCount : Int) + (overwrites ss [op] : Int) := by
  cases op with
  | get id now =>
    simp only [StoreOp.notes, StoreOp.apply, overwrites, counterValue, SessionStore.ActiveCount]
    have : (ss.Get id now).2.sessions.length = ss.sessions.length := by
      have h := congrArg List.length (Get_ids ss id now)
      simpa [SessionStore.ids] using h
    rw [this]
    simp
  | track resp id created accessed =>
    simp only [StoreOp.notes, StoreOp.apply, overwrites, SessionStore.ActiveCount,
      SessionStore.TrackInitialize]
    by_cases h0 : id = ""
    · simp [h0, counterValue]
    · simp only [h0, if_false, ha, if_true, counterValue, length_assocSet, SessionStore.ids,
        ne_eq, not_false_eq_true, true_and]
      split <;> simp <;> omega
  | evict now =>
    simp only [StoreOp.notes, StoreOp.apply, overwrites, SessionStore.ActiveCount,
      SessionStore.evict, hr, if_true, counterValue_removed]
    have h := length_filter_add (fun kv : String × Session => ss.expired now kv.2) ss.sessions
    simp only [Nat.add_zero, Nat.cast_zero, add_zero]
    omega

/-- The counter against the store, any sequence of operations from any store with both
callbacks set: the counter moves by the change of `ActiveCount` plus the number of
`TrackInitialize` operations that wrote over a record. -/
theorem counter_eq_ActiveCount_add_overwrites (ops : List StoreOp) :
    ∀ ss : SessionStore, ss.onAdd = true → ss.onRemove = true →
      counterValue (runNotes ss ops) + (ss.ActiveCount : Int) =
        ((runOps ss ops).ActiveCount : Int) + (overwrites ss ops : Int) := by
  induction ops with
  | nil => intro ss _ _; simp [runNotes, runOps, overwrites, counterValue]
  | cons op rest ih =>
    intro ss ha hr
    have hc := StoreOp.apply_callbacks ss op
    have h1 := StoreOp.counter_step ss op ha hr
    have h2 := ih (op.apply ss) (hc.1.trans ha) (hc.2.trans hr)
    simp only [runNotes, runOps, counterValue_append]
    have h3 : (overwrites ss (op :: rest) : Int) =
        (overwrites ss [op] : Int) + (overwrites (op.apply ss) rest : Int) := by
      simp [overwrites]
    rw [h3]
    omega

/-! ## internal/telemetry/traces.go: properties -/

/-- A response info that `ExtractResponseInfo` classifies as a tool error has no code and
no message. -/
theorem ExtractResponseInfo_tool_error (resp : Response) (method : String)
    (h : (ExtractResponseInfo resp method).IsToolError = true) :
    ExtractResponseInfo resp method = ⟨0, "", true, true⟩ := by
  unfold ExtractResponseInfo at h ⊢
  cases he : resp.Error with
  | none =>
    rw [he] at h
    dsimp only at h ⊢
    split
    · rfl
    · rename_i hc
      rw [if_neg hc] at h
      simp at h
  | some e =>
    rw [he] at h
    simp at h

theorem EndMCPSpan_of_HasError (ri : ResponseInfo) (h : ri.HasError = true) :
    EndMCPSpan (some ri) =
      [Event.spanSetAttributes [("error.type", AttrValue.str ri.ErrorType)]] ++
      (if ri.ErrorCode ≠ 0 then
        [Event.spanSetAttributes [("rpc.response.status_code", AttrValue.str ri.ErrorType)]]
        else []) ++
      [Event.spanSetStatusError
          (if ri.IsToolError then "tool execution failed" else ri.ErrorMessage),
        Event.spanEnd] := by
  unfold EndMCPSpan
  simp [h]

/-- C21, the case the claim gets wrong. The response info of a tool error, as
`ExtractResponseInfo` makes it from a `tools/call` result with `isError` true, has
`ErrorCode` 0, and `EndMCPSpan` gives its span the attribute `error.type` with value
`tool_error` and the error status `tool execution failed`, and no
`rpc.response.status_code` attribute. -/
theorem EndMCPSpan_tool_error_without_status_code :
    ExtractResponseInfo ⟨"2.0", some (JSON.mkObj [("isError", JSON.bool true)]), none, none⟩
      "tools/call" = ⟨0, "", true, true⟩ ∧
    EndMCPSpan (some ⟨0, "", true, true⟩) =
      [Event.spanSetAttributes [("error.type", AttrValue.str "tool_error")],
       Event.spanSetStatusError "tool execution failed", Event.spanEnd] ∧
    (EndMCPSpan (some ⟨0, "", true, true⟩)).any Event.isStatusCode = false :=
  ⟨rfl, by decide, by decide⟩

/-- C21, amended. For every response info with `HasError`, `EndMCPSpan` sets `error.type`
to the error type, then sets `rpc.response.status_code` to the error type exactly when
`ErrorCode` is not 0, then sets the error status, described by `tool execution failed`
for a tool error and by the error message otherwise, and ends the span. So the span of a
tool error with `ErrorCode` 0, which is every tool error `ExtractResponseInfo` makes, gets
`error.type` `tool_error` and the status `tool execution failed` but no
`rpc.response.status_code`; the span of an error object with a code other than 0 gets the
decimal code under both attributes. Without `HasError`, and without a response info, the
span is only ended. -/
theorem EndMCPSpan_status_code :
    (∀ ri : ResponseInfo, ri.HasError = true →
      EndMCPSpan (some ri) =
        [Event.spanSetAttributes [("error.type", AttrValue.str ri.ErrorType)]] ++
        (if ri.ErrorCode ≠ 0 then
          [Event.spanSetAttributes [("rpc.response.status_code", AttrValue.str ri.ErrorType)]]
          else []) ++
        [Event.spanSetStatusError
            (if ri.IsToolError then "tool execution failed" else ri.ErrorMessage),
          Event.spanEnd] ∧
      ((EndMCPSpan (some ri)).any Event.isStatusCode = true ↔ ri.ErrorCode ≠ 0)) ∧
    (∀ ri : ResponseInfo, ri.HasError = true → ri.IsToolError = true → ri.ErrorCode = 0 →
      EndMCPSpan (some ri) =
        [Event.spanSetAttributes [("error.type", AttrValue.str "tool_error")],
         Event.spanSetStatusError "tool execution failed", Event.spanEnd]) ∧
    (∀ (resp : Response) (method : String),
      (ExtractResponseInfo resp method).IsToolError = true →
      EndMCPSpan (some (ExtractResponseInfo resp method)) =
        [Event.spanSetAttributes [("error.type", AttrValue.str "tool_error")],
         Event.spanSetStatusError "tool execution failed", Event.spanEnd] ∧
      (EndMCPSpan (some (ExtractResponseInfo resp method))).any Event.isStatusCode = false) ∧
    (∀ (resp : Response) (method : String) (e : Error), resp.Error = some e → e.Code ≠ 0 →
      EndMCPSpan (some (ExtractResponseInfo resp method)) =
        [Event.spanSetAttributes [("error.type", AttrValue.str (Itoa e.Code))],
         Event.spanSetAttributes [("rpc.response.status_code", AttrValue.str (Itoa e.Code))],
         Event.spanSetStatusError e.Message, Event.spanEnd]) ∧
    (∀ ri : ResponseInfo, ri.HasError = false → EndMCPSpan (some ri) = [Event.spanEnd]) ∧
    EndMCPSpan none = [Event.spanEnd] := by
  refine ⟨?_, ?_, ?_, ?_, ?_, rfl⟩
  · intro ri h
    refine ⟨EndMCPSpan_of_HasError ri h, ?_⟩
    rw [EndMCPSpan_of_HasError ri h]
    by_cases hc : ri.ErrorCode = 0
    · simp [hc, Event.isStatusCode]
    · simp [hc, Event.isStatusCode]
  · intro ri h ht hc
    rw [EndMCPSpan_of_HasError ri h]
    simp [hc, ht, ResponseInfo.ErrorType, h]
  · intro resp method h
    rw [ExtractResponseInfo_tool_error resp method h]
    exact ⟨by decide, by decide⟩
  · intro resp method e he hc
    have hi : ExtractResponseInfo resp method = ⟨e.Code, e.Message, true, false⟩ := by
      unfold ExtractResponseInfo
      simp [he]
    rw [hi, EndMCPSpan_of_HasError _ rfl]
    simp [hc, ResponseInfo.ErrorType]
  · intro ri h
    unfold EndMCPSpan
    simp [h]

/-- The span of the tool-error response of the scenario, and the span of a response with
the error object of code -32601. -/
theorem EndMCPSpan_status_code_witness :
    (ExtractResponseInfo ⟨"2.0", some (JSON.mkObj [("isError", JSON.bool true)]), none, none⟩
      "tools/call").IsToolError = true ∧
    (EndMCPSpan (some (ExtractResponseInfo
      ⟨"2.0", some (JSON.mkObj [("isError", JSON.bool true)]), none, none⟩ "tools/call"))).any
        Event.isStatusCode = false ∧
    EndMCPSpan (some (ExtractResponseInfo
      ⟨"2.0", none, some ⟨-32601, "Method not found", none⟩, none⟩ "tools/call")) =
      [Event.spanSetAttributes [("error.type", AttrValue.str "-32601")],
       Event.spanSetAttributes [("rpc.response.status_code", AttrValue.str "-32601")],
       Event.spanSetStatusError "Method not found", Event.spanEnd] :=
  ⟨rfl,
    (EndMCPSpan_status_code.2.2.1
      ⟨"2.0", some (JSON.mkObj [("isError", JSON.bool true)]), none, none⟩ "tools/call" rfl).2,
    (EndMCPSpan_status_code.2.2.2.1
      ⟨"2.0", none, some ⟨-32601, "Method not found", none⟩, none⟩ "tools/call"
      ⟨-32601, "Method not found", none⟩ rfl (by decide)).trans (by decide)⟩

end McpProxy
